import Mathlib

/-! # Tensor operators of the neural-network library

A shallow embedding of `nn/src/nn/tensor.c` and `nn/src/nn/operator.c`.

Modelling conventions

* `size_t` is an unsigned 64-bit integer: every `size_t` expression is a natural number
  reduced modulo `2 ^ 64`.  Loop counters never wrap because they stay below their bound.
* `int` is a 32-bit integer.  The conversion `(int) x` of a `size_t` reduces modulo `2 ^ 32`
  into `[-2 ^ 31, 2 ^ 31)`; signed overflow in `int` arithmetic is undefined behaviour.
* `float` is IEEE 754 binary32 (`F32`): NaN, the two infinities and the finite values, which
  are the integer multiples `m * 2 ^ (-149)` of the smallest subnormal.  Arithmetic rounds
  to nearest, ties to even.  The two zeros are identified and NaN carries no payload.
  Arithmetic and comparisons do not depend on the payload; `fmaxf` does (it returns a NaN for
  a signalling NaN operand and the other operand for a quiet one), so whether a NaN operand
  of `fmaxf` is signalling is an explicit argument.
* Memory is a map from buffer addresses to float arrays.  A `Tensor` value is the C struct:
  the `data` pointer and the three dimensions.  A `Tensor*` parameter is an `Option Tensor`
  (`none` is `NULL`).  Two tensors alias when their `data` pointers are equal.
* Every operator returns an `Option`: `none` stands for undefined behaviour (an access outside
  a buffer, a dangling or null `data` pointer that is dereferenced, signed overflow).
* `fprintf (stderr, ...)` appends the message to the `stderr` field of the state.
* The C library is a parameter (`Libc`, `Rng`): whether `malloc` and `calloc` have a block to
  give, the values of `rand ()`, `RAND_MAX` and `time (NULL)`.  A call of `printf` is recorded
  as its format string and arguments.
-/

set_option maxRecDepth 10000

set_option exponentiation.threshold 1024

namespace NN

/-! ## Machine integers -/

/-- The modulus of `size_t` arithmetic. -/
def SIZE_MOD : Nat := 2 ^ 64

/-- The conversion `(int) x` of a `size_t` value `x`: the low 32 bits of `x` read as a
two-complement number. -/
def toInt (x : Nat) : Int :=
  if x % 2 ^ 32 < 2 ^ 31 then ((x % 2 ^ 32 : Nat) : Int)
  else ((x % 2 ^ 32 : Nat) : Int) - ((2 ^ 32 : Nat) : Int)

/-- The value of an `int` expression whose mathematical result is `z`: the result is `z`
when `-2 ^ 31 ≤ z < 2 ^ 31` (tested on the natural numbers `max z 0` and `max (-z) 0`), and
signed overflow is undefined behaviour. -/
def intResult (z : Int) : Option Int :=
  if z.toNat < 2 ^ 31 ∧ (-z).toNat ≤ 2 ^ 31 then some z else none

/-- The conversion of an `int` argument to a `size_t` parameter. -/
def toSize (z : Int) : Nat := (z % ((2 ^ 64 : Nat) : Int)).toNat

/-! ## Binary32 floating point -/

/-- A binary32 value.  `fin m` is the finite value `m * 2 ^ (-149)`. -/
inductive F32 where
  | nan : F32
  | ninf : F32
  | pinf : F32
  | fin (m : Int) : F32
deriving DecidableEq

namespace F32

/-- The least shift `s ≥ s₀` for which `n / 2 ^ s` fits in 24 bits (search bounded by fuel). -/
def roundShift : Nat → Nat → Nat → Nat
  | 0, _, s => s
  | fuel + 1, n, s => if n / 2 ^ s < 2 ^ 24 then s else roundShift fuel n (s + 1)

/-- Round the magnitude `n * 2 ^ (-(149 + u))` to the binary32 grid, to nearest and ties to
even; the result is in units of `2 ^ (-149)`. -/
def roundNat (n u : Nat) : Nat :=
  let s := roundShift n n u
  let q := n / 2 ^ s
  let r := n % 2 ^ s
  let q1 := if 2 ^ s < 2 * r ∨ (2 * r = 2 ^ s ∧ q % 2 = 1) then q + 1 else q
  q1 * 2 ^ (s - u)

/-- The binary32 value nearest to the exact value `z * 2 ^ (-(149 + u))`;
magnitudes that round to `2 ^ 128` or more overflow to an infinity. -/
def ofExact (z : Int) (u : Nat) : F32 :=
  let mag := roundNat z.natAbs u
  if 2 ^ 128 * 2 ^ 149 ≤ mag then (if z < 0 then ninf else pinf)
  else fin (if z < 0 then -(mag : Int) else (mag : Int))

/-- The binary32 value nearest to the integer `z`. -/
def ofInt (z : Int) : F32 := ofExact (z * ((2 ^ 149 : Nat) : Int)) 0

/-- The constant `0.0f`. -/
def zero : F32 := fin 0

/-- The constant `1.0f`. -/
def one : F32 := fin ((2 ^ 149 : Nat) : Int)

/-- The constant `FLT_MAX`, `(2 ^ 24 - 1) * 2 ^ 104`. -/
def FLT_MAX : F32 := fin (((2 ^ 24 - 1) * 2 ^ 253 : Nat) : Int)

/-- Unary minus. -/
def neg : F32 → F32
  | nan => nan
  | ninf => pinf
  | pinf => ninf
  | fin m => fin (-m)

/-- Binary32 addition. -/
def add : F32 → F32 → F32
  | fin a, fin b => ofExact (a + b) 0
  | nan, _ => nan
  | _, nan => nan
  | pinf, ninf => nan
  | ninf, pinf => nan
  | pinf, _ => pinf
  | ninf, _ => ninf
  | _, pinf => pinf
  | _, ninf => ninf

/-- Binary32 multiplication. -/
def mul : F32 → F32 → F32
  | fin a, fin b => ofExact (a * b) 149
  | nan, _ => nan
  | _, nan => nan
  | pinf, pinf => pinf
  | ninf, ninf => pinf
  | pinf, ninf => ninf
  | ninf, pinf => ninf
  | pinf, fin a => if a = 0 then nan else if a < 0 then ninf else pinf
  | ninf, fin a => if a = 0 then nan else if a < 0 then pinf else ninf
  | fin a, pinf => if a = 0 then nan else if a < 0 then ninf else pinf
  | fin a, ninf => if a = 0 then nan else if a < 0 then pinf else ninf

/-- The comparison `x < y`; false when an operand is NaN. -/
def lt : F32 → F32 → Bool
  | fin a, fin b => decide (a < b)
  | ninf, fin _ => true
  | ninf, pinf => true
  | fin _, pinf => true
  | _, _ => false

/-- The comparison `x <= y`; false when an operand is NaN. -/
def le : F32 → F32 → Bool
  | fin a, fin b => decide (a ≤ b)
  | ninf, ninf => true
  | ninf, fin _ => true
  | ninf, pinf => true
  | fin _, pinf => true
  | pinf, pinf => true
  | _, _ => false

instance : Zero F32 := ⟨zero⟩

instance : One F32 := ⟨one⟩

instance : Neg F32 := ⟨neg⟩

instance : Add F32 := ⟨add⟩

instance : Mul F32 := ⟨mul⟩

instance : LT F32 := ⟨fun x y => lt x y = true⟩

instance : LE F32 := ⟨fun x y => le x y = true⟩

instance (x y : F32) : Decidable (x < y) := inferInstanceAs (Decidable (lt x y = true))

instance (x y : F32) : Decidable (x ≤ y) := inferInstanceAs (Decidable (le x y = true))

/-- The C library function `fmaxf`.  A quiet NaN operand is treated as missing data and the
other operand is returned; a signalling NaN operand makes the result a NaN; two NaN operands
give a NaN.  `sx` and `sy` say whether `x` and `y`, when they are NaN, are signalling. -/
def fmaxf (sx sy : Bool) (x y : F32) : F32 :=
  match x, y with
  | nan, nan => nan
  | nan, y => if sx then nan else y
  | x, nan => if sy then nan else x
  | x, y => if x < y then y else x

/-- A finite binary32 value: a finite number that rounding leaves unchanged. -/
def IsFinite (x : F32) : Prop := ∃ m : Int, x = fin m ∧ ofExact m 0 = fin m

end F32

/-! ## Memory and tensors -/

/-- The heap of float buffers: address to contents; `none` is an address with no live buffer. -/
abbrev Mem := Nat → Option (List F32)

/-- The program state: the heap and what has been written to `stderr`. -/
structure State where
  mem : Mem
  stderr : List String

/-- The struct `Tensor`: `data` is the address of the buffer (`none` is `NULL`). -/
structure Tensor where
  data : Option Nat
  width : Nat
  height : Nat
  channels : Nat
deriving DecidableEq

/-- The effect of `fprintf (stderr, msg)`. -/
def State.fprintf (s : State) (msg : String) : State :=
  { s with stderr := s.stderr ++ [msg] }

/-- The array that the pointer `data` points to, when there is one. -/
def State.buf (s : State) (data : Option Nat) : Option (List F32) :=
  data.bind s.mem

/-- The read `data[i]` through the pointer `data`. -/
def State.rd (s : State) (data : Option Nat) (i : Nat) : Option F32 :=
  (s.buf data).bind (fun b => b[i]?)

/-- The write `data[i] = v` through the pointer `data`. -/
def State.wr (s : State) (data : Option Nat) (i : Nat) (v : F32) : Option State :=
  match data, s.buf data with
  | some p, some b =>
    if i < b.length then some { s with mem := Function.update s.mem p (some (b.set i v)) }
    else none
  | _, _ => none

/-- A `for (size_t i = lo; i < hi; i++)` loop over a state of type `σ`. -/
def forLoop {σ : Type} (lo hi : Nat) (body : Nat → σ → Option σ) (s : σ) : Option σ :=
  (List.range' lo (hi - lo)).foldlM (fun acc i => body i acc) s

/-- The linear offset of element `(w, h, c)`, computed in `size_t`. -/
def offset (t : Tensor) (w h c : Nat) : Nat :=
  (c * t.width * t.height + h * t.width + w) % SIZE_MOD

/-- The function `get_tensor_element` of `tensor.c`. -/
def get_tensor_element (s : State) (tensor : Option Tensor) (w h c : Nat) : Option F32 :=
  match tensor with
  | none => some 0
  | some t =>
    if t.data = none ∨ w ≥ t.width ∨ h ≥ t.height ∨ c ≥ t.channels then some 0
    else s.rd t.data (offset t w h c)

/-- The function `set_tensor_element` of `tensor.c`. -/
def set_tensor_element (s : State) (tensor : Option Tensor) (w h c : Nat) (value : F32) :
    Option State :=
  match tensor with
  | none => some s
  | some t =>
    if t.data = none ∨ w ≥ t.width ∨ h ≥ t.height ∨ c ≥ t.channels then some s
    else s.wr t.data (offset t w h c) value

/-! ## Operators (`operator.c`) -/

/-- The statement `if (bias && bias->data) sum += bias->data[idx];`. -/
def add_bias (s : State) (bias : Option Tensor) (idx : Nat) (sum : F32) : Option F32 :=
  match bias with
  | none => some sum
  | some b =>
    if b.data = none then some sum
    else (s.rd b.data idx).bind (fun v => some (sum + v))

/-- The kernel loops of `conv2d` for one output position (source lines 31 to 52). -/
def conv2d_sum (s : State) (input weights : Tensor) (kernel_size pad out_w out_h out_c : Nat) :
    Option F32 :=
  forLoop 0 input.channels (fun in_c sum =>
    forLoop 0 kernel_size (fun k_h sum =>
      forLoop 0 kernel_size (fun k_w sum =>
        (intResult (toInt out_h + toInt k_h)).bind fun t_h =>
        (intResult (t_h - toInt pad)).bind fun in_h =>
        (intResult (toInt out_w + toInt k_w)).bind fun t_w =>
        (intResult (t_w - toInt pad)).bind fun in_w =>
        if 0 ≤ in_h ∧ in_h < toInt input.height ∧ 0 ≤ in_w ∧ in_w < toInt input.width then
          (get_tensor_element s (some input) (toSize in_w) (toSize in_h) in_c).bind
            fun input_val =>
          (get_tensor_element s (some weights) k_w k_h out_c).bind fun weight_val =>
          some (sum + input_val * weight_val)
        else some sum) sum) sum) 0

/-- The function `conv2d` of `operator.c`. -/
def conv2d (s : State) (output input weights bias : Option Tensor) : Option State :=
  match output, input, weights with
  | some out, some inp, some wts =>
    let kernel_size := wts.height
    let pad := kernel_size / 2
    forLoop 0 out.channels (fun out_c s =>
      forLoop 0 out.height (fun out_h s =>
        forLoop 0 out.width (fun out_w s =>
          (conv2d_sum s inp wts kernel_size pad out_w out_h out_c).bind fun sum =>
          (add_bias s bias out_c sum).bind fun sum =>
          set_tensor_element s (some out) out_w out_h out_c sum) s) s) s
  | _, _, _ => some (s.fprintf "Error: Invalid tensors for conv2d operation\n")

/-- The inner loop of `linear` for one output index (source lines 84 to 89). -/
def linear_sum (s : State) (input weights : Tensor) (input_size out_idx : Nat) : Option F32 :=
  forLoop 0 input_size (fun in_idx sum =>
    (s.rd input.data in_idx).bind fun x =>
    (s.rd weights.data ((out_idx * input_size + in_idx) % SIZE_MOD)).bind fun w =>
    some (sum + x * w)) 0

/-- The function `linear` of `operator.c`. -/
def linear (s : State) (output input weights bias : Option Tensor) : Option State :=
  match output, input, weights with
  | some out, some inp, some wts =>
    let input_size := (inp.width * inp.height * inp.channels) % SIZE_MOD
    let output_size := (out.width * out.height * out.channels) % SIZE_MOD
    forLoop 0 output_size (fun out_idx s =>
      (linear_sum s inp wts input_size out_idx).bind fun sum =>
      (add_bias s bias out_idx sum).bind fun sum =>
      s.wr out.data out_idx sum) s
  | _, _, _ => some (s.fprintf "Error: Invalid tensors for linear operation\n")

/-- The function `relu` of `operator.c`.  `snan i` says whether `input->data[i]`, when it is
a NaN, is a signalling NaN; the first operand of `fmaxf` is the constant `0.0f`. -/
def relu (s : State) (snan : Nat → Bool) (output input : Option Tensor) : Option State :=
  match output, input with
  | some out, some inp =>
    if out.width ≠ inp.width ∨ out.height ≠ inp.height ∨ out.channels ≠ inp.channels then
      some (s.fprintf "Error: Input and output tensors must have same dimensions for relu\n")
    else
      let total_elements := (inp.width * inp.height * inp.channels) % SIZE_MOD
      forLoop 0 total_elements (fun i s =>
        (s.rd inp.data i).bind fun x =>
        s.wr out.data i (F32.fmaxf false (snan i) 0 x)) s
  | _, _ => some (s.fprintf "Error: Invalid tensors for relu operation\n")

/-- The window loops of `maxpool2d` for one output position (source lines 149 to 166). -/
def maxpool2d_max (s : State) (input : Tensor) (pool_size out_w out_h c : Nat) : Option F32 :=
  forLoop 0 pool_size (fun pool_h max_val =>
    forLoop 0 pool_size (fun pool_w max_val =>
      let in_h := (out_h * pool_size + pool_h) % SIZE_MOD
      let in_w := (out_w * pool_size + pool_w) % SIZE_MOD
      if in_h < input.height ∧ in_w < input.width then
        (get_tensor_element s (some input) in_w in_h c).bind fun val =>
        if max_val < val then some val else some max_val
      else some max_val) max_val) (-F32.FLT_MAX)

/-- The function `maxpool2d` of `operator.c`. -/
def maxpool2d (s : State) (output input : Option Tensor) (pool_size : Nat) : Option State :=
  match output, input with
  | some out, some inp =>
    if pool_size = 0 then some (s.fprintf "Error: Invalid pool size for maxpool2d\n")
    else
      forLoop 0 out.channels (fun c s =>
        forLoop 0 out.height (fun out_h s =>
          forLoop 0 out.width (fun out_w s =>
            (maxpool2d_max s inp pool_size out_w out_h c).bind fun max_val =>
            set_tensor_element s (some out) out_w out_h c max_val) s) s) s
  | _, _ => some (s.fprintf "Error: Invalid tensors for maxpool2d operation\n")

/-- The function `flatten` of `operator.c`. -/
def flatten (s : State) (output input : Option Tensor) : Option State :=
  match output, input with
  | some out, some inp =>
    if out.data = none ∨ inp.data = none then
      some (s.fprintf "Error: Tensors have NULL data for flatten operation\n")
    else
      let input_total := (inp.channels * inp.height * inp.width) % SIZE_MOD
      let output_total := (out.channels * out.height * out.width) % SIZE_MOD
      if input_total ≠ output_total then
        some (s.fprintf ("Error: Output tensor size (" ++ toString output_total ++
          ") doesn't match input tensor size (" ++ toString input_total ++ ")\n"))
      else
        forLoop 0 input_total (fun i s =>
          (s.rd inp.data i).bind fun x =>
          s.wr out.data i x) s
  | _, _ => some (s.fprintf "Error: Invalid tensors for flatten operation\n")

/-- The function `max` of `operator.c`.  The pointers `output` and `index` are given by the
contents of the cells they point to (`none` is `NULL`); the new contents are returned. -/
def max (s : State) (output : Option F32) (index : Option Int) (input : Option Tensor) :
    Option (State × Option F32 × Option Int) :=
  match output, index, input with
  | some _, some _, some inp =>
    if inp.data = none then
      some (s.fprintf "Error: Invalid parameters for max operation\n", output, index)
    else
      let input_total := (inp.channels * inp.height * inp.width) % SIZE_MOD
      if input_total = 0 then
        some (s.fprintf "Error: Input tensor is empty\n", output, index)
      else
        (s.rd inp.data 0).bind fun first =>
        (forLoop 1 input_total (fun i (acc : F32 × Int) =>
          (s.rd inp.data i).bind fun x =>
          if acc.1 < x then some (x, toInt i) else some acc) (first, 0)).bind fun acc =>
        some (s, some acc.1, some acc.2)
  | _, _, _ => some (s.fprintf "Error: Invalid parameters for max operation\n", output, index)

/-! ## Well-formed operands -/

/-- The tensor `t` has, in state `s`, the live buffer `buf` of `width * height * channels`
floats; an array of 4-byte floats fits in the 64-bit address space. -/
def Tensor.Holds (t : Tensor) (s : State) (buf : List F32) : Prop :=
  s.buf t.data = some buf ∧ buf.length = t.width * t.height * t.channels ∧
    4 * buf.length < 2 ^ 64

instance (t : Tensor) (s : State) (buf : List F32) : Decidable (t.Holds s buf) :=
  inferInstanceAs (Decidable (_ ∧ _))

/-- The bias operand is absent, or has a null `data` pointer, or has a live buffer of at
least `n` floats. -/
def BiasOK (s : State) (bias : Option Tensor) (n : Nat) : Prop :=
  match bias with
  | none => True
  | some b => b.data = none ∨ ∃ bb, s.buf b.data = some bb ∧ n ≤ bb.length

/-- The value `Get (t, w, h, c)`: what `get_tensor_element` returns. -/
def Get (s : State) (t : Tensor) (w h c : Nat) : F32 :=
  (get_tensor_element s (some t) w h c).getD 0

/-- The invariant of the output loops of `conv2d` and `maxpool2d` after the cells at the
first `n` linear offsets have been written: only the buffer of `out` has changed and each
written cell holds the value `v` of its coordinate. -/
def CellInv (s0 : State) (out : Tensor) (v : Nat → Nat → Nat → F32) (n : Nat) (s : State) :
    Prop :=
  (∀ d, d ≠ out.data → s.buf d = s0.buf d) ∧ s.stderr = s0.stderr ∧
    ∃ b, out.Holds s b ∧ ∀ w h c, w < out.width → h < out.height → c < out.channels →
      c * out.width * out.height + h * out.width + w < n →
      b[c * out.width * out.height + h * out.width + w]? = some (v w h c)

/-- The bias term of the specification: `sum + bias[idx]` when a bias is provided (a non-null
operand with non-null data), `sum` otherwise. -/
def add_bias_spec (s : State) (bias : Option Tensor) (idx : Nat) (sum : F32) : F32 :=
  match bias with
  | none => sum
  | some b => if b.data = none then sum else sum + (s.rd b.data idx).getD 0

/-- The value that the specification of `conv2d` gives to the output position
`(out_w, out_h, out_c)`: the sum over `in_c`, `k_h`, `k_w` (in this nesting order) of
`Get (input, in_w, in_h, in_c) * Get (weights, k_w, k_h, out_c)` restricted to the terms with
`0 ≤ in_h < input.height` and `0 ≤ in_w < input.width`, where `in_h = out_h + k_h - pad` and
`in_w = out_w + k_w - pad` are integers, `K = weights.height` and `pad = K / 2`;
plus `bias[out_c]` when a bias is provided. -/
def conv2d_spec (s : State) (input weights : Tensor) (bias : Option Tensor)
    (out_w out_h out_c : Nat) : F32 :=
  let K := weights.height
  let pad := K / 2
  let sum := (List.range input.channels).foldl (fun (acc : F32) (in_c : Nat) =>
    (List.range K).foldl (fun (acc : F32) (k_h : Nat) =>
      (List.range K).foldl (fun (acc : F32) (k_w : Nat) =>
        let in_h : Int := (out_h : Int) + (k_h : Int) - (pad : Int)
        let in_w : Int := (out_w : Int) + (k_w : Int) - (pad : Int)
        if 0 ≤ in_h ∧ in_h < (input.height : Int) ∧ 0 ≤ in_w ∧ in_w < (input.width : Int) then
          acc + Get s input in_w.toNat in_h.toNat in_c * Get s weights k_w k_h out_c
        else acc) acc) acc) 0
  add_bias_spec s bias out_c sum

/-- The state whose heap holds the buffers of `l` at the addresses `0, 1, 2, ...` and whose
`stderr` is empty. -/
def State.ofBufs (l : List (List F32)) : State :=
  ⟨fun p => l[p]?, []⟩

/-- A 2 x 2 x 1 input convolved with a 3 x 3 x 1 kernel and a one-element bias. -/
def conv2d_example_state : State :=
  State.ofBufs [[0, 0, 0, 0], [F32.ofInt 1, F32.ofInt 2, F32.ofInt 3, F32.ofInt 4],
    [1, 1, 1, 1, 1, 1, 1, 1, 1], [F32.ofInt 5]]

/-- An input of width 1 and height `2 ^ 31 + 1` filled with ones, a 1 x 1 x 1 kernel holding
one and a 1 x 1 x 1 output. -/
def conv2d_tall_state : State :=
  State.ofBufs [[0], List.replicate (2 ^ 31 + 1) 1, [1]]

/-- The bias operand is absent, or has a live buffer of at least `n` floats of which the
first `n` are zero. -/
def ZeroBias (s : State) (bias : Option Tensor) (n : Nat) : Prop :=
  match bias with
  | none => True
  | some b => ∃ bb, s.buf b.data = some bb ∧ n ≤ bb.length ∧ ∀ i, i < n → bb[i]? = some 0

/-- The number of positions of the 3 x 3 window centred on `(w, h)` that lie inside an input
of width `W` and height `H`. -/
def windowCount (W H w h : Nat) : Nat :=
  ((List.range 3).product (List.range 3)).countP (fun k =>
    decide (0 ≤ (h : Int) + (k.1 : Int) - 1 ∧ (h : Int) + (k.1 : Int) - 1 < (H : Int) ∧
      0 ≤ (w : Int) + (k.2 : Int) - 1 ∧ (w : Int) + (k.2 : Int) - 1 < (W : Int)))

/-- A 4 x 4 x 1 input of ones, a 3 x 3 x 1 kernel of ones, a one-element zero bias and a
4 x 4 x 1 output. -/
def conv2d_ones_state : State :=
  State.ofBufs [List.replicate 16 0, List.replicate 16 1, List.replicate 9 1, [0]]

/-- An input and an output of width 1 and height `2 ^ 31 + 1`, the input filled with ones,
and a 3 x 3 x 1 kernel of ones. -/
def conv2d_tall_ones_state : State :=
  State.ofBufs [List.replicate (2 ^ 31 + 1) 0, List.replicate (2 ^ 31 + 1) 1,
    List.replicate 9 1]

/-- The invariant of a loop that stores `v i` at `data[i]` for `i = 0, 1, ...`, after `k`
iterations: the other buffers and `stderr` are as in `s0`, and the buffer of `data` holds
the `k` stored values followed by what is left of its original content `b0`. -/
def VecInv (s0 : State) (data : Option Nat) (b0 : List F32) (v : Nat → F32) (k : Nat)
    (s : State) : Prop :=
  (∀ d, d ≠ data → s.buf d = s0.buf d) ∧ s.stderr = s0.stderr ∧
    s.buf data = some ((List.range k).map v ++ b0.drop k)

/-- The value that `linear` computes for `output[o]`, written with the raw indices of the
source: the sum over `i < input_size`, in increasing `i`, of
`input.data[i] * weights.data[o * input_size + i]`, plus `bias.data[o]` when a bias is
provided. -/
def linear_raw (s : State) (input weights : Tensor) (bias : Option Tensor) (o : Nat) : F32 :=
  add_bias_spec s bias o ((List.range (input.width * input.height * input.channels)).foldl
    (fun (acc : F32) (i : Nat) => acc + (s.rd input.data i).getD 0 *
      (s.rd weights.data (o * (input.width * input.height * input.channels) + i)).getD 0) 0)

/-- The value that the specification of `linear` gives to `output[o]`: the sum over
`i < input_size`, in increasing `i`, of `input.data[i] * Get (weights, i, o, 0)`, plus
`bias.data[o]` when a bias is provided. -/
def linear_spec (s : State) (input weights : Tensor) (bias : Option Tensor) (o : Nat) : F32 :=
  add_bias_spec s bias o ((List.range (input.width * input.height * input.channels)).foldl
    (fun (acc : F32) (i : Nat) => acc + (s.rd input.data i).getD 0 * Get s weights i o 0) 0)

/-- The scenario of the specification: input `[1, 2]`, the 2 x 2 identity matrix
`[1, 0, 0, 1]` as weights, bias `[0, 0]` and a two-element output. -/
def linear_example_state : State :=
  State.ofBufs [[0, 0], [F32.ofInt 1, F32.ofInt 2], [1, 0, 0, 1], [0, 0]]

/-- The input `[+inf, 1]` with the 2 x 2 identity matrix as weights and a two-element
output. -/
def linear_inf_state : State :=
  State.ofBufs [[0, 0], [F32.pinf, 1], [1, 0, 0, 1]]

/-- The invariant of the scan of `max` after the elements before position `k` have been
examined: the running maximum is the element at some position `j < k`, the running index is
`(int) j`, no examined element is larger and every element before `j` is smaller. -/
def MaxInv (b : List F32) (k : Nat) (acc : F32 × Int) : Prop :=
  ∃ j, j < k ∧ acc.2 = toInt j ∧ b[j]? = some acc.1 ∧
    (∀ i, i < k → ∀ x, b[i]? = some x → x ≤ acc.1) ∧
    (∀ i, i < j → ∀ x, b[i]? = some x → x < acc.1)

/-- The binary32 constant `0.1f`, which is `13421773 * 2 ^ (-27)`. -/
def F32.c0_1 : F32 := F32.fin ((13421773 * 2 ^ 122 : Nat) : Int)

/-- The binary32 constant `-0.5f`. -/
def F32.cm0_5 : F32 := F32.fin (-((2 ^ 148 : Nat) : Int))

/-- The binary32 constant `0.9f`, which is `15099494 * 2 ^ (-24)`. -/
def F32.c0_9 : F32 := F32.fin ((15099494 * 2 ^ 125 : Nat) : Int)

/-- The scenario of the specification for `max`: the buffer `[0.1, -0.5, 0.9, 0.9]`. -/
def max_example_state : State :=
  State.ofBufs [[F32.c0_1, F32.cm0_5, F32.c0_9, F32.c0_9]]

/-- The buffer `[1, NaN]`. -/
def max_nan_state : State :=
  State.ofBufs [[1, F32.nan]]

/-- A buffer of `2 ^ 31` zeros followed by a one. -/
def max_long_state : State :=
  State.ofBufs [List.replicate (2 ^ 31) 0 ++ [1]]

/-- The value that the window loops of `maxpool2d` compute for one output position when no
read faults: the running maximum, started at `-FLT_MAX`, over the window positions that pass
the bounds test, `pool_h` outermost. -/
def maxpool2d_fold (s : State) (input : Tensor) (pool_size out_w out_h c : Nat) : F32 :=
  (List.range pool_size).foldl (fun (acc : F32) (pool_h : Nat) =>
    (List.range pool_size).foldl (fun (acc : F32) (pool_w : Nat) =>
      if (out_h * pool_size + pool_h) % SIZE_MOD < input.height ∧
          (out_w * pool_size + pool_w) % SIZE_MOD < input.width then
        if acc < Get s input ((out_w * pool_size + pool_w) % SIZE_MOD)
            ((out_h * pool_size + pool_h) % SIZE_MOD) c then
          Get s input ((out_w * pool_size + pool_w) % SIZE_MOD)
            ((out_h * pool_size + pool_h) % SIZE_MOD) c
        else acc
      else acc) acc) (-F32.FLT_MAX)

/-- A 4 x 4 x 1 input holding 1, 2, ..., 16 and a 2 x 2 x 1 output. -/
def maxpool2d_example_state : State :=
  State.ofBufs [[0, 0, 0, 0], (List.range 16).map (fun i => F32.ofInt ((i + 1 : Nat) : Int))]

/-- A 1 x 1 x 1 output (address 0), the input `[-inf]` (address 1), the input `[NaN]`
(address 2) and the input `[NaN, 1]` (address 3). -/
def maxpool2d_special_state : State :=
  State.ofBufs [[0], [F32.ninf], [F32.nan], [F32.nan, 1]]

/-- Three 4 x 1 x 1 tensors holding `[-1, 2, NaN, -inf]`, zeros and zeros. -/
def relu_example_state : State :=
  State.ofBufs [[F32.ofInt (-1), F32.ofInt 2, F32.nan, F32.ninf], [0, 0, 0, 0], [0, 0, 0, 0]]

/-- A 2 x 2 x 2 tensor holding 1, ..., 8 (address 0), an 8 x 1 x 1 tensor of zeros
(address 1) and a second 2 x 2 x 2 tensor of zeros (address 2). -/
def flatten_example_state : State :=
  State.ofBufs [(List.range 8).map (fun i => F32.ofInt ((i + 1 : Nat) : Int)),
    List.replicate 8 0, List.replicate 8 0]

/-- A 2 x 2 x 2 tensor holding 1, ..., 8 at address 0. -/
def access_example_state : State :=
  State.ofBufs [(List.range 8).map (fun i => F32.ofInt ((i + 1 : Nat) : Int))]

/-- The state `t` has live buffers at the same addresses as `s`, each of the same length. -/
def SameShape (s t : State) : Prop :=
  ∀ d, (t.buf d).map List.length = (s.buf d).map List.length

/-- A two-element output (address 0), the input `[1, 2]` (address 1), four weights
(address 2), the bias `[0, 0]` (address 3) and a short weights buffer of three elements
(address 4). -/
def linear_short_state : State :=
  State.ofBufs [[0, 0], [F32.ofInt 1, F32.ofInt 2], [1, 0, 0, 1], [0, 0], [1, 0, 0]]

/-! ## More binary32 arithmetic -/

/-- Binary32 subtraction. -/
def F32.sub (x y : F32) : F32 := F32.add x (F32.neg y)

/-- Binary32 division.  The quotient of two finite values is computed to one bit below the
unit `2 ^ (-150)`, a sticky bit recording a non-zero remainder, and then rounded.  A zero
divisor is taken as `+0`. -/
def F32.div : F32 → F32 → F32
  | .fin a, .fin b =>
    if b = 0 then (if a = 0 then .nan else if a < 0 then .ninf else .pinf)
    else
      let n := a.natAbs * 2 ^ 150
      let q := 2 * (n / b.natAbs) + (if n % b.natAbs = 0 then 0 else 1)
      F32.ofExact (if (a < 0) = (b < 0) then (q : Int) else -(q : Int)) 2
  | .nan, _ => .nan
  | _, .nan => .nan
  | .pinf, .fin b => if b < 0 then .ninf else .pinf
  | .ninf, .fin b => if b < 0 then .pinf else .ninf
  | .fin _, .pinf => .fin 0
  | .fin _, .ninf => .fin 0
  | _, _ => .nan

/-- The C library function `sqrtf`, correctly rounded: the integer square root is taken to
one bit below the unit `2 ^ (-150)`, with a sticky bit when it is not exact. -/
def F32.sqrtf : F32 → F32
  | .nan => .nan
  | .ninf => .nan
  | .pinf => .pinf
  | .fin m =>
    if m < 0 then .nan
    else
      let n := m.toNat * 2 ^ 151
      let r := Nat.sqrt n
      F32.ofExact ((2 * r + (if r * r = n then 0 else 1) : Nat) : Int) 2

instance : Sub F32 := ⟨F32.sub⟩

instance : Div F32 := ⟨F32.div⟩
/-! ## Allocation, random initialisation and printing (`tensor.c`) -/

/-- What the program sees of the pseudo-random generator: the static flag `seed_initialized`
of `random_init_tensor` and the values that the coming calls of `rand ()` return. -/
structure Rng where
  seed_initialized : Bool
  next : Nat → Nat

/-- The C library as `tensor.c` uses it: the constant `RAND_MAX`, the value of `time (NULL)`,
the sequence of `rand ()` values that `srand (seed)` selects, whether
`malloc (sizeof (Tensor))` returns a block, and the address that the allocator has for
`calloc` (`none` when it is out of memory). -/
structure Libc where
  RAND_MAX : Nat
  time : Nat
  srand : Nat → Nat → Nat
  malloc_ok : Bool
  calloc_ptr : Option Nat

/-- The C library function `calloc (nmemb, sizeof (float))`: it fails when the allocator has
no block or when the size `4 * nmemb` bytes is not a `size_t`; otherwise it returns the
address of a fresh block of `nmemb` zero floats (an address that holds a live buffer is not
fresh and is not returned). -/
def calloc (s : State) (p : Option Nat) (nmemb : Nat) : State × Option Nat :=
  match p with
  | none => (s, none)
  | some a =>
    if 4 * nmemb < SIZE_MOD ∧ s.mem a = none then
      ({ s with mem := Function.update s.mem a (some (List.replicate nmemb 0)) }, some a)
    else (s, none)

/-- The function `random_init_tensor` of `tensor.c`. -/
def random_init_tensor (s : State) (g : Rng) (lc : Libc) (tensor : Option Tensor) :
    Option (State × Rng) :=
  match tensor with
  | none => some (s.fprintf "Error: Invalid tensor for random initialization\n", g)
  | some t =>
    if t.data = none then
      some (s.fprintf "Error: Invalid tensor for random initialization\n", g)
    else
      let rand : Nat → Nat := if g.seed_initialized then g.next else lc.srand (lc.time % 2 ^ 32)
      let total_elements := (t.width * t.height * t.channels) % SIZE_MOD
      let scale := F32.sqrtf (1 / F32.ofInt total_elements)
      (forLoop 0 total_elements (fun i s =>
        let random_val := F32.ofInt (rand i) / F32.ofInt lc.RAND_MAX * F32.ofInt 2 - 1
        s.wr t.data i (random_val * scale)) s).bind fun s1 =>
      some (s1, ⟨true, fun k => rand (total_elements + k)⟩)

/-- The function `create_tensor` of `tensor.c`.  The result is the new state and the pointer
returned (`none` is `NULL`); the struct itself is the value `Tensor`. -/
def create_tensor (s : State) (g : Rng) (lc : Libc) (width height channels : Nat)
    (random_init : Bool) : Option (State × Rng × Option Tensor) :=
  if width = 0 ∨ height = 0 ∨ channels = 0 then
    some (s.fprintf "Error: Invalid tensor dimensions\n", g, none)
  else if lc.malloc_ok = false then
    some (s.fprintf "Error: Failed to allocate memory for tensor structure\n", g, none)
  else
    let total_size := (width * height * channels) % SIZE_MOD
    match calloc s lc.calloc_ptr total_size with
    | (s1, none) =>
      some (s1.fprintf "Error: Failed to allocate memory for tensor data\n", g, none)
    | (s1, some p) =>
      let tensor : Tensor := ⟨some p, width, height, channels⟩
      if random_init then
        (random_init_tensor s1 g lc (some tensor)).bind fun r => some (r.1, r.2, some tensor)
      else some (s1, g, some tensor)

/-- An argument of a `printf` call. -/
inductive Arg where
  | zu (n : Nat) : Arg
  | f (x : F32) : Arg
deriving DecidableEq

/-- One call of `printf`: the format string and the arguments. -/
structure Printf where
  fmt : String
  args : List Arg
deriving DecidableEq

/-- The `size_t` difference `a - b`. -/
def subSize (a b : Nat) : Nat := (a + SIZE_MOD - b % SIZE_MOD) % SIZE_MOD

/-- The branch of `print_tensor` for more than 100 elements (source lines 153 to 190). -/
def print_tensor_large (s : State) (t : Tensor) (total_elements : Nat) (out : List Printf) :
    Option (List Printf) :=
  let out := out ++ [⟨"  Size: %zu channels × %zu height × %zu width = %zu elements\n",
    [.zu t.channels, .zu t.height, .zu t.width, .zu total_elements]⟩]
  (s.rd t.data 0).bind fun d0 =>
  (forLoop 0 total_elements (fun i (acc : F32 × F32 × F32) =>
    (s.rd t.data i).bind fun val =>
    let min_val := if val < acc.1 then val else acc.1
    let max_val := if acc.2.1 < val then val else acc.2.1
    some (min_val, max_val, acc.2.2 + val)) (d0, d0, 0)).bind fun acc =>
  let mean := acc.2.2 / F32.ofInt total_elements
  let out := out ++ [⟨"  Statistics: min=%.4f, max=%.4f, mean=%.4f\n",
    [.f acc.1, .f acc.2.1, .f mean]⟩, ⟨"  Sample data (first 3×3 of each channel):\n", []⟩]
  (forLoop 0 (if t.channels < 3 then t.channels else 3) (fun c out =>
    let out := out ++ [⟨"    Channel %zu:\n", [.zu c]⟩]
    let max_h := if t.height < 3 then t.height else 3
    let max_w := if t.width < 3 then t.width else 3
    (forLoop 0 max_h (fun h out =>
      let out := out ++ [⟨"      ", []⟩]
      (forLoop 0 max_w (fun w out =>
        (get_tensor_element s (some t) c h w).bind fun x =>
        some (out ++ [⟨"%8.4f ", [.f x]⟩])) out).bind fun out =>
      let out := if t.width > 3 then out ++ [⟨"...", []⟩] else out
      some (out ++ [⟨"\n", []⟩])) out).bind fun out =>
    let out := if t.height > 3 then out ++ [⟨"      ...\n", []⟩] else out
    some (if c < subSize t.channels 1 then out ++ [⟨"\n", []⟩] else out)) out).bind fun out =>
  some (if t.channels > 3 then
    out ++ [⟨"    ... (%zu more channels)\n", [.zu (subSize t.channels 3)]⟩] else out)

/-- The branch of `print_tensor` for at most 100 elements (source lines 194 to 210). -/
def print_tensor_small (s : State) (t : Tensor) (out : List Printf) : Option (List Printf) :=
  forLoop 0 t.channels (fun c out =>
    let out := if t.channels > 1 then out ++ [⟨"  Channel %zu:\n", [.zu c]⟩] else out
    (forLoop 0 t.height (fun h out =>
      let out := out ++ [⟨"    ", []⟩]
      (forLoop 0 t.width (fun w out =>
        (get_tensor_element s (some t) c h w).bind fun x =>
        some (out ++ [⟨"%8.4f ", [.f x]⟩])) out).bind fun out =>
      some (out ++ [⟨"\n", []⟩])) out).bind fun out =>
    some (if c < subSize t.channels 1 then out ++ [⟨"\n", []⟩] else out)) out

/-- The function `print_tensor` of `tensor.c`: the new state and the calls of `printf` made,
in order. -/
def print_tensor (s : State) (tensor : Option Tensor) : Option (State × List Printf) :=
  match tensor with
  | none => some (s.fprintf "Error: NULL tensor\n", [])
  | some t =>
    if t.data = none then some (s.fprintf "Error: Tensor has NULL data\n", [])
    else
      let out : List Printf :=
        [⟨"Tensor[%zu, %zu, %zu] \x7b\n", [.zu t.channels, .zu t.height, .zu t.width]⟩]
      let total_elements := (t.channels * t.height * t.width) % SIZE_MOD
      (if total_elements > 100 then print_tensor_large s t total_elements out
        else print_tensor_small s t out).bind fun out =>
      some (s, out ++ [⟨"\x7d\n", []⟩])

/-- The floats passed to `printf`, in order. -/
def printedFloats (out : List Printf) : List F32 :=
  out.flatMap fun p => p.args.filterMap fun a =>
    match a with
    | .f x => some x
    | .zu _ => none

/-- A tensor of width 2, height 1 and channels 1 holding `[1, 2]`. -/
def print_example_state : State :=
  State.ofBufs [[F32.ofInt 1, F32.ofInt 2]]

/-- A generator that is not yet seeded and returns 7 at every call. -/
def rng_example : Rng := ⟨false, fun _ => 7⟩

/-- A C library with `RAND_MAX = 32767` whose allocator answers `malloc` and has the block
at address 0 for `calloc`. -/
def libc_example : Libc := ⟨32767, 1000, fun seed i => seed + i, true, some 0⟩

/-! ## Zero padding (specification of `conv2d`) -/

/-- The `int` expression `(int)o + (int)k - (int)pad` of `conv2d`, with `pad = K / 2`, does not
overflow for the output index `o` and any kernel offset `k < K`. -/
def conv2d_int_ok (K o : Nat) : Prop :=
  ∀ k, k < K → ∃ z, (intResult (toInt o + toInt k)).bind
    (fun t => intResult (t - toInt (K / 2))) = some z

/-- A 2 x 2 x 2 output (address 0), a 2 x 2 x 1 input (address 1), a kernel of width 1,
height 3 and 1 channel (address 2), a bias of two elements (address 3) and a bias of one
element (address 4). -/
def conv2d_bias_state : State :=
  State.ofBufs [List.replicate 8 0, [F32.ofInt 1, F32.ofInt 2, F32.ofInt 3, F32.ofInt 4],
    [1, 1, 1], [F32.ofInt 5, F32.ofInt 6], [F32.ofInt 5]]

/-- No `int` expression of `conv2d` overflows: `(int)out_h + (int)k_h - (int)pad` and
`(int)out_w + (int)k_w - (int)pad` are in range for every output position and kernel
offset. -/
def conv2d_no_overflow (output weights : Tensor) : Prop :=
  (∀ o, o < output.height → conv2d_int_ok weights.height o) ∧
    (∀ o, o < output.width → conv2d_int_ok weights.height o)

/-- A 2 x 2 x 1 output holding ones (address 0) and a 2 x 2 x 1 input holding 1, ..., 4
(address 1). -/
def maxpool2d_wide_state : State :=
  State.ofBufs [[1, 1, 1, 1], [F32.ofInt 1, F32.ofInt 2, F32.ofInt 3, F32.ofInt 4]]

/-- An output of width 1 and height 3 holding zeros (address 0) and a 1 x 1 x 1 input
holding one (address 1). -/
def maxpool2d_wrap_state : State :=
  State.ofBufs [[0, 0, 0], [1]]

/-! # Theorems -/

/-! ## Loops -/

theorem forLoop_of_le {σ : Type} (lo hi : Nat) (body : Nat → σ → Option σ) (s : σ)
    (h : hi ≤ lo) : forLoop lo hi body s = some s := by
  simp [forLoop, Nat.sub_eq_zero_of_le h]

theorem forLoop_succ {σ : Type} (lo hi : Nat) (body : Nat → σ → Option σ) (s : σ)
    (h : lo ≤ hi) : forLoop lo (hi + 1) body s = (forLoop lo hi body s).bind (body hi) := by
  unfold forLoop
  have h1 : hi + 1 - lo = (hi - lo) + 1 := by omega
  have h2 : lo + (hi - lo) = hi := by omega
  rw [h1, List.range'_1_concat, List.foldlM_append, h2]
  cases List.foldlM (fun acc i => body i acc) s (List.range' lo (hi - lo)) <;> simp

/-- Total-correctness rule for `forLoop`: an invariant that every iteration re-establishes
(each iteration returning a result) holds of the result of the loop. -/
theorem forLoop_inv {σ : Type} (P : Nat → σ → Prop) (lo hi : Nat) (body : Nat → σ → Option σ)
    (s : σ) (hle : lo ≤ hi) (h0 : P lo s)
    (hstep : ∀ i t, lo ≤ i → i < hi → P i t → ∃ t1, body i t = some t1 ∧ P (i + 1) t1) :
    ∃ t, forLoop lo hi body s = some t ∧ P hi t := by
  induction hi, hle using Nat.le_induction with
  | base => exact ⟨s, forLoop_of_le lo lo body s le_rfl, h0⟩
  | succ n hn ih =>
    obtain ⟨t, ht, hP⟩ := ih (fun i t h1 h2 h3 => hstep i t h1 (by omega) h3)
    obtain ⟨t1, ht1, hP1⟩ := hstep n t hn (by omega) hP
    exact ⟨t1, by rw [forLoop_succ lo n body s hn, ht]; exact ht1, hP1⟩

theorem forLoop_eq_foldl {σ : Type} (lo hi : Nat) (body : Nat → σ → Option σ) (f : σ → Nat → σ)
    (s : σ) (h : ∀ i acc, lo ≤ i → i < hi → body i acc = some (f acc i)) :
    forLoop lo hi body s = some ((List.range' lo (hi - lo)).foldl f s) := by
  rcases Nat.lt_or_ge hi lo with hlt | hle
  · rw [forLoop_of_le lo hi body s (by omega), Nat.sub_eq_zero_of_le (by omega)]; rfl
  · induction hi, hle using Nat.le_induction with
    | base => simp [forLoop_of_le]
    | succ n hn ih =>
      have h1 : n + 1 - lo = (n - lo) + 1 := by omega
      have h2 : lo + (n - lo) = n := by omega
      rw [forLoop_succ lo n body s hn, ih (fun i acc h3 h4 => h i acc h3 (by omega)), h1,
        List.range'_1_concat, List.foldl_append, h2]
      simp [h _ _ hn (Nat.lt_succ_self n)]

/-! ## Memory -/

theorem State.rd_of_buf {s : State} {data : Option Nat} {b : List F32}
    (h : s.buf data = some b) (i : Nat) : s.rd data i = b[i]? := by
  simp [State.rd, h]

theorem State.wr_of_buf {s : State} {data : Option Nat} {b : List F32}
    (h : s.buf data = some b) {i : Nat} (hi : i < b.length) (v : F32) :
    ∃ s1, s.wr data i v = some s1 ∧ s1.buf data = some (b.set i v) ∧
      (∀ d, d ≠ data → s1.buf d = s.buf d) ∧ s1.stderr = s.stderr := by
  cases data with
  | none => simp [State.buf] at h
  | some p =>
    refine ⟨{ s with mem := Function.update s.mem p (some (b.set i v)) }, ?_, ?_, ?_, rfl⟩
    · simp [State.wr, h, hi]
    · simp [State.buf]
    · intro d hd
      cases d with
      | none => rfl
      | some q =>
        have hq : q ≠ p := fun e => hd (by rw [e])
        simp [State.buf, Function.update_noteq hq]

/-! ## Offsets and element access -/

theorem offset_lt {W H C w h c : Nat} (hw : w < W) (hh : h < H) (hc : c < C) :
    c * W * H + h * W + w < W * H * C := by
  have h1 : h * W + w < H * W := by
    calc h * W + w < h * W + W := by omega
      _ = (h + 1) * W := by ring
      _ ≤ H * W := Nat.mul_le_mul_right W hh
  calc c * W * H + h * W + w = c * (H * W) + (h * W + w) := by ring
    _ < c * (H * W) + H * W := by omega
    _ = (c + 1) * (H * W) := by ring
    _ ≤ C * (H * W) := Nat.mul_le_mul_right _ hc
    _ = W * H * C := by ring

theorem offset_inj {W H w h c w1 h1 c1 : Nat} (hw : w < W) (hh : h < H) (hw1 : w1 < W)
    (hh1 : h1 < H) (e : c * W * H + h * W + w = c1 * W * H + h1 * W + w1) :
    w = w1 ∧ h = h1 ∧ c = c1 := by
  have a1 : (c * W * H + h * W + w) % W = w := by
    have : c * W * H + h * W + w = w + W * (c * H + h) := by ring
    rw [this, Nat.add_mul_mod_self_left, Nat.mod_eq_of_lt hw]
  have a2 : (c1 * W * H + h1 * W + w1) % W = w1 := by
    have : c1 * W * H + h1 * W + w1 = w1 + W * (c1 * H + h1) := by ring
    rw [this, Nat.add_mul_mod_self_left, Nat.mod_eq_of_lt hw1]
  have hweq : w = w1 := by rw [← a1, ← a2, e]
  subst hweq
  have hWpos : 0 < W := by omega
  have e2 : (c * H + h) * W = (c1 * H + h1) * W := by
    have l : c * W * H + h * W = (c * H + h) * W := by ring
    have r : c1 * W * H + h1 * W = (c1 * H + h1) * W := by ring
    omega
  have e3 : c * H + h = c1 * H + h1 := Nat.eq_of_mul_eq_mul_right hWpos e2
  have b1 : (c * H + h) % H = h := by
    rw [Nat.add_comm, Nat.mul_comm, Nat.add_mul_mod_self_left, Nat.mod_eq_of_lt hh]
  have b2 : (c1 * H + h1) % H = h1 := by
    rw [Nat.add_comm, Nat.mul_comm, Nat.add_mul_mod_self_left, Nat.mod_eq_of_lt hh1]
  have hheq : h = h1 := by rw [← b1, ← b2, e3]
  subst hheq
  have hHpos : 0 < H := by omega
  have e4 : c * H = c1 * H := by omega
  exact ⟨rfl, rfl, Nat.eq_of_mul_eq_mul_right hHpos e4⟩

theorem offset_eq {t : Tensor} {s : State} {b : List F32} (ht : t.Holds s b) {w h c : Nat}
    (hw : w < t.width) (hh : h < t.height) (hc : c < t.channels) :
    offset t w h c = c * t.width * t.height + h * t.width + w ∧
      c * t.width * t.height + h * t.width + w < b.length := by
  have h1 := offset_lt hw hh hc
  obtain ⟨-, h2, h3⟩ := ht
  refine ⟨?_, by omega⟩
  unfold offset SIZE_MOD
  exact Nat.mod_eq_of_lt (by omega)

theorem get_of_holds {t : Tensor} {s : State} {b : List F32} (ht : t.Holds s b) {w h c : Nat}
    (hw : w < t.width) (hh : h < t.height) (hc : c < t.channels) :
    get_tensor_element s (some t) w h c = b[c * t.width * t.height + h * t.width + w]? := by
  have hd : t.data ≠ none := by
    intro e; have := ht.1; simp [e, State.buf] at this
  obtain ⟨e1, -⟩ := offset_eq ht hw hh hc
  simp only [get_tensor_element, hd, false_or, ge_iff_le]
  rw [if_neg (by omega), State.rd_of_buf ht.1, e1]

theorem get_eq_some_Get {t : Tensor} {s : State} {b : List F32} (ht : t.Holds s b)
    (w h c : Nat) : get_tensor_element s (some t) w h c = some (Get s t w h c) := by
  unfold Get
  by_cases hr : w < t.width ∧ h < t.height ∧ c < t.channels
  · obtain ⟨hw, hh, hc⟩ := hr
    obtain ⟨-, e2⟩ := offset_eq ht hw hh hc
    rw [get_of_holds ht hw hh hc, List.getElem?_eq_getElem e2]; rfl
  · have : get_tensor_element s (some t) w h c = some 0 := by
      simp only [get_tensor_element]
      rw [if_pos]
      omega
    rw [this]; rfl

theorem get_congr {t : Tensor} {s s1 : State} (h : s1.buf t.data = s.buf t.data)
    (w hh c : Nat) :
    get_tensor_element s1 (some t) w hh c = get_tensor_element s (some t) w hh c := by
  simp only [get_tensor_element, State.rd, h]

theorem set_of_holds {t : Tensor} {s : State} {b : List F32} (ht : t.Holds s b) {w h c : Nat}
    (hw : w < t.width) (hh : h < t.height) (hc : c < t.channels) (x : F32) :
    ∃ s1, set_tensor_element s (some t) w h c x = some s1 ∧
      s1.buf t.data = some (b.set (c * t.width * t.height + h * t.width + w) x) ∧
      (∀ d, d ≠ t.data → s1.buf d = s.buf d) ∧ s1.stderr = s.stderr := by
  have hd : t.data ≠ none := by
    intro e; have := ht.1; simp [e, State.buf] at this
  obtain ⟨e1, e2⟩ := offset_eq ht hw hh hc
  obtain ⟨s1, h1, h2⟩ := State.wr_of_buf ht.1 e2 x
  refine ⟨s1, ?_, h2⟩
  simp only [set_tensor_element, hd, false_or, ge_iff_le]
  rw [if_neg (by omega), e1]
  exact h1

theorem cell_step {s0 s : State} {out : Tensor} {v : Nat → Nat → Nat → F32} {i j k : Nat}
    (hinv : CellInv s0 out v (k * out.width * out.height + j * out.width + i) s)
    (hi : i < out.width) (hj : j < out.height) (hk : k < out.channels) :
    ∃ s1, set_tensor_element s (some out) i j k (v i j k) = some s1 ∧
      CellInv s0 out v (k * out.width * out.height + j * out.width + i + 1) s1 := by
  obtain ⟨hfr, herr, b, hb, hcells⟩ := hinv
  obtain ⟨s1, h1, h2, h3, h4⟩ := set_of_holds hb hi hj hk (v i j k)
  refine ⟨s1, h1, fun d hd => (h3 d hd).trans (hfr d hd), h4.trans herr, _, ⟨h2, ?_, ?_⟩, ?_⟩
  · rw [List.length_set]; exact hb.2.1
  · rw [List.length_set]; exact hb.2.2
  · intro w h c hw hh hc hlt
    rw [List.getElem?_set]
    by_cases e : k * out.width * out.height + j * out.width + i =
        c * out.width * out.height + h * out.width + w
    · obtain ⟨e1, e2, e3⟩ := offset_inj hi hj hw hh e
      subst e1 e2 e3
      have := (offset_eq hb hi hj hk).2
      simp [this]
    · rw [if_neg e]
      exact hcells w h c hw hh hc (by omega)

/-- The three nested output loops shared by `conv2d` and `maxpool2d`: when the body stores
in each cell a value `v` that does not depend on the buffer of `out`, the loops terminate
without fault and leave in each cell the value computed for it. -/
theorem cell_loops (s0 : State) (out : Tensor) (bo : List F32) (ho : out.Holds s0 bo)
    (body : Nat → Nat → Nat → State → Option State) (v : Nat → Nat → Nat → F32)
    (hbody : ∀ s w h c, w < out.width → h < out.height → c < out.channels →
      (∀ d, d ≠ out.data → s.buf d = s0.buf d) →
      body w h c s = set_tensor_element s (some out) w h c (v w h c)) :
    ∃ s1, forLoop 0 out.channels (fun c s => forLoop 0 out.height (fun h s =>
        forLoop 0 out.width (fun w s => body w h c s) s) s) s0 = some s1 ∧
      CellInv s0 out v (out.width * out.height * out.channels) s1 := by
  have key := forLoop_inv (fun k s => CellInv s0 out v (k * out.width * out.height) s)
    0 out.channels (fun c s => forLoop 0 out.height (fun h s =>
        forLoop 0 out.width (fun w s => body w h c s) s) s) s0 (Nat.zero_le _)
    ⟨fun _ _ => rfl, rfl, bo, ho, fun _ _ _ _ _ _ h => by omega⟩ ?_
  · obtain ⟨s1, h1, h2⟩ := key
    refine ⟨s1, h1, ?_⟩
    have e : out.channels * out.width * out.height = out.width * out.height * out.channels := by
      ring
    rw [← e]; exact h2
  · intro k s _ hk hinv
    have key2 := forLoop_inv
      (fun j s => CellInv s0 out v (k * out.width * out.height + j * out.width) s)
      0 out.height (fun h s => forLoop 0 out.width (fun w s => body w h k s) s) s
      (Nat.zero_le _) (by simpa using hinv) ?_
    · obtain ⟨s1, h1, h2⟩ := key2
      refine ⟨s1, h1, ?_⟩
      have e : k * out.width * out.height + out.height * out.width =
          (k + 1) * out.width * out.height := by ring
      show CellInv s0 out v ((k + 1) * out.width * out.height) s1
      rw [← e]; exact h2
    · intro j s _ hj hinv
      have key3 := forLoop_inv
        (fun i s => CellInv s0 out v (k * out.width * out.height + j * out.width + i) s)
        0 out.width (fun w s => body w j k s) s (Nat.zero_le _) (by simpa using hinv) ?_
      · obtain ⟨s1, h1, h2⟩ := key3
        refine ⟨s1, h1, ?_⟩
        have e : k * out.width * out.height + j * out.width + out.width =
            k * out.width * out.height + (j + 1) * out.width := by ring
        show CellInv s0 out v (k * out.width * out.height + (j + 1) * out.width) s1
        rw [← e]; exact h2
      · intro i s _ hi hinv
        show ∃ t1, body i j k s = some t1 ∧
          CellInv s0 out v (k * out.width * out.height + j * out.width + (i + 1)) t1
        rw [hbody s i j k hi hj hk hinv.1]
        exact cell_step hinv hi hj hk

theorem CellInv.get {s0 s1 : State} {out : Tensor} {v : Nat → Nat → Nat → F32}
    (h : CellInv s0 out v (out.width * out.height * out.channels) s1) {w hh c : Nat}
    (hw : w < out.width) (hh1 : hh < out.height) (hc : c < out.channels) :
    get_tensor_element s1 (some out) w hh c = some (v w hh c) := by
  obtain ⟨-, -, b, hb, hcells⟩ := h
  rw [get_of_holds hb hw hh1 hc]
  exact hcells w hh c hw hh1 hc (offset_lt hw hh1 hc)

theorem forLoop_zero_eq_foldl {σ : Type} (n : Nat) (body : Nat → σ → Option σ)
    (f : σ → Nat → σ) (s : σ) (h : ∀ i acc, i < n → body i acc = some (f acc i)) :
    forLoop 0 n body s = some ((List.range n).foldl f s) := by
  rw [forLoop_eq_foldl 0 n body f s (fun i acc _ hi => h i acc hi), List.range_eq_range']
  rfl

theorem toInt_of_lt {x : Nat} (h : x < 2 ^ 31) : toInt x = (x : Int) := by
  unfold toInt
  have h1 : x % 2 ^ 32 = x := Nat.mod_eq_of_lt (by omega)
  rw [h1, if_pos h]

theorem toInt_eq_bmod (x : Nat) : toInt x = Int.bmod (x : Int) (2 ^ 32) := by
  unfold toInt Int.bmod
  have h1 : ((x : Int) % ((2 ^ 32 : Nat) : Int)) = ((x % 2 ^ 32 : Nat) : Int) := by
    norm_cast
  simp only [h1]
  split_ifs <;> omega

theorem intResult_eq_some_iff (z : Int) :
    intResult z = some z ↔ -(2 ^ 31 : Int) ≤ z ∧ z < (2 ^ 31 : Int) := by
  unfold intResult
  split_ifs with h
  · simp only [true_iff]; omega
  · simp only [false_iff]
    intro h1; apply h; omega

theorem intResult_of_range {z : Int} (h1 : -(2 ^ 31 : Int) ≤ z) (h2 : z < (2 ^ 31 : Int)) :
    intResult z = some z :=
  (intResult_eq_some_iff z).mpr ⟨h1, h2⟩

theorem toSize_of_nonneg {z : Int} (h1 : 0 ≤ z) (h2 : z < (2 ^ 31 : Int)) : 
    toSize z = z.toNat := by
  unfold toSize
  congr 1
  apply Int.emod_eq_of_lt h1
  norm_num; omega

/-! ## `conv2d` -/

theorem conv2d_sum_eq {s : State} {inp wts : Tensor} {bi bw : List F32}
    (hi : inp.Holds s bi) (hw : wts.Holds s bw) (hH : inp.height < 2 ^ 31)
    (hW : inp.width < 2 ^ 31) {ow oh : Nat} (oc : Nat)
    (hOH : oh + wts.height ≤ 2 ^ 31) (hOW : ow + wts.height ≤ 2 ^ 31) :
    conv2d_sum s inp wts wts.height (wts.height / 2) ow oh oc =
      some (conv2d_spec s inp wts none ow oh oc) := by
  unfold conv2d_sum conv2d_spec
  apply forLoop_zero_eq_foldl
  intro in_c acc _
  apply forLoop_zero_eq_foldl
  intro k_h acc hkh
  apply forLoop_zero_eq_foldl
  intro k_w acc hkw
  have hpad : wts.height / 2 < 2 ^ 31 := by omega
  rw [toInt_of_lt (by omega : oh < 2 ^ 31), toInt_of_lt (by omega : k_h < 2 ^ 31),
    toInt_of_lt (by omega : ow < 2 ^ 31), toInt_of_lt (by omega : k_w < 2 ^ 31),
    toInt_of_lt hpad, toInt_of_lt hH, toInt_of_lt hW]
  rw [intResult_of_range (by omega) (by omega)]
  rw [Option.some_bind]
  rw [intResult_of_range (by omega) (by omega)]
  rw [Option.some_bind]
  rw [intResult_of_range (by omega) (by omega)]
  rw [Option.some_bind]
  rw [intResult_of_range (by omega) (by omega)]
  rw [Option.some_bind]
  split_ifs with hc
  · rw [toSize_of_nonneg hc.2.2.1 (by omega), toSize_of_nonneg hc.1 (by omega),
      get_eq_some_Get hi, get_eq_some_Get hw, Option.some_bind, Option.some_bind]
    show _ = some (if _ then _ else _)
    rw [if_pos hc]
  · show _ = some (if _ then _ else _)
    rw [if_neg hc]

theorem Tensor.Holds.congr {t : Tensor} {s s1 : State} {b : List F32} (h : t.Holds s b)
    (e : s1.buf t.data = s.buf t.data) : t.Holds s1 b :=
  ⟨e.trans h.1, h.2⟩

theorem Get_congr {t : Tensor} {s s1 : State} (e : s1.buf t.data = s.buf t.data) :
    Get s1 t = Get s t := by
  funext w h c
  unfold Get
  rw [get_congr e]

theorem add_bias_eq {s : State} {bias : Option Tensor} {n idx : Nat} (hb : BiasOK s bias n)
    (hidx : idx < n) (sum : F32) :
    add_bias s bias idx sum = some (add_bias_spec s bias idx sum) := by
  cases bias with
  | none => rfl
  | some b =>
    simp only [add_bias, add_bias_spec]
    by_cases hd : b.data = none
    · rw [if_pos hd, if_pos hd]
    · rw [if_neg hd, if_neg hd]
      rcases hb with hb | ⟨bb, h1, h2⟩
      · exact absurd hb hd
      · rw [State.rd_of_buf h1, List.getElem?_eq_getElem (by omega)]
        rfl

theorem conv2d_spec_congr {s s1 : State} {inp wts : Tensor} {bias : Option Tensor}
    (e1 : s1.buf inp.data = s.buf inp.data) (e2 : s1.buf wts.data = s.buf wts.data)
    (e3 : ∀ b, bias = some b → s1.buf b.data = s.buf b.data) (w h c : Nat) :
    conv2d_spec s1 inp wts bias w h c = conv2d_spec s inp wts bias w h c := by
  unfold conv2d_spec
  rw [Get_congr e1, Get_congr e2]
  cases bias with
  | none => rfl
  | some b =>
    simp only [add_bias_spec, State.rd, e3 b rfl]

/-- The function `conv2d` on well-formed operands whose output buffer is not shared and whose
dimensions are in the range of `int`: it terminates without fault and every output cell
holds the value of the specification. -/
theorem conv2d_correct (s : State) (out inp wts : Tensor) (bias : Option Tensor)
    (bo bi bw : List F32) (ho : out.Holds s bo) (hi : inp.Holds s bi) (hw : wts.Holds s bw)
    (hb : BiasOK s bias out.channels) (hoi : inp.data ≠ out.data) (how : wts.data ≠ out.data)
    (hob : ∀ b, bias = some b → b.data ≠ out.data)
    (hH : inp.height < 2 ^ 31) (hW : inp.width < 2 ^ 31)
    (hOH : out.height + wts.height ≤ 2 ^ 31 + 1) (hOW : out.width + wts.height ≤ 2 ^ 31 + 1) :
    ∃ s1, conv2d s (some out) (some inp) (some wts) bias = some s1 ∧
      CellInv s out (fun w h c => conv2d_spec s inp wts bias w h c)
        (out.width * out.height * out.channels) s1 := by
  refine cell_loops s out bo ho (fun w h c st =>
    (conv2d_sum st inp wts wts.height (wts.height / 2) w h c).bind fun sum =>
    (add_bias st bias c sum).bind fun sum =>
    set_tensor_element st (some out) w h c sum)
    (fun w h c => conv2d_spec s inp wts bias w h c) ?_
  intro st w h c hw1 hh1 hc1 hfr
  have ei := hfr inp.data hoi
  have ew := hfr wts.data how
  have eb : ∀ b, bias = some b → st.buf b.data = s.buf b.data := fun b e => hfr b.data (hob b e)
  have hb1 : BiasOK st bias out.channels := by
    cases bias with
    | none => trivial
    | some b =>
      rcases hb with hb | ⟨bb, h1, h2⟩
      · exact Or.inl hb
      · exact Or.inr ⟨bb, (eb b rfl).trans h1, h2⟩
  show ((conv2d_sum st inp wts wts.height (wts.height / 2) w h c).bind fun sum =>
    (add_bias st bias c sum).bind fun sum =>
    set_tensor_element st (some out) w h c sum) = _
  rw [conv2d_sum_eq (hi.congr ei) (hw.congr ew) hH hW c (by omega) (by omega), Option.some_bind,
    add_bias_eq hb1 hc1, Option.some_bind]
  show _ = set_tensor_element st (some out) w h c (conv2d_spec s inp wts bias w h c)
  rw [← conv2d_spec_congr ei ew eb]
  rfl

/-- C1 (amended): for non-null operands `output`, `input`, `weights`, each with a live buffer
of `width * height * channels` floats, the output buffer shared with no other operand, a bias
that is absent or holds at least `output.channels` floats, and dimensions in the range of
`int` (`input.height < 2 ^ 31`, `input.width < 2 ^ 31`, `output.height + K ≤ 2 ^ 31 + 1`,
`output.width + K ≤ 2 ^ 31 + 1` with `K = weights.height`), `conv2d` returns and every in-range
output coordinate holds the sum, in the nesting order `in_c`, `k_h`, `k_w`, of the in-bounds
products `Get (input, in_w, in_h, in_c) * Get (weights, k_w, k_h, out_c)`, plus `bias[out_c]`
when a bias is provided. -/
theorem conv2d_output_spec (s : State) (out inp wts : Tensor) (bias : Option Tensor)
    (bo bi bw : List F32) (ho : out.Holds s bo) (hi : inp.Holds s bi) (hw : wts.Holds s bw)
    (hb : BiasOK s bias out.channels) (hoi : inp.data ≠ out.data) (how : wts.data ≠ out.data)
    (hob : ∀ b, bias = some b → b.data ≠ out.data)
    (hH : inp.height < 2 ^ 31) (hW : inp.width < 2 ^ 31)
    (hOH : out.height + wts.height ≤ 2 ^ 31 + 1) (hOW : out.width + wts.height ≤ 2 ^ 31 + 1) :
    ∃ s1, conv2d s (some out) (some inp) (some wts) bias = some s1 ∧
      ∀ out_w out_h out_c, out_w < out.width → out_h < out.height → out_c < out.channels →
        get_tensor_element s1 (some out) out_w out_h out_c =
          some (conv2d_spec s inp wts bias out_w out_h out_c) := by
  obtain ⟨s1, h1, h2⟩ := conv2d_correct s out inp wts bias bo bi bw ho hi hw hb hoi how hob
    hH hW hOH hOW
  exact ⟨s1, h1, fun _ _ _ a b c => h2.get a b c⟩

/-- Witness of C1: the theorem applied to a 2 x 2 x 1 input, a 3 x 3 x 1 kernel and a bias. -/
theorem conv2d_output_spec_witness :
    ∃ s1, conv2d conv2d_example_state (some ⟨some 0, 2, 2, 1⟩) (some ⟨some 1, 2, 2, 1⟩)
        (some ⟨some 2, 3, 3, 1⟩) (some ⟨some 3, 1, 1, 1⟩) = some s1 ∧
      ∀ out_w out_h out_c, out_w < 2 → out_h < 2 → out_c < 1 →
        get_tensor_element s1 (some ⟨some 0, 2, 2, 1⟩) out_w out_h out_c =
          some (conv2d_spec conv2d_example_state ⟨some 1, 2, 2, 1⟩ ⟨some 2, 3, 3, 1⟩
            (some ⟨some 3, 1, 1, 1⟩) out_w out_h out_c) :=
  conv2d_output_spec conv2d_example_state ⟨some 0, 2, 2, 1⟩ ⟨some 1, 2, 2, 1⟩
    ⟨some 2, 3, 3, 1⟩ (some ⟨some 3, 1, 1, 1⟩) [0, 0, 0, 0]
    [F32.ofInt 1, F32.ofInt 2, F32.ofInt 3, F32.ofInt 4] [1, 1, 1, 1, 1, 1, 1, 1, 1]
    (by decide) (by decide) (by decide) (Or.inr ⟨[F32.ofInt 5], rfl, by decide⟩)
    (by decide) (by decide) (by intro b hb; cases hb; decide)
    (by decide) (by decide) (by decide) (by decide)

theorem conv2d_spec_one_by_one (s : State) (inp wts : Tensor) (hK : wts.height = 1)
    (hc : inp.channels = 1) (hh : 0 < inp.height) (hw : 0 < inp.width) :
    conv2d_spec s inp wts none 0 0 0 = 0 + Get s inp 0 0 0 * Get s wts 0 0 0 := by
  have r1 : List.range 1 = [0] := rfl
  unfold conv2d_spec add_bias_spec
  simp only [hK, hc, r1, List.foldl_cons, List.foldl_nil]
  rw [if_pos (by norm_num; omega)]
  norm_num

theorem conv2d_tall_holds :
    Tensor.Holds ⟨some 1, 1, 2 ^ 31 + 1, 1⟩ conv2d_tall_state (List.replicate (2 ^ 31 + 1) 1) := by
  refine ⟨rfl, ?_, ?_⟩
  · rw [List.length_replicate]; norm_num
  · rw [List.length_replicate]; norm_num

theorem conv2d_tall_spec :
    conv2d_spec conv2d_tall_state ⟨some 1, 1, 2 ^ 31 + 1, 1⟩ ⟨some 2, 1, 1, 1⟩ none 0 0 0 = 1 := by
  have g1 : Get conv2d_tall_state ⟨some 1, 1, 2 ^ 31 + 1, 1⟩ 0 0 0 = 1 := by
    unfold Get
    rw [get_of_holds conv2d_tall_holds (by decide) (by norm_num) (by decide),
      List.getElem?_replicate]
    norm_num
  have g2 : Get conv2d_tall_state ⟨some 2, 1, 1, 1⟩ 0 0 0 = 1 := by decide
  rw [conv2d_spec_one_by_one _ _ _ rfl rfl (by norm_num) (by norm_num), g1, g2]
  decide

/-- C1 as stated fails for an input whose height exceeds the range of `int`: with an input of
width 1 and height `2 ^ 31 + 1` filled with ones, a 1 x 1 x 1 kernel holding one, no bias and
a 1 x 1 x 1 output, every operand has a buffer of `width * height * channels` floats and
the claimed value of output cell `(0, 0, 0)` is `1 * 1 = 1`; but `(int) input->height` is
negative, the bounds test fails, and `conv2d` returns with `0` in that cell. -/
theorem conv2d_tall_input_counterexample :
    Tensor.Holds ⟨some 0, 1, 1, 1⟩ conv2d_tall_state [0] ∧
    Tensor.Holds ⟨some 1, 1, 2 ^ 31 + 1, 1⟩ conv2d_tall_state (List.replicate (2 ^ 31 + 1) 1) ∧
    Tensor.Holds ⟨some 2, 1, 1, 1⟩ conv2d_tall_state [1] ∧
    conv2d_spec conv2d_tall_state ⟨some 1, 1, 2 ^ 31 + 1, 1⟩ ⟨some 2, 1, 1, 1⟩ none 0 0 0 = 1 ∧
    ((conv2d conv2d_tall_state (some ⟨some 0, 1, 1, 1⟩) (some ⟨some 1, 1, 2 ^ 31 + 1, 1⟩)
        (some ⟨some 2, 1, 1, 1⟩) none).bind fun s1 =>
      get_tensor_element s1 (some ⟨some 0, 1, 1, 1⟩) 0 0 0) = some 0 ∧
    (0 : F32) ≠ 1 :=
  ⟨by decide, conv2d_tall_holds, by decide, conv2d_tall_spec, by decide, by decide⟩

/-! ## Binary32 facts -/

theorem F32.ofInt_add_one : ∀ k : Nat, k < 9 →
    F32.ofInt (k : Int) + 1 * 1 = F32.ofInt ((k + 1 : Nat) : Int) := by
  decide

theorem F32.ofInt_add_zero : ∀ k : Nat, k < 10 →
    F32.ofInt (k : Int) + 0 = F32.ofInt (k : Int) := by
  decide

theorem F32.zero_add_zero_mul (x : F32) (h : x = 0 ∨ x = 1) : (0 : F32) + 0 * x = 0 := by
  rcases h with h | h <;> subst h <;> decide

theorem foldl_count_inner (p : Nat → Prop) [DecidablePred p] (l : List Nat) (k : Nat)
    (hk : k + l.length ≤ 9) :
    l.foldl (fun acc i => if p i then acc + (1 : F32) * 1 else acc) (F32.ofInt (k : Int)) =
      F32.ofInt ((k + l.countP (fun i => decide (p i)) : Nat) : Int) := by
  induction l generalizing k with
  | nil => simp
  | cons a l ih =>
    simp only [List.length_cons] at hk
    rw [List.foldl_cons, List.countP_cons]
    by_cases ha : p a
    · rw [if_pos ha, F32.ofInt_add_one k (by omega), ih (k + 1) (by omega)]
      simp [ha]; ring_nf
    · rw [if_neg ha, ih k (by omega)]
      simp [ha]

theorem foldl_count_outer (p : Nat → Nat → Prop) [∀ a b, Decidable (p a b)] (l1 l2 : List Nat)
    (k : Nat) (hk : k + l1.length * l2.length ≤ 9) :
    l1.foldl (fun acc a => l2.foldl (fun acc b => if p a b then acc + (1 : F32) * 1 else acc)
      acc) (F32.ofInt (k : Int)) =
      F32.ofInt ((k + (l1.product l2).countP (fun x => decide (p x.1 x.2)) : Nat) : Int) := by
  have pnil : ([] : List Nat).product l2 = [] := rfl
  have pcons : ∀ (a : Nat) (l1 : List Nat),
      (a :: l1).product l2 = l2.map (Prod.mk a) ++ l1.product l2 :=
    fun a l1 => List.product_cons a l1 l2
  induction l1 generalizing k with
  | nil => simp [pnil]
  | cons a l1 ih =>
    simp only [List.length_cons] at hk
    have hc : l2.countP (fun i => decide (p a i)) ≤ l2.length := List.countP_le_length _
    have hk1 : k + l2.length ≤ 9 := by nlinarith
    rw [List.foldl_cons, foldl_count_inner (p a) l2 k hk1, ih _ (by nlinarith)]
    congr 2
    rw [pcons, List.countP_append, List.countP_map]
    simp only [Function.comp_def]
    omega

theorem Get_replicate {t : Tensor} {s : State} {n : Nat} {a : F32}
    (ht : t.Holds s (List.replicate n a)) {w h c : Nat} (hw : w < t.width) (hh : h < t.height)
    (hc : c < t.channels) : Get s t w h c = a := by
  unfold Get
  obtain ⟨-, e2⟩ := offset_eq ht hw hh hc
  rw [get_of_holds ht hw hh hc, List.getElem?_replicate]
  rw [List.length_replicate] at e2
  rw [if_pos e2]
  rfl

theorem ZeroBias.biasOK {s : State} {bias : Option Tensor} {n : Nat} (h : ZeroBias s bias n) :
    BiasOK s bias n := by
  cases bias with
  | none => trivial
  | some b =>
    obtain ⟨bb, h1, h2, -⟩ := h
    exact Or.inr ⟨bb, h1, h2⟩

theorem add_bias_spec_zero {s : State} {bias : Option Tensor} {n i : Nat}
    (h : ZeroBias s bias n) (hi : i < n) (x : F32) (hx : x + 0 = x) :
    add_bias_spec s bias i x = x := by
  cases bias with
  | none => rfl
  | some b =>
    obtain ⟨bb, h1, h2, h3⟩ := h
    have hd : b.data ≠ none := by
      intro e; simp [e, State.buf] at h1
    simp only [add_bias_spec]
    rw [if_neg hd, State.rd_of_buf h1, h3 i hi]
    exact hx

theorem conv2d_spec_const_fold (s : State) (inp wts : Tensor) (bias : Option Tensor)
    (ow oh oc : Nat) (a : F32) (hc : inp.channels = 1) (hK : wts.height = 3)
    (hA : ∀ w h, w < inp.width → h < inp.height → Get s inp w h 0 = a)
    (hB : ∀ k_w k_h, k_w < 3 → k_h < 3 → Get s wts k_w k_h oc = 1) :
    conv2d_spec s inp wts bias ow oh oc = add_bias_spec s bias oc
      ((List.range 3).foldl (fun (acc : F32) (k_h : Nat) =>
        (List.range 3).foldl (fun (acc : F32) (k_w : Nat) =>
        if 0 ≤ (oh : Int) + (k_h : Int) - 1 ∧ (oh : Int) + (k_h : Int) - 1 < (inp.height : Int) ∧
          0 ≤ (ow : Int) + (k_w : Int) - 1 ∧ (ow : Int) + (k_w : Int) - 1 < (inp.width : Int)
        then acc + a * 1 else acc) acc) 0) := by
  have r1 : List.range 1 = [0] := rfl
  have e1 : (((3 / 2 : Nat) : Nat) : Int) = 1 := by norm_num
  unfold conv2d_spec
  simp only [hc, hK, r1, List.foldl_cons, List.foldl_nil, e1]
  congr 1
  apply List.foldl_ext
  intro acc k_h hkh
  apply List.foldl_ext
  intro acc k_w hkw
  rw [List.mem_range] at hkh hkw
  split_ifs with hcond
  · rw [hA _ _ (by omega) (by omega), hB _ _ hkw hkh]
  · rfl

theorem forLoop_eq_none {σ : Type} (lo hi i : Nat) (body : Nat → σ → Option σ) (s : σ)
    (h1 : lo ≤ i) (h2 : i < hi) (h : ∀ t, body i t = none) : forLoop lo hi body s = none := by
  have h3 : i + 1 ≤ hi := h2
  induction hi, h3 using Nat.le_induction with
  | base =>
    rw [forLoop_succ lo i body s h1]
    cases forLoop lo i body s with
    | none => rfl
    | some t => exact h t
  | succ n hn ih =>
    rw [forLoop_succ lo n body s (by omega), ih (by omega)]
    rfl

theorem foldl_zero_outer (p : Nat → Nat → Prop) [∀ a b, Decidable (p a b)] (l1 l2 : List Nat) :
    l1.foldl (fun acc a => l2.foldl (fun acc b => if p a b then acc + (0 : F32) * 1 else acc)
      acc) 0 = 0 := by
  have inner : ∀ (a : Nat) (l : List Nat),
      l.foldl (fun acc b => if p a b then acc + (0 : F32) * 1 else acc) 0 = 0 := by
    intro a l
    induction l with
    | nil => rfl
    | cons b l ih =>
      rw [List.foldl_cons]
      by_cases hb : p a b
      · rw [if_pos hb]
        have : (0 : F32) + 0 * 1 = 0 := by decide
        rw [this, ih]
      · rw [if_neg hb, ih]
  induction l1 with
  | nil => rfl
  | cons a l1 ih => rw [List.foldl_cons, inner, ih]

/-- C2 (amended): for every `1 ≤ W ≤ 2 ^ 31 - 2` and `1 ≤ H ≤ 2 ^ 31 - 2`, `conv2d` of a
`W x H x 1` input with a 3 x 3 x 1 kernel of ones and a zero or absent bias into a
`W x H x 1` output (whose buffer is shared with no other operand) returns; when the input is
all zeros every output cell is zero; when the input is all ones the cell `(w, h)` holds the
number of positions of the 3 x 3 window centred on `(w, h)` that lie inside the input; and
for the 4 x 4 input that number is 4 at the corners, 6 on the rest of the border, 9 inside. -/
theorem conv2d_ones_kernel (s : State) (out inp wts : Tensor) (bias : Option Tensor)
    (W H : Nat) (bo bi : List F32) (hW1 : 1 ≤ W) (hH1 : 1 ≤ H) (hW : W ≤ 2 ^ 31 - 2)
    (hH : H ≤ 2 ^ 31 - 2)
    (hod : out.width = W ∧ out.height = H ∧ out.channels = 1)
    (hid : inp.width = W ∧ inp.height = H ∧ inp.channels = 1)
    (hwd : wts.width = 3 ∧ wts.height = 3 ∧ wts.channels = 1)
    (ho : out.Holds s bo) (hi : inp.Holds s bi) (hw : wts.Holds s (List.replicate 9 1))
    (hb : ZeroBias s bias 1) (hoi : inp.data ≠ out.data) (how : wts.data ≠ out.data)
    (hob : ∀ b, bias = some b → b.data ≠ out.data) :
    ∃ s1, conv2d s (some out) (some inp) (some wts) bias = some s1 ∧
      (bi = List.replicate (W * H) 0 → ∀ w h, w < W → h < H →
        get_tensor_element s1 (some out) w h 0 = some 0) ∧
      (bi = List.replicate (W * H) 1 → ∀ w h, w < W → h < H →
        get_tensor_element s1 (some out) w h 0 =
          some (F32.ofInt ((windowCount W H w h : Nat) : Int))) ∧
      (∀ w, w < 4 → ∀ h, h < 4 → windowCount 4 4 w h =
        if (w = 0 ∨ w = 3) ∧ (h = 0 ∨ h = 3) then 4
        else if w = 0 ∨ w = 3 ∨ h = 0 ∨ h = 3 then 6 else 9) := by
  obtain ⟨hod1, hod2, hod3⟩ := hod
  obtain ⟨hid1, hid2, hid3⟩ := hid
  obtain ⟨hwd1, hwd2, hwd3⟩ := hwd
  obtain ⟨s1, h1, h2⟩ := conv2d_correct s out inp wts bias bo bi _ ho hi hw
    (by rw [hod3]; exact hb.biasOK) hoi how hob (by omega) (by omega) (by omega) (by omega)
  have hB : ∀ k_w k_h, k_w < 3 → k_h < 3 → Get s wts k_w k_h 0 = 1 := fun k_w k_h a b =>
    Get_replicate hw (by omega) (by omega) (by omega)
  refine ⟨s1, h1, ?_, ?_, by decide⟩
  · intro hbi w h hw1 hh1
    rw [hbi] at hi
    have hA : ∀ w h, w < inp.width → h < inp.height → Get s inp w h 0 = 0 := fun w h a b =>
      Get_replicate hi a b (by omega)
    rw [h2.get (by omega) (by omega) (by omega)]
    show some (conv2d_spec s inp wts bias w h 0) = some 0
    rw [conv2d_spec_const_fold s inp wts bias w h 0 0 hid3 hwd2 hA hB, foldl_zero_outer,
      add_bias_spec_zero hb (by omega) 0 (by decide)]
  · intro hbi w h hw1 hh1
    rw [hbi] at hi
    have hA : ∀ w h, w < inp.width → h < inp.height → Get s inp w h 0 = 1 := fun w h a b =>
      Get_replicate hi a b (by omega)
    have h0 : (0 : F32) = F32.ofInt ((0 : Nat) : Int) := by decide
    have hcnt : windowCount W H w h ≤ 9 := List.countP_le_length _
    rw [h2.get (by omega) (by omega) (by omega)]
    show some (conv2d_spec s inp wts bias w h 0) = _
    rw [conv2d_spec_const_fold s inp wts bias w h 0 1 hid3 hwd2 hA hB, h0,
      foldl_count_outer _ _ _ 0 (by decide), Nat.zero_add, hid1, hid2]
    rw [add_bias_spec_zero hb (by omega) _ (F32.ofInt_add_zero _ (by
      show (List.countP _ _) < 10
      have := hcnt; unfold windowCount at this; omega))]
    rfl

/-- Witness of C2: the theorem applied to the 4 x 4 input of ones with a zero bias. -/
theorem conv2d_ones_kernel_witness :
    ∃ s1, conv2d conv2d_ones_state (some ⟨some 0, 4, 4, 1⟩) (some ⟨some 1, 4, 4, 1⟩)
        (some ⟨some 2, 3, 3, 1⟩) (some ⟨some 3, 1, 1, 1⟩) = some s1 ∧
      (List.replicate 16 (1 : F32) = List.replicate (4 * 4) 0 → ∀ w h, w < 4 → h < 4 →
        get_tensor_element s1 (some ⟨some 0, 4, 4, 1⟩) w h 0 = some 0) ∧
      (List.replicate 16 (1 : F32) = List.replicate (4 * 4) 1 → ∀ w h, w < 4 → h < 4 →
        get_tensor_element s1 (some ⟨some 0, 4, 4, 1⟩) w h 0 =
          some (F32.ofInt ((windowCount 4 4 w h : Nat) : Int))) ∧
      (∀ w, w < 4 → ∀ h, h < 4 → windowCount 4 4 w h =
        if (w = 0 ∨ w = 3) ∧ (h = 0 ∨ h = 3) then 4
        else if w = 0 ∨ w = 3 ∨ h = 0 ∨ h = 3 then 6 else 9) :=
  conv2d_ones_kernel conv2d_ones_state ⟨some 0, 4, 4, 1⟩ ⟨some 1, 4, 4, 1⟩ ⟨some 2, 3, 3, 1⟩
    (some ⟨some 3, 1, 1, 1⟩) 4 4 (List.replicate 16 0) (List.replicate 16 1)
    (by decide) (by decide) (by decide) (by decide) ⟨rfl, rfl, rfl⟩ ⟨rfl, rfl, rfl⟩
    ⟨rfl, rfl, rfl⟩ (by decide) (by decide) (by decide)
    ⟨[0], rfl, by decide, fun i hi => by interval_cases i; rfl⟩
    (by decide) (by decide) (by intro b hb; cases hb; decide)

theorem conv2d_sum_tall_none (t : State) (inp wts : Tensor) (hc : 0 < inp.channels) :
    conv2d_sum t inp wts 3 1 0 (2 ^ 31) 0 = none := by
  refine forLoop_eq_none 0 _ 0 _ _ (Nat.le_refl _) hc (fun acc => ?_)
  refine forLoop_eq_none 0 _ 0 _ _ (Nat.le_refl _) (by decide) (fun acc => ?_)
  refine forLoop_eq_none 0 _ 0 _ _ (Nat.le_refl _) (by decide) (fun acc => ?_)
  have e1 : intResult (toInt (2 ^ 31) + toInt 0) = some (-(2 ^ 31 : Int)) := by decide
  have e2 : intResult (-(2 ^ 31 : Int) - toInt 1) = none := by decide
  show (intResult (toInt (2 ^ 31) + toInt 0)).bind _ = none
  rw [e1, Option.some_bind, e2]
  rfl

theorem conv2d_tall_ones_none :
    conv2d conv2d_tall_ones_state (some ⟨some 0, 1, 2 ^ 31 + 1, 1⟩)
      (some ⟨some 1, 1, 2 ^ 31 + 1, 1⟩) (some ⟨some 2, 3, 3, 1⟩) none = none := by
  refine forLoop_eq_none 0 _ 0 _ _ (Nat.le_refl _) (by decide) (fun t => ?_)
  refine forLoop_eq_none 0 _ (2 ^ 31) _ _ (Nat.zero_le _) (by norm_num) (fun t => ?_)
  refine forLoop_eq_none 0 _ 0 _ _ (Nat.le_refl _) (by decide) (fun t => ?_)
  show (conv2d_sum t ⟨some 1, 1, 2 ^ 31 + 1, 1⟩ ⟨some 2, 3, 3, 1⟩ 3 1 0 (2 ^ 31) 0).bind _ = none
  rw [conv2d_sum_tall_none t _ _ (by decide)]
  rfl

/-- C2 as stated fails for a height beyond the range of `int`: take `W = 1` and
`H = 2 ^ 31 + 1`, the input all ones.  Every operand has a buffer of
`width * height * channels` floats.  For the output cell `(0, 0)` the claimed value is the
window count 2, but `(int) input->height` is negative, every window position fails the bounds
test and the kernel loops yield 0.  At the output row `2 ^ 31` the expression
`(int)out_h + (int)k_h - (int)pad` overflows, so the call as a whole has undefined
behaviour and gives no result. -/
theorem conv2d_ones_tall_counterexample :
    Tensor.Holds ⟨some 0, 1, 2 ^ 31 + 1, 1⟩ conv2d_tall_ones_state
      (List.replicate (2 ^ 31 + 1) 0) ∧
    Tensor.Holds ⟨some 1, 1, 2 ^ 31 + 1, 1⟩ conv2d_tall_ones_state
      (List.replicate (2 ^ 31 + 1) 1) ∧
    Tensor.Holds ⟨some 2, 3, 3, 1⟩ conv2d_tall_ones_state (List.replicate 9 1) ∧
    windowCount 1 (2 ^ 31 + 1) 0 0 = 2 ∧
    conv2d_sum conv2d_tall_ones_state ⟨some 1, 1, 2 ^ 31 + 1, 1⟩ ⟨some 2, 3, 3, 1⟩ 3 1 0 0 0 =
      some 0 ∧
    F32.ofInt 2 ≠ 0 ∧
    conv2d conv2d_tall_ones_state (some ⟨some 0, 1, 2 ^ 31 + 1, 1⟩)
      (some ⟨some 1, 1, 2 ^ 31 + 1, 1⟩) (some ⟨some 2, 3, 3, 1⟩) none = none := by
  refine ⟨⟨rfl, ?_, ?_⟩, ⟨rfl, ?_, ?_⟩, by decide, by decide, by decide, by decide,
    conv2d_tall_ones_none⟩ <;> rw [List.length_replicate] <;> norm_num

/-! ## Loops over a flat buffer -/

theorem vec_set (b0 : List F32) (v : Nat → F32) (k : Nat) (hk : k < b0.length) (x : F32) :
    ((List.range k).map v ++ b0.drop k).set k x =
      (List.range k).map v ++ x :: b0.drop (k + 1) := by
  have hl : ((List.range k).map v).length = k := by simp
  rw [List.set_append, if_neg (by omega), hl, Nat.sub_self, List.drop_eq_getElem_cons hk]
  rfl

theorem vec_step {s0 s : State} {data : Option Nat} {b0 : List F32} {v : Nat → F32} {k : Nat}
    (hinv : VecInv s0 data b0 v k s) (hk : k < b0.length) :
    ∃ s1, s.wr data k (v k) = some s1 ∧ VecInv s0 data b0 v (k + 1) s1 := by
  obtain ⟨hfr, herr, hb⟩ := hinv
  have hlen : k < ((List.range k).map v ++ b0.drop k).length := by
    simp; omega
  obtain ⟨s1, h1, h2, h3, h4⟩ := State.wr_of_buf hb hlen (v k)
  refine ⟨s1, h1, fun d hd => (h3 d hd).trans (hfr d hd), h4.trans herr, ?_⟩
  rw [h2, vec_set b0 v k hk, List.range_succ, List.map_append, List.append_assoc]
  rfl

/-- A loop whose `i`-th iteration performs `data[i] = v i` (whatever else it reads) runs
without fault over a buffer of at least `n` elements and leaves `v 0, ..., v (n - 1)` in
it, followed by the rest of the original content. -/
theorem vec_loop (s0 : State) (data : Option Nat) (b0 : List F32) (hb : s0.buf data = some b0)
    (n : Nat) (hn : n ≤ b0.length) (body : Nat → State → Option State) (v : Nat → F32)
    (hbody : ∀ s i, i < n → VecInv s0 data b0 v i s → body i s = s.wr data i (v i)) :
    ∃ s1, forLoop 0 n body s0 = some s1 ∧ VecInv s0 data b0 v n s1 := by
  refine forLoop_inv (fun k s => VecInv s0 data b0 v k s) 0 n body s0 (Nat.zero_le _)
    ⟨fun _ _ => rfl, rfl, by simpa using hb⟩ ?_
  intro i s _ hi hinv
  show ∃ t1, body i s = some t1 ∧ VecInv s0 data b0 v (i + 1) t1
  rw [hbody s i hi hinv]
  exact vec_step hinv (by omega)

theorem VecInv.rd {s0 s1 : State} {data : Option Nat} {b0 : List F32} {v : Nat → F32}
    {n : Nat} (h : VecInv s0 data b0 v n s1) {i : Nat} (hi : i < n) :
    s1.rd data i = some (v i) := by
  rw [State.rd_of_buf h.2.2, List.getElem?_append_left (by simpa using hi)]
  simp [hi]

theorem VecInv.rd_ge {s0 s1 : State} {data : Option Nat} {b0 : List F32} {v : Nat → F32}
    {n : Nat} (h : VecInv s0 data b0 v n s1) {i : Nat} (hi : n ≤ i) :
    s1.rd data i = b0[i]? := by
  rw [State.rd_of_buf h.2.2, List.getElem?_append_right (by simpa using hi)]
  simp
  congr 1
  omega

/-! ## `linear` -/

theorem Tensor.Holds.size_eq {t : Tensor} {s : State} {b : List F32} (h : t.Holds s b) :
    (t.width * t.height * t.channels) % SIZE_MOD = b.length := by
  obtain ⟨-, h2, h3⟩ := h
  unfold SIZE_MOD
  rw [← h2]
  exact Nat.mod_eq_of_lt (by omega)

theorem linear_sum_eq {s : State} {inp wts : Tensor} {bi bw : List F32} (hi : inp.Holds s bi)
    (hw : s.buf wts.data = some bw) (hw4 : 4 * bw.length < 2 ^ 64) {o m : Nat}
    (hwl : m * bi.length ≤ bw.length) (ho : o < m) :
    linear_sum s inp wts bi.length o = some ((List.range bi.length).foldl
      (fun (acc : F32) (i : Nat) => acc + (s.rd inp.data i).getD 0 *
        (s.rd wts.data (o * bi.length + i)).getD 0) 0) := by
  unfold linear_sum
  apply forLoop_zero_eq_foldl
  intro i acc hil
  have e2 : o * bi.length + i < bw.length := by
    have : (o + 1) * bi.length ≤ m * bi.length := Nat.mul_le_mul_right _ ho
    have e : (o + 1) * bi.length = o * bi.length + bi.length := by ring
    omega
  have e4 : (o * bi.length + i) % SIZE_MOD = o * bi.length + i := by
    unfold SIZE_MOD
    exact Nat.mod_eq_of_lt (by omega)
  rw [e4, State.rd_of_buf hw, List.getElem?_eq_getElem e2, State.rd_of_buf hi.1,
    List.getElem?_eq_getElem hil]
  rfl

theorem linear_raw_congr {s s1 : State} {inp wts : Tensor} {bias : Option Tensor}
    (e1 : s1.buf inp.data = s.buf inp.data) (e2 : s1.buf wts.data = s.buf wts.data)
    (e3 : ∀ b, bias = some b → s1.buf b.data = s.buf b.data) (o : Nat) :
    linear_raw s1 inp wts bias o = linear_raw s inp wts bias o := by
  unfold linear_raw
  have e4 : s1.rd inp.data = s.rd inp.data := by
    funext i; simp only [State.rd, e1]
  have e5 : s1.rd wts.data = s.rd wts.data := by
    funext i; simp only [State.rd, e2]
  rw [e4, e5]
  cases bias with
  | none => rfl
  | some b =>
    simp only [add_bias_spec, State.rd, e3 b rfl]

/-- The function `linear` on well-formed operands whose output buffer is not shared, with a
weights buffer of at least `output_size * input_size` floats: it terminates without fault and
`output.data[o]` holds the sum of the products plus the bias, for every `o`. -/
theorem linear_correct (s : State) (out inp wts : Tensor) (bias : Option Tensor)
    (bo bi bw : List F32) (ho : out.Holds s bo) (hi : inp.Holds s bi)
    (hw : s.buf wts.data = some bw) (hw4 : 4 * bw.length < 2 ^ 64)
    (hwl : bo.length * bi.length ≤ bw.length)
    (hb : BiasOK s bias (out.width * out.height * out.channels))
    (hoi : inp.data ≠ out.data) (how : wts.data ≠ out.data)
    (hob : ∀ b, bias = some b → b.data ≠ out.data) :
    ∃ s1, linear s (some out) (some inp) (some wts) bias = some s1 ∧
      VecInv s out.data bo (linear_raw s inp wts bias) bo.length s1 := by
  show ∃ s1, forLoop 0 ((out.width * out.height * out.channels) % SIZE_MOD) (fun out_idx st =>
      (linear_sum st inp wts ((inp.width * inp.height * inp.channels) % SIZE_MOD) out_idx).bind
        fun sum => (add_bias st bias out_idx sum).bind fun sum => st.wr out.data out_idx sum)
      s = some s1 ∧ _
  rw [ho.size_eq, hi.size_eq]
  refine vec_loop s out.data bo ho.1 bo.length (Nat.le_refl _) _ _ ?_
  intro st i hil hinv
  have ei := hinv.1 inp.data hoi
  have ew := hinv.1 wts.data how
  have eb : ∀ b, bias = some b → st.buf b.data = s.buf b.data :=
    fun b e => hinv.1 b.data (hob b e)
  have hb1 : BiasOK st bias bo.length := by
    rw [ho.2.1]
    cases bias with
    | none => trivial
    | some b =>
      rcases hb with hb | ⟨bb, h1, h2⟩
      · exact Or.inl hb
      · exact Or.inr ⟨bb, (eb b rfl).trans h1, h2⟩
  show ((linear_sum st inp wts bi.length i).bind fun sum =>
    (add_bias st bias i sum).bind fun sum => st.wr out.data i sum) = _
  rw [linear_sum_eq (hi.congr ei) (ew.trans hw) hw4 hwl hil, Option.some_bind,
    add_bias_eq hb1 hil, Option.some_bind, ← linear_raw_congr ei ew eb]
  unfold linear_raw
  rw [hi.2.1]

/-- With weights of width `input_size`, height `output_size` and one channel, the raw index
`o * input_size + i` addresses the element `(w = i, h = o, c = 0)` of the tensor layout. -/
theorem linear_raw_index {s : State} {wts : Tensor} {bw : List F32} (hw : wts.Holds s bw)
    (hwc : wts.channels = 1) {i o : Nat} (hi : i < wts.width) (ho : o < wts.height) :
    s.rd wts.data (o * wts.width + i) = some (Get s wts i o 0) := by
  have e3 : 0 * wts.width * wts.height + o * wts.width + i = o * wts.width + i := by ring
  rw [← get_eq_some_Get hw, get_of_holds hw hi ho (by omega), e3, State.rd_of_buf hw.1]

theorem linear_raw_eq_spec {s : State} {inp wts : Tensor} {bw : List F32} (hw : wts.Holds s bw)
    (hww : wts.width = inp.width * inp.height * inp.channels) (hwc : wts.channels = 1)
    (bias : Option Tensor) {o : Nat} (ho : o < wts.height) :
    linear_raw s inp wts bias o = linear_spec s inp wts bias o := by
  unfold linear_raw linear_spec
  congr 1
  apply List.foldl_ext
  intro acc i hi
  rw [List.mem_range] at hi
  rw [← hww, linear_raw_index hw hwc (by omega) ho]
  rfl

/-- C3: for an input tensor with `input_size = width * height * channels` elements, an output
tensor with `output_size` elements (its buffer shared with no other operand), a weights
tensor of width `input_size`, height `output_size` and one channel, and an optional bias of at
least `output_size` elements, `linear` returns and for every `o < output_size` the element
`output.data[o]` is the sum over `i < input_size`, in increasing `i`, of
`input.data[i] * Get (weights, i, o, 0)`, plus `bias.data[o]` when a bias is provided; the
raw index `o * input_size + i` of `linear` addresses the element `(i, o, 0)` of the layout. -/
theorem linear_output_spec (s : State) (out inp wts : Tensor) (bias : Option Tensor)
    (bo bi bw : List F32) (ho : out.Holds s bo) (hi : inp.Holds s bi) (hw : wts.Holds s bw)
    (hww : wts.width = inp.width * inp.height * inp.channels)
    (hwh : wts.height = out.width * out.height * out.channels) (hwc : wts.channels = 1)
    (hb : BiasOK s bias (out.width * out.height * out.channels))
    (hoi : inp.data ≠ out.data) (how : wts.data ≠ out.data)
    (hob : ∀ b, bias = some b → b.data ≠ out.data) :
    ∃ s1, linear s (some out) (some inp) (some wts) bias = some s1 ∧
      (∀ o, o < out.width * out.height * out.channels →
        s1.rd out.data o = some (linear_spec s inp wts bias o)) ∧
      ∀ o i, o < out.width * out.height * out.channels →
        i < inp.width * inp.height * inp.channels →
        s.rd wts.data (o * (inp.width * inp.height * inp.channels) + i) =
          get_tensor_element s (some wts) i o 0 := by
  have hl : bo.length * bi.length ≤ bw.length := by
    rw [hw.2.1, hww, hwh, hwc, ho.2.1, hi.2.1]; apply le_of_eq; ring
  obtain ⟨s1, h1, h2⟩ := linear_correct s out inp wts bias bo bi bw ho hi hw.1 hw.2.2 hl hb
    hoi how hob
  refine ⟨s1, h1, ?_, ?_⟩
  · intro o hol
    rw [h2.rd (by rw [ho.2.1]; exact hol), linear_raw_eq_spec hw hww hwc bias (by omega)]
  · intro o i hol hil
    rw [get_eq_some_Get hw, ← hww, linear_raw_index hw hwc (by omega) (by omega)]

/-- Witness of C3: the theorem applied to input `[1, 2]`, weights `[1, 0, 0, 1]` of width 2
and height 2, and bias `[0, 0]`. -/
theorem linear_output_spec_witness :
    ∃ s1, linear linear_example_state (some ⟨some 0, 2, 1, 1⟩) (some ⟨some 1, 2, 1, 1⟩)
        (some ⟨some 2, 2, 2, 1⟩) (some ⟨some 3, 2, 1, 1⟩) = some s1 ∧
      (∀ o, o < 2 * 1 * 1 → s1.rd (some 0) o =
        some (linear_spec linear_example_state ⟨some 1, 2, 1, 1⟩ ⟨some 2, 2, 2, 1⟩
          (some ⟨some 3, 2, 1, 1⟩) o)) ∧
      ∀ o i, o < 2 * 1 * 1 → i < 2 * 1 * 1 →
        linear_example_state.rd (some 2) (o * (2 * 1 * 1) + i) =
          get_tensor_element linear_example_state (some ⟨some 2, 2, 2, 1⟩) i o 0 :=
  linear_output_spec linear_example_state ⟨some 0, 2, 1, 1⟩ ⟨some 1, 2, 1, 1⟩
    ⟨some 2, 2, 2, 1⟩ (some ⟨some 3, 2, 1, 1⟩) [0, 0] [F32.ofInt 1, F32.ofInt 2] [1, 0, 0, 1]
    (by decide) (by decide) (by decide) rfl rfl rfl (Or.inr ⟨[0, 0], rfl, by decide⟩)
    (by decide) (by decide) (by intro b hb; cases hb; decide)

/-! ## Rounding of exactly representable values -/

theorem F32.roundShift_fuel (n : Nat) : ∀ (fuel s fuel1 : Nat), n / 2 ^ (s + fuel) < 2 ^ 24 →
    fuel ≤ fuel1 → F32.roundShift fuel1 n s = F32.roundShift fuel n s := by
  intro fuel
  induction fuel with
  | zero =>
    intro s fuel1 h _
    cases fuel1 with
    | zero => rfl
    | succ f => simp only [F32.roundShift]; rw [if_pos (by simpa using h)]
  | succ fuel ih =>
    intro s fuel1 h hle
    cases fuel1 with
    | zero => omega
    | succ f =>
      simp only [F32.roundShift]
      split_ifs with hc
      · rfl
      · exact ih (s + 1) f (by rw [show s + 1 + fuel = s + (fuel + 1) by omega]; exact h)
          (by omega)

theorem F32.roundShift_scale (n u : Nat) : ∀ (fuel s : Nat),
    F32.roundShift fuel (n * 2 ^ u) (s + u) = F32.roundShift fuel n s + u := by
  intro fuel
  induction fuel with
  | zero => intro s; rfl
  | succ fuel ih =>
    intro s
    have e : n * 2 ^ u / 2 ^ (s + u) = n / 2 ^ s := by
      rw [pow_add]
      exact Nat.mul_div_mul_right _ _ (by positivity)
    simp only [F32.roundShift, e]
    split_ifs with hc
    · rfl
    · rw [show s + u + 1 = (s + 1) + u by omega]
      exact ih (s + 1)

theorem F32.roundNat_scale (n u : Nat) : F32.roundNat (n * 2 ^ u) u = F32.roundNat n 0 := by
  have hs : F32.roundShift (n * 2 ^ u) (n * 2 ^ u) u = F32.roundShift n n 0 + u := by
    have h1 : n * 2 ^ u / 2 ^ (u + n) < 2 ^ 24 := by
      have e : n * 2 ^ u / 2 ^ (u + n) = n / 2 ^ n := by
        rw [show u + n = n + u by omega, pow_add]
        exact Nat.mul_div_mul_right _ _ (by positivity)
      rw [e, Nat.div_eq_of_lt (Nat.lt_two_pow n)]
      positivity
    have h2 : n ≤ n * 2 ^ u := Nat.le_mul_of_pos_right _ (by positivity)
    rw [F32.roundShift_fuel (n * 2 ^ u) n u (n * 2 ^ u) h1 h2]
    have := F32.roundShift_scale n u n 0
    rw [Nat.zero_add] at this
    exact this
  unfold F32.roundNat
  simp only [hs]
  generalize F32.roundShift n n 0 = s
  have e1 : n * 2 ^ u / 2 ^ (s + u) = n / 2 ^ s := by
    rw [pow_add]
    exact Nat.mul_div_mul_right _ _ (by positivity)
  have e2 : n * 2 ^ u % 2 ^ (s + u) = n % 2 ^ s * 2 ^ u := by
    rw [pow_add]
    exact Nat.mul_mod_mul_right _ _ _
  have hpos : 0 < 2 ^ u := by positivity
  have c1 : 2 ^ (s + u) < 2 * (n % 2 ^ s * 2 ^ u) ↔ 2 ^ s < 2 * (n % 2 ^ s) := by
    rw [pow_add, ← Nat.mul_assoc]
    exact Nat.mul_lt_mul_right hpos
  have c2 : 2 * (n % 2 ^ s * 2 ^ u) = 2 ^ (s + u) ↔ 2 * (n % 2 ^ s) = 2 ^ s := by
    rw [pow_add, ← Nat.mul_assoc]
    exact Nat.mul_left_inj (by omega)
  rw [e1, e2]
  simp only [c1, c2, Nat.add_sub_cancel, Nat.sub_zero]

theorem F32.ofExact_scale (a : Int) (u : Nat) :
    F32.ofExact (a * ((2 ^ u : Nat) : Int)) u = F32.ofExact a 0 := by
  have h1 : (a * ((2 ^ u : Nat) : Int)).natAbs = a.natAbs * 2 ^ u := by
    rw [Int.natAbs_mul, Int.natAbs_ofNat]
  have h2 : a * ((2 ^ u : Nat) : Int) < 0 ↔ a < 0 := by
    have hp : (0 : Int) < ((2 ^ u : Nat) : Int) := by positivity
    constructor
    · intro h
      by_contra hn
      have : 0 ≤ a * ((2 ^ u : Nat) : Int) := mul_nonneg (by omega) hp.le
      omega
    · intro h
      exact mul_neg_of_neg_of_pos h hp
  unfold F32.ofExact
  simp only [h1, h2, F32.roundNat_scale]

theorem F32.fin_mul_fin (a b : Int) : F32.fin a * F32.fin b = F32.ofExact (a * b) 149 := by
  show F32.mul (F32.fin a) (F32.fin b) = _
  rw [F32.mul]

theorem F32.fin_add_fin (a b : Int) : F32.fin a + F32.fin b = F32.ofExact (a + b) 0 := rfl

theorem F32.one_def : (1 : F32) = F32.fin ((2 ^ 149 : Nat) : Int) := rfl

theorem F32.zero_def : (0 : F32) = F32.fin 0 := rfl

theorem F32.IsFinite.mul_one {x : F32} (h : x.IsFinite) : x * 1 = x := by
  obtain ⟨m, rfl, hm⟩ := h
  rw [F32.one_def, F32.fin_mul_fin, F32.ofExact_scale, hm]

theorem F32.IsFinite.mul_zero {x : F32} (h : x.IsFinite) : x * 0 = 0 := by
  obtain ⟨m, rfl, -⟩ := h
  rw [F32.zero_def, F32.fin_mul_fin, Int.mul_zero]
  decide

theorem F32.IsFinite.add_zero {x : F32} (h : x.IsFinite) : x + 0 = x := by
  obtain ⟨m, rfl, hm⟩ := h
  rw [F32.zero_def, F32.fin_add_fin, Int.add_zero, hm]

theorem F32.IsFinite.zero_add {x : F32} (h : x.IsFinite) : 0 + x = x := by
  obtain ⟨m, rfl, hm⟩ := h
  rw [F32.zero_def, F32.fin_add_fin, Int.zero_add, hm]

theorem F32.isFinite_zero : (0 : F32).IsFinite := ⟨0, rfl, by decide⟩

theorem foldl_identity (x : Nat → F32) (o n : Nat) (hx : ∀ i, i < n → (x i).IsFinite) :
    ∀ k, k ≤ n → (List.range k).foldl
      (fun (acc : F32) (i : Nat) => acc + x i * (if i = o then 1 else 0)) 0 =
      if o < k then x o else 0 := by
  intro k
  induction k with
  | zero => intro _; rfl
  | succ k ih =>
    intro hk
    rw [List.range_succ, List.foldl_append, ih (by omega)]
    simp only [List.foldl_cons, List.foldl_nil]
    by_cases hko : k = o
    · subst hko
      rw [if_neg (lt_irrefl _), if_pos rfl, if_pos (Nat.lt_succ_self _),
        (hx k (by omega)).mul_one, (hx k (by omega)).zero_add]
    · rw [if_neg hko, (hx k (by omega)).mul_zero]
      by_cases hok : o < k
      · rw [if_pos hok, if_pos (by omega), (hx o (by omega)).add_zero]
      · rw [if_neg hok, if_neg (by omega), F32.isFinite_zero.add_zero]

/-- C4 (amended): for every `n` (in particular `n ≥ 1`) and every input of `n` finite
elements (no infinity, no NaN), `linear` with an
`n x n` row-major identity weight matrix (`weights.data[o * n + i]` is 1 if `i = o`, else 0)
and an all-zero bias of `n` elements (or no bias) returns with an `n`-element output buffer
that equals the input buffer element for element. -/
theorem linear_identity (s : State) (out inp wts : Tensor) (bias : Option Tensor)
    (bo bi bw : List F32) (n : Nat) (ho : out.Holds s bo) (hi : inp.Holds s bi)
    (hon : bo.length = n) (hin : bi.length = n) (hw : s.buf wts.data = some bw)
    (hwn : bw.length = n * n) (hw4 : 4 * bw.length < 2 ^ 64)
    (hid : ∀ o i, o < n → i < n → bw[o * n + i]? = some (if i = o then 1 else 0))
    (hb : ZeroBias s bias n) (hfin : ∀ x, x ∈ bi → x.IsFinite)
    (hoi : inp.data ≠ out.data) (how : wts.data ≠ out.data)
    (hob : ∀ b, bias = some b → b.data ≠ out.data) :
    ∃ s1, linear s (some out) (some inp) (some wts) bias = some s1 ∧
      s1.buf out.data = some bi := by
  have hsz : out.width * out.height * out.channels = n := by rw [← ho.2.1, hon]
  have hsi : inp.width * inp.height * inp.channels = n := by rw [← hi.2.1, hin]
  obtain ⟨s1, h1, h2⟩ := linear_correct s out inp wts bias bo bi bw ho hi hw hw4
    (by rw [hon, hin, hwn]) (by rw [hsz]; exact hb.biasOK) hoi how hob
  refine ⟨s1, h1, ?_⟩
  rw [h2.2.2, List.drop_of_length_le (Nat.le_refl _), List.append_nil]
  congr 1
  apply List.ext_getElem
  · simp [hon, hin]
  · intro o h3 h4
    have hol : o < n := by omega
    have hxf : ∀ i, i < n → ((s.rd inp.data i).getD 0).IsFinite := by
      intro i hil
      rw [State.rd_of_buf hi.1, List.getElem?_eq_getElem (by omega)]
      exact hfin _ (List.getElem_mem _)
    simp only [List.getElem_map, List.getElem_range]
    unfold linear_raw
    rw [hsi]
    have hfold : (List.range n).foldl (fun (acc : F32) (i : Nat) =>
        acc + (s.rd inp.data i).getD 0 * (s.rd wts.data (o * n + i)).getD 0) 0 =
        (List.range n).foldl (fun (acc : F32) (i : Nat) =>
        acc + (s.rd inp.data i).getD 0 * (if i = o then 1 else 0)) 0 := by
      apply List.foldl_ext
      intro acc i hil
      rw [List.mem_range] at hil
      rw [State.rd_of_buf hw, hid o i hol hil]
      rfl
    rw [hfold, foldl_identity _ o n hxf n (Nat.le_refl _), if_pos hol,
      add_bias_spec_zero hb hol _ (hxf o hol).add_zero, State.rd_of_buf hi.1,
      List.getElem?_eq_getElem (by omega)]
    rfl

/-- Witness of C4: the scenario of the specification, input `[1, 2]`, weights
`[1, 0, 0, 1]`, bias `[0, 0]`, gives the output `[1, 2]`. -/
theorem linear_identity_witness :
    ∃ s1, linear linear_example_state (some ⟨some 0, 2, 1, 1⟩) (some ⟨some 1, 2, 1, 1⟩)
        (some ⟨some 2, 2, 2, 1⟩) (some ⟨some 3, 2, 1, 1⟩) = some s1 ∧
      s1.buf (some 0) = some [F32.ofInt 1, F32.ofInt 2] :=
  linear_identity linear_example_state ⟨some 0, 2, 1, 1⟩ ⟨some 1, 2, 1, 1⟩
    ⟨some 2, 2, 2, 1⟩ (some ⟨some 3, 2, 1, 1⟩) [0, 0] [F32.ofInt 1, F32.ofInt 2] [1, 0, 0, 1] 2
    (by decide) (by decide) rfl rfl rfl rfl (by decide)
    (fun o i ho hi => by interval_cases o <;> interval_cases i <;> rfl)
    ⟨[0, 0], rfl, by decide, fun i hi => by interval_cases i <;> rfl⟩
    (fun x hx => by
      simp only [List.mem_cons, List.mem_singleton, List.not_mem_nil, or_false] at hx
      rcases hx with rfl | rfl
      · exact ⟨((2 ^ 149 : Nat) : Int), by decide, by decide⟩
      · exact ⟨((2 ^ 150 : Nat) : Int), by decide, by decide⟩)
    (by decide) (by decide) (by intro b hb; cases hb; decide)

/-- C4 as stated fails for an input holding an infinity: with input `[+inf, 1]`, the 2 x 2
identity matrix and no bias, `output[1]` is `0 + inf * 0 + 1 * 1`, and `inf * 0` is NaN, so
the output buffer is `[+inf, NaN]` and differs from the input buffer. -/
theorem linear_identity_inf_counterexample :
    Tensor.Holds ⟨some 0, 2, 1, 1⟩ linear_inf_state [0, 0] ∧
    Tensor.Holds ⟨some 1, 2, 1, 1⟩ linear_inf_state [F32.pinf, 1] ∧
    Tensor.Holds ⟨some 2, 2, 2, 1⟩ linear_inf_state [1, 0, 0, 1] ∧
    ((linear linear_inf_state (some ⟨some 0, 2, 1, 1⟩) (some ⟨some 1, 2, 1, 1⟩)
      (some ⟨some 2, 2, 2, 1⟩) none).bind fun s1 => s1.buf (some 0)) =
      some [F32.pinf, F32.nan] ∧
    [F32.pinf, F32.nan] ≠ [F32.pinf, 1] := by
  decide

/-! ## The order of binary32 values that are not NaN -/

theorem F32.lt_iff (x y : F32) : x < y ↔ F32.lt x y = true := Iff.rfl

theorem F32.le_iff (x y : F32) : x ≤ y ↔ F32.le x y = true := Iff.rfl

theorem F32.le_of_not_lt {x y : F32} (hx : x ≠ F32.nan) (hy : y ≠ F32.nan) (h : ¬ x < y) :
    y ≤ x := by
  rw [F32.lt_iff] at h
  rw [F32.le_iff]
  cases x <;> cases y <;> simp_all [F32.lt, F32.le]

theorem F32.le_of_lt {x y : F32} (h : x < y) : x ≤ y := by
  rw [F32.lt_iff] at h
  rw [F32.le_iff]
  cases x <;> cases y <;> simp_all [F32.lt, F32.le]
  omega

theorem F32.le_refl {x : F32} (hx : x ≠ F32.nan) : x ≤ x := by
  rw [F32.le_iff]
  cases x <;> simp_all [F32.le]

theorem F32.lt_of_le_of_lt {x y z : F32} (h1 : x ≤ y) (h2 : y < z) : x < z := by
  rw [F32.lt_iff] at *
  rw [F32.le_iff] at h1
  cases x <;> cases y <;> cases z <;> simp_all [F32.lt, F32.le]
  omega

theorem F32.lt_of_lt_of_le {x y z : F32} (h1 : x < y) (h2 : y ≤ z) : x < z := by
  rw [F32.lt_iff] at *
  rw [F32.le_iff] at h2
  cases x <;> cases y <;> cases z <;> simp_all [F32.lt, F32.le]
  omega

theorem F32.le_trans {x y z : F32} (h1 : x ≤ y) (h2 : y ≤ z) : x ≤ z := by
  rw [F32.le_iff] at *
  cases x <;> cases y <;> cases z <;> simp_all [F32.le]
  omega

theorem F32.not_lt_of_le {x y : F32} (h : x ≤ y) : ¬ y < x := by
  rw [F32.lt_iff]
  rw [F32.le_iff] at h
  cases x <;> cases y <;> simp_all [F32.lt, F32.le]

theorem F32.eq_of_le_of_le {x y : F32} (h1 : x ≤ y) (h2 : y ≤ x) : x = y := by
  rw [F32.le_iff] at *
  cases x <;> cases y <;> simp_all [F32.le]
  omega

/-! ## `max` -/

theorem toInt_zero : toInt 0 = 0 := by decide

theorem max_step {b : List F32} (hnan : ∀ x, x ∈ b → x ≠ F32.nan) {k : Nat} (hk : k < b.length)
    {acc : F32 × Int} (hinv : MaxInv b k acc) :
    MaxInv b (k + 1) (if acc.1 < b[k] then (b[k], toInt k) else acc) := by
  obtain ⟨j, hj, hidx, hval, hle, hlt⟩ := hinv
  have hjl : j < b.length := by omega
  have hacc : acc.1 ≠ F32.nan := by
    rw [List.getElem?_eq_getElem hjl] at hval
    have := hnan _ (List.getElem_mem hjl)
    rw [Option.some.inj hval] at this
    exact this
  have hbk : b[k] ≠ F32.nan := hnan _ (List.getElem_mem hk)
  by_cases hc : acc.1 < b[k]
  · rw [if_pos hc]
    refine ⟨k, Nat.lt_succ_self k, Eq.refl (toInt k), List.getElem?_eq_getElem hk, ?_, ?_⟩
    · intro i hi x hx
      rcases Nat.lt_succ_iff_lt_or_eq.mp hi with h | h
      · exact F32.le_of_lt (F32.lt_of_le_of_lt (hle i h x hx) hc)
      · subst h
        rw [List.getElem?_eq_getElem hk] at hx
        rw [← Option.some.inj hx]
        exact F32.le_refl hbk
    · intro i hi x hx
      exact F32.lt_of_le_of_lt (hle i hi x hx) hc
  · rw [if_neg hc]
    refine ⟨j, by omega, hidx, hval, ?_, hlt⟩
    intro i hi x hx
    rcases Nat.lt_succ_iff_lt_or_eq.mp hi with h | h
    · exact hle i h x hx
    · subst h
      rw [List.getElem?_eq_getElem hk] at hx
      rw [← Option.some.inj hx]
      exact F32.le_of_not_lt hacc hbk hc

/-- The function `max` on a tensor with a live buffer of `N ≥ 1` floats none of which is
NaN: it returns the first maximal element and the conversion to `int` of its position. -/
theorem max_correct (s : State) (inp : Tensor) (bi : List F32) (o0 : F32) (i0 : Int)
    (hi : inp.Holds s bi) (hN : 1 ≤ bi.length) (hnan : ∀ x, x ∈ bi → x ≠ F32.nan) :
    ∃ v j, max s (some o0) (some i0) (some inp) = some (s, some v, some (toInt j)) ∧
      j < bi.length ∧ bi[j]? = some v ∧ (∀ x, x ∈ bi → x ≤ v) ∧
      ∀ i, i < j → ∀ x, bi[i]? = some x → x < v := by
  have hd : inp.data ≠ none := by
    intro e; have := hi.1; simp [e, State.buf] at this
  have hsz : (inp.channels * inp.height * inp.width) % SIZE_MOD = bi.length := by
    rw [← hi.size_eq]; congr 1; ring
  have h0 : s.rd inp.data 0 = some bi[0] := by
    rw [State.rd_of_buf hi.1, List.getElem?_eq_getElem hN]
  obtain ⟨acc, hacc, hinv⟩ := forLoop_inv (fun k acc => MaxInv bi k acc) 1 bi.length
    (fun i (acc : F32 × Int) => (s.rd inp.data i).bind fun x =>
      if acc.1 < x then some (x, toInt i) else some acc) (bi[0], 0) hN
    ⟨0, by omega, toInt_zero.symm, List.getElem?_eq_getElem hN, fun i hi x hx => by
        have : i = 0 := by omega
        subst this
        rw [List.getElem?_eq_getElem hN] at hx
        rw [← Option.some.inj hx]
        exact F32.le_refl (hnan _ (List.getElem_mem hN)), fun i hi => by omega⟩
    (fun k acc _ hk hinv => by
      refine ⟨_, ?_, max_step hnan hk hinv⟩
      show ((s.rd inp.data k).bind fun x =>
        if acc.1 < x then some (x, toInt k) else some acc) = _
      rw [State.rd_of_buf hi.1, List.getElem?_eq_getElem hk, Option.some_bind]
      split_ifs <;> rfl)
  obtain ⟨j, hj, hidx, hval, hle, hlt⟩ := hinv
  refine ⟨acc.1, j, ?_, hj, hval, ?_, hlt⟩
  · simp only [max]
    rw [if_neg hd, hsz, if_neg (by omega), h0, Option.some_bind, hacc, Option.some_bind, hidx]
  · intro x hx
    obtain ⟨i, hil, rfl⟩ := List.getElem_of_mem hx
    exact hle i hil _ (List.getElem?_eq_getElem hil)

/-- C5 (amended): for every tensor with non-null data and `1 ≤ N ≤ 2 ^ 31` elements
(`N = width * height * channels`), none of them NaN, `max` returns and stores a value and an
index with `0 ≤ index < N`, `input.data[index] = value`, every element of the buffer `≤ value`
and every element before `index` strictly less than `value`. -/
theorem max_first_maximum (s : State) (inp : Tensor) (bi : List F32) (o0 : F32) (i0 : Int)
    (hi : inp.Holds s bi) (hN : 1 ≤ bi.length) (hN2 : bi.length ≤ 2 ^ 31)
    (hnan : ∀ x, x ∈ bi → x ≠ F32.nan) :
    ∃ (value : F32) (index : Nat),
      max s (some o0) (some i0) (some inp) = some (s, some value, some (index : Int)) ∧
      index < bi.length ∧ bi[index]? = some value ∧ (∀ x, x ∈ bi → x ≤ value) ∧
      ∀ i, i < index → ∀ x, bi[i]? = some x → x < value := by
  obtain ⟨v, j, h1, h2, h3⟩ := max_correct s inp bi o0 i0 hi hN hnan
  rw [toInt_of_lt (by omega)] at h1
  exact ⟨v, j, h1, h2, h3⟩

/-- Witness of C5: the scenario of the specification; over `[0.1, -0.5, 0.9, 0.9]` the
stored value is `0.9` and the stored index is 2. -/
theorem max_first_maximum_witness :
    (∃ (value : F32) (index : Nat),
      max max_example_state (some 0) (some 0) (some ⟨some 0, 4, 1, 1⟩) =
        some (max_example_state, some value, some (index : Int)) ∧
      index < 4 ∧ [F32.c0_1, F32.cm0_5, F32.c0_9, F32.c0_9][index]? = some value ∧
      (∀ x, x ∈ [F32.c0_1, F32.cm0_5, F32.c0_9, F32.c0_9] → x ≤ value) ∧
      ∀ i, i < index → ∀ x, [F32.c0_1, F32.cm0_5, F32.c0_9, F32.c0_9][i]? = some x →
        x < value) ∧
    (max max_example_state (some 0) (some 0) (some ⟨some 0, 4, 1, 1⟩)).map (fun r => r.2) =
      some (some F32.c0_9, some 2) :=
  ⟨max_first_maximum max_example_state ⟨some 0, 4, 1, 1⟩
    [F32.c0_1, F32.cm0_5, F32.c0_9, F32.c0_9] 0 0 (by decide) (by decide) (by decide)
    (by decide), by decide⟩

theorem max_long_holds :
    Tensor.Holds ⟨some 0, 2 ^ 31 + 1, 1, 1⟩ max_long_state (List.replicate (2 ^ 31) 0 ++ [1]) := by
  refine ⟨rfl, ?_, ?_⟩ <;> rw [List.length_append, List.length_replicate] <;> norm_num

theorem max_long_result :
    max max_long_state (some 0) (some 0) (some ⟨some 0, 2 ^ 31 + 1, 1, 1⟩) =
      some (max_long_state, some 1, some (-2147483648)) := by
  have hlen : (List.replicate (2 ^ 31) (0 : F32) ++ [1]).length = 2 ^ 31 + 1 := by
    rw [List.length_append, List.length_replicate]; rfl
  have hnan : ∀ x, x ∈ List.replicate (2 ^ 31) (0 : F32) ++ [1] → x ≠ F32.nan := by
    intro x hx
    rw [List.mem_append] at hx
    rcases hx with hx | hx
    · rw [List.eq_of_mem_replicate hx]; decide
    · rw [List.mem_singleton] at hx; rw [hx]; decide
  obtain ⟨v, j, h1, h2, h3, h4, -⟩ := max_correct max_long_state ⟨some 0, 2 ^ 31 + 1, 1, 1⟩ _
    0 0 max_long_holds (by rw [hlen]; omega) hnan
  have h5 : (1 : F32) ≤ v := h4 1 (by rw [List.mem_append]; right; exact List.mem_singleton_self 1)
  rw [hlen] at h2
  have hj : j = 2 ^ 31 := by
    by_contra hne
    have hlt : j < 2 ^ 31 := by omega
    rw [List.getElem?_append_left (by rw [List.length_replicate]; exact hlt),
      List.getElem?_replicate, if_pos hlt] at h3
    rw [← Option.some.inj h3] at h5
    exact absurd h5 (by decide)
  subst hj
  rw [List.getElem?_append_right (by rw [List.length_replicate]), List.length_replicate,
    Nat.sub_self] at h3
  have hv : v = 1 := (Option.some.inj h3).symm
  have ht : toInt (2 ^ 31) = -2147483648 := by decide
  rw [h1, hv, ht]

/-- C5 as stated fails in two ways.  Over the buffer `[1, NaN]` the scan keeps value 1 and
index 0 (the comparison `NaN > 1` is false), yet the element NaN is not `≤ 1`.  Over a buffer
of `2 ^ 31` zeros followed by a one, the maximum is at position `2 ^ 31` and the stored index
`(int) i` is `-2 ^ 31`, which is not in `0 ≤ index < N`. -/
theorem max_nan_and_long_counterexample :
    (Tensor.Holds ⟨some 0, 2, 1, 1⟩ max_nan_state [1, F32.nan] ∧
      (max max_nan_state (some 0) (some 0) (some ⟨some 0, 2, 1, 1⟩)).map (fun r => r.2) =
        some (some 1, some 0) ∧
      ¬ (F32.nan ≤ (1 : F32))) ∧
    (Tensor.Holds ⟨some 0, 2 ^ 31 + 1, 1, 1⟩ max_long_state
        (List.replicate (2 ^ 31) 0 ++ [1]) ∧
      max max_long_state (some 0) (some 0) (some ⟨some 0, 2 ^ 31 + 1, 1, 1⟩) =
        some (max_long_state, some 1, some (-2147483648)) ∧
      ¬ ((0 : Int) ≤ -2147483648)) :=
  ⟨by decide, max_long_holds, max_long_result, by decide⟩

/-! ## `maxpool2d` -/

theorem foldl_product {α β γ : Type} (g : γ → α → β → γ) (l1 : List α) (l2 : List β) (c : γ) :
    l1.foldl (fun acc a => l2.foldl (fun acc b => g acc a b) acc) c =
      (l1.product l2).foldl (fun acc x => g acc x.1 x.2) c := by
  induction l1 generalizing c with
  | nil => rfl
  | cons a l1 ih =>
    have pcons : (a :: l1).product l2 = l2.map (Prod.mk a) ++ l1.product l2 :=
      List.product_cons a l1 l2
    rw [List.foldl_cons, ih, pcons, List.foldl_append, List.foldl_map]

/-- The running maximum over the elements of a list that pass a test, none of them NaN: the
result is at least the initial value and at least every tested element, and it is the initial
value or one of the tested elements. -/
theorem foldl_max_spec {α : Type} (b : α → Prop) [DecidablePred b] (f : α → F32) (l : List α) :
    ∀ (init : F32), init ≠ F32.nan → (∀ k, k ∈ l → b k → f k ≠ F32.nan) →
      l.foldl (fun acc k => if b k then (if acc < f k then f k else acc) else acc) init
        ≠ F32.nan ∧
      init ≤ l.foldl (fun acc k => if b k then (if acc < f k then f k else acc) else acc) init ∧
      (∀ k, k ∈ l → b k →
        f k ≤ l.foldl (fun acc k => if b k then (if acc < f k then f k else acc) else acc)
          init) ∧
      (l.foldl (fun acc k => if b k then (if acc < f k then f k else acc) else acc) init = init ∨
        ∃ k, k ∈ l ∧ b k ∧
          l.foldl (fun acc k => if b k then (if acc < f k then f k else acc) else acc) init =
            f k) := by
  induction l with
  | nil =>
    intro init hinit _
    exact ⟨hinit, F32.le_refl hinit, fun k hk => absurd hk (List.not_mem_nil k), Or.inl rfl⟩
  | cons a l ih =>
    intro init hinit hnan
    rw [List.foldl_cons]
    have hnan1 : ∀ k, k ∈ l → b k → f k ≠ F32.nan :=
      fun k hk hb => hnan k (List.mem_cons_of_mem a hk) hb
    by_cases hb : b a
    · have hfa : f a ≠ F32.nan := hnan a (List.mem_cons_self a l) hb
      rw [if_pos hb]
      by_cases hlt : init < f a
      · rw [if_pos hlt]
        obtain ⟨h1, h2, h3, h4⟩ := ih (f a) hfa hnan1
        refine ⟨h1, F32.le_trans (F32.le_of_lt hlt) h2, ?_, ?_⟩
        · intro k hk hbk
          rcases List.mem_cons.mp hk with rfl | hk1
          · exact h2
          · exact h3 k hk1 hbk
        · right
          rcases h4 with h4 | ⟨k, hk, hbk, h5⟩
          · exact ⟨a, List.mem_cons_self a l, hb, h4⟩
          · exact ⟨k, List.mem_cons_of_mem a hk, hbk, h5⟩
      · rw [if_neg hlt]
        obtain ⟨h1, h2, h3, h4⟩ := ih init hinit hnan1
        refine ⟨h1, h2, ?_, ?_⟩
        · intro k hk hbk
          rcases List.mem_cons.mp hk with rfl | hk1
          · exact F32.le_trans (F32.le_of_not_lt hinit hfa hlt) h2
          · exact h3 k hk1 hbk
        · rcases h4 with h4 | ⟨k, hk, hbk, h5⟩
          · exact Or.inl h4
          · exact Or.inr ⟨k, List.mem_cons_of_mem a hk, hbk, h5⟩
    · rw [if_neg hb]
      obtain ⟨h1, h2, h3, h4⟩ := ih init hinit hnan1
      refine ⟨h1, h2, ?_, ?_⟩
      · intro k hk hbk
        rcases List.mem_cons.mp hk with rfl | hk1
        · exact absurd hbk hb
        · exact h3 k hk1 hbk
      · rcases h4 with h4 | ⟨k, hk, hbk, h5⟩
        · exact Or.inl h4
        · exact Or.inr ⟨k, List.mem_cons_of_mem a hk, hbk, h5⟩

theorem maxpool2d_max_eq {s : State} {inp : Tensor} {bi : List F32} (hi : inp.Holds s bi)
    (p ow oh c : Nat) :
    maxpool2d_max s inp p ow oh c = some (maxpool2d_fold s inp p ow oh c) := by
  unfold maxpool2d_max maxpool2d_fold
  apply forLoop_zero_eq_foldl
  intro pool_h acc _
  apply forLoop_zero_eq_foldl
  intro pool_w acc _
  show (if (oh * p + pool_h) % SIZE_MOD < inp.height ∧
      (ow * p + pool_w) % SIZE_MOD < inp.width then
      (get_tensor_element s (some inp) ((ow * p + pool_w) % SIZE_MOD)
        ((oh * p + pool_h) % SIZE_MOD) c).bind fun val =>
        if acc < val then some val else some acc
    else some acc) = _
  rw [get_eq_some_Get hi, Option.some_bind]
  split_ifs <;> rfl

theorem maxpool2d_fold_congr {s s1 : State} {inp : Tensor}
    (e : s1.buf inp.data = s.buf inp.data) (p ow oh c : Nat) :
    maxpool2d_fold s1 inp p ow oh c = maxpool2d_fold s inp p ow oh c := by
  unfold maxpool2d_fold
  rw [Get_congr e]

/-- The function `maxpool2d` with a positive pool size on well-formed operands that do not
share a buffer: it terminates without fault and every output cell holds the running maximum
that the window loops compute for it. -/
theorem maxpool2d_correct (s : State) (out inp : Tensor) (bo bi : List F32) (p : Nat)
    (hp : 1 ≤ p) (ho : out.Holds s bo) (hi : inp.Holds s bi) (hoi : inp.data ≠ out.data) :
    ∃ s1, maxpool2d s (some out) (some inp) p = some s1 ∧
      CellInv s out (fun w h c => maxpool2d_fold s inp p w h c)
        (out.width * out.height * out.channels) s1 := by
  have hp0 : p ≠ 0 := by omega
  have e : maxpool2d s (some out) (some inp) p =
      forLoop 0 out.channels (fun c s => forLoop 0 out.height (fun out_h s =>
        forLoop 0 out.width (fun out_w s =>
          (maxpool2d_max s inp p out_w out_h c).bind fun max_val =>
          set_tensor_element s (some out) out_w out_h c max_val) s) s) s := by
    simp only [maxpool2d]
    rw [if_neg hp0]
  rw [e]
  refine cell_loops s out bo ho (fun w h c st =>
    (maxpool2d_max st inp p w h c).bind fun max_val =>
    set_tensor_element st (some out) w h c max_val)
    (fun w h c => maxpool2d_fold s inp p w h c) ?_
  intro st w h c _ _ _ hfr
  have ei := hfr inp.data hoi
  show ((maxpool2d_max st inp p w h c).bind fun max_val =>
    set_tensor_element st (some out) w h c max_val) = _
  rw [maxpool2d_max_eq (hi.congr ei), Option.some_bind, maxpool2d_fold_congr ei]

theorem Tensor.Holds.height_le {t : Tensor} {s : State} {b : List F32} (h : t.Holds s b)
    (hw : 0 < t.width) (hc : 0 < t.channels) : t.height ≤ b.length := by
  rw [h.2.1]
  calc t.height = 1 * t.height * 1 := by ring
    _ ≤ t.width * t.height * t.channels :=
      Nat.mul_le_mul (Nat.mul_le_mul_right _ hw) hc

theorem Tensor.Holds.width_le {t : Tensor} {s : State} {b : List F32} (h : t.Holds s b)
    (hh : 0 < t.height) (hc : 0 < t.channels) : t.width ≤ b.length := by
  rw [h.2.1]
  calc t.width = t.width * 1 * 1 := by ring
    _ ≤ t.width * t.height * t.channels :=
      Nat.mul_le_mul (Nat.mul_le_mul_left _ hh) hc

theorem pool_index_no_wrap {o p k n : Nat} (hp : p < 2 ^ 64) (hk : k < p) (ho : o * p < n)
    (hn : 4 * n < 2 ^ 64) : (o * p + k) % SIZE_MOD = o * p + k := by
  unfold SIZE_MOD
  apply Nat.mod_eq_of_lt
  rcases Nat.eq_zero_or_pos o with h0 | h1
  · subst h0; omega
  · have : p ≤ o * p := Nat.le_mul_of_pos_left p h1
    omega

/-- The running maximum of a window with an in-bounds position, no NaN among its in-bounds
values and at least one of them not below `-FLT_MAX`, is the greatest value of the window. -/
theorem maxpool2d_fold_spec {s : State} {inp : Tensor} {bi : List F32} (hi : inp.Holds s bi)
    {p ow oh c : Nat} (hp64 : p < 2 ^ 64) (hc : c < inp.channels)
    (hw0 : ow * p < inp.width) (hh0 : oh * p < inp.height)
    (hnan : ∀ k_w k_h, k_w < p → k_h < p → ow * p + k_w < inp.width →
      oh * p + k_h < inp.height → Get s inp (ow * p + k_w) (oh * p + k_h) c ≠ F32.nan)
    (hlow : ∃ k_w k_h, k_w < p ∧ k_h < p ∧ ow * p + k_w < inp.width ∧
      oh * p + k_h < inp.height ∧ -F32.FLT_MAX ≤ Get s inp (ow * p + k_w) (oh * p + k_h) c) :
    (∀ k_w k_h, k_w < p → k_h < p → ow * p + k_w < inp.width → oh * p + k_h < inp.height →
      Get s inp (ow * p + k_w) (oh * p + k_h) c ≤ maxpool2d_fold s inp p ow oh c) ∧
    ∃ k_w k_h, k_w < p ∧ k_h < p ∧ ow * p + k_w < inp.width ∧ oh * p + k_h < inp.height ∧
      maxpool2d_fold s inp p ow oh c = Get s inp (ow * p + k_w) (oh * p + k_h) c := by
  have hW : inp.width ≤ bi.length := hi.width_le (by omega) (by omega)
  have hH : inp.height ≤ bi.length := hi.height_le (by omega) (by omega)
  have h4 := hi.2.2
  have mh : ∀ k, k < p → (oh * p + k) % SIZE_MOD = oh * p + k := fun k hk =>
    pool_index_no_wrap hp64 hk (Nat.lt_of_lt_of_le hh0 hH) h4
  have mw : ∀ k, k < p → (ow * p + k) % SIZE_MOD = ow * p + k := fun k hk =>
    pool_index_no_wrap hp64 hk (Nat.lt_of_lt_of_le hw0 hW) h4
  have hflat : maxpool2d_fold s inp p ow oh c =
      ((List.range p).product (List.range p)).foldl (fun acc (x : Nat × Nat) =>
        if (oh * p + x.1) % SIZE_MOD < inp.height ∧ (ow * p + x.2) % SIZE_MOD < inp.width then
          (if acc < Get s inp ((ow * p + x.2) % SIZE_MOD) ((oh * p + x.1) % SIZE_MOD) c then
            Get s inp ((ow * p + x.2) % SIZE_MOD) ((oh * p + x.1) % SIZE_MOD) c else acc)
        else acc) (-F32.FLT_MAX) :=
    foldl_product (fun (acc : F32) (a b : Nat) =>
      if (oh * p + a) % SIZE_MOD < inp.height ∧ (ow * p + b) % SIZE_MOD < inp.width then
        (if acc < Get s inp ((ow * p + b) % SIZE_MOD) ((oh * p + a) % SIZE_MOD) c then
          Get s inp ((ow * p + b) % SIZE_MOD) ((oh * p + a) % SIZE_MOD) c else acc)
      else acc) (List.range p) (List.range p) (-F32.FLT_MAX)
  have hmem : ∀ a b : Nat, (a, b) ∈ (List.range p).product (List.range p) ↔ a < p ∧ b < p := by
    intro a b
    have := @List.pair_mem_product _ _ (List.range p) (List.range p) a b
    rw [List.mem_range, List.mem_range] at this
    exact this
  obtain ⟨-, g2, g3, g4⟩ := foldl_max_spec
    (fun (x : Nat × Nat) => (oh * p + x.1) % SIZE_MOD < inp.height ∧
      (ow * p + x.2) % SIZE_MOD < inp.width)
    (fun (x : Nat × Nat) => Get s inp ((ow * p + x.2) % SIZE_MOD) ((oh * p + x.1) % SIZE_MOD) c)
    ((List.range p).product (List.range p)) (-F32.FLT_MAX) (by decide)
    (by
      rintro ⟨a, b⟩ hk hb
      obtain ⟨ha, hb1⟩ := (hmem a b).mp hk
      simp only [mh a ha, mw b hb1] at hb ⊢
      exact hnan b a hb1 ha hb.2 hb.1)
  rw [← hflat] at g2 g3 g4
  have key : ∀ k_w k_h, k_w < p → k_h < p → ow * p + k_w < inp.width →
      oh * p + k_h < inp.height →
      Get s inp (ow * p + k_w) (oh * p + k_h) c ≤ maxpool2d_fold s inp p ow oh c := by
    intro k_w k_h hkw hkh hbw hbh
    have := g3 (k_h, k_w) ((hmem k_h k_w).mpr ⟨hkh, hkw⟩)
      (by simp only [mh k_h hkh, mw k_w hkw]; exact ⟨hbh, hbw⟩)
    simp only [mh k_h hkh, mw k_w hkw] at this
    exact this
  refine ⟨key, ?_⟩
  rcases g4 with g4 | ⟨⟨a, b⟩, hk, hb, g5⟩
  · obtain ⟨k_w, k_h, hkw, hkh, hbw, hbh, hle⟩ := hlow
    refine ⟨k_w, k_h, hkw, hkh, hbw, hbh, ?_⟩
    have h1 := key k_w k_h hkw hkh hbw hbh
    rw [g4] at h1 ⊢
    exact F32.eq_of_le_of_le hle h1
  · obtain ⟨ha, hb1⟩ := (hmem a b).mp hk
    simp only [mh a ha, mw b hb1] at hb g5
    exact ⟨b, a, hb1, ha, hb.2, hb.1, g5⟩

/-- C6 (amended): for every pool size `p ≥ 1`, every input tensor and every in-range output
coordinate `(out_w, out_h, c)` with `c < input.channels` such that no in-bounds value of its
window is NaN and at least one of them is not below `-FLT_MAX`, `maxpool2d` stores at that
cell the maximum of the input values at `(in_w, in_h, c)` over `in_w = out_w * p + k_w`,
`in_h = out_h * p + k_h` with `k_w, k_h < p`, `in_w < input.width`, `in_h < input.height`:
the stored value is `≥` every such value and equals one of them. -/
theorem maxpool2d_window_maximum (s : State) (out inp : Tensor) (bo bi : List F32) (p : Nat)
    (hp : 1 ≤ p) (hp64 : p < 2 ^ 64) (ho : out.Holds s bo) (hi : inp.Holds s bi)
    (hoi : inp.data ≠ out.data) :
    ∃ s1, maxpool2d s (some out) (some inp) p = some s1 ∧
      ∀ out_w out_h c, out_w < out.width → out_h < out.height → c < out.channels →
        c < inp.channels →
        (∀ k_w k_h, k_w < p → k_h < p → out_w * p + k_w < inp.width →
          out_h * p + k_h < inp.height →
          Get s inp (out_w * p + k_w) (out_h * p + k_h) c ≠ F32.nan) →
        (∃ k_w k_h, k_w < p ∧ k_h < p ∧ out_w * p + k_w < inp.width ∧
          out_h * p + k_h < inp.height ∧
          -F32.FLT_MAX ≤ Get s inp (out_w * p + k_w) (out_h * p + k_h) c) →
        ∃ v, get_tensor_element s1 (some out) out_w out_h c = some v ∧
          (∀ k_w k_h, k_w < p → k_h < p → out_w * p + k_w < inp.width →
            out_h * p + k_h < inp.height →
            Get s inp (out_w * p + k_w) (out_h * p + k_h) c ≤ v) ∧
          ∃ k_w k_h, k_w < p ∧ k_h < p ∧ out_w * p + k_w < inp.width ∧
            out_h * p + k_h < inp.height ∧
            v = Get s inp (out_w * p + k_w) (out_h * p + k_h) c := by
  obtain ⟨s1, h1, h2⟩ := maxpool2d_correct s out inp bo bi p hp ho hi hoi
  refine ⟨s1, h1, ?_⟩
  intro ow oh c hw hh hc hci hnan hlow
  obtain ⟨k_w, k_h, -, -, hbw, hbh, -⟩ := id hlow
  exact ⟨_, h2.get hw hh hc, maxpool2d_fold_spec hi hp64 hci (by omega) (by omega) hnan hlow⟩

/-- Witness of C6: a 4 x 4 x 1 input holding 1, ..., 16 pooled with `p = 2` into a
2 x 2 x 1 output, which then holds `[6, 8, 14, 16]`. -/
theorem maxpool2d_window_maximum_witness :
    (∃ s1, maxpool2d maxpool2d_example_state (some ⟨some 0, 2, 2, 1⟩) (some ⟨some 1, 4, 4, 1⟩) 2
        = some s1 ∧
      ∀ out_w out_h c, out_w < 2 → out_h < 2 → c < 1 → c < 1 →
        (∀ k_w k_h, k_w < 2 → k_h < 2 → out_w * 2 + k_w < 4 → out_h * 2 + k_h < 4 →
          Get maxpool2d_example_state ⟨some 1, 4, 4, 1⟩ (out_w * 2 + k_w) (out_h * 2 + k_h) c
            ≠ F32.nan) →
        (∃ k_w k_h, k_w < 2 ∧ k_h < 2 ∧ out_w * 2 + k_w < 4 ∧ out_h * 2 + k_h < 4 ∧
          -F32.FLT_MAX ≤ Get maxpool2d_example_state ⟨some 1, 4, 4, 1⟩ (out_w * 2 + k_w)
            (out_h * 2 + k_h) c) →
        ∃ v, get_tensor_element s1 (some ⟨some 0, 2, 2, 1⟩) out_w out_h c = some v ∧
          (∀ k_w k_h, k_w < 2 → k_h < 2 → out_w * 2 + k_w < 4 → out_h * 2 + k_h < 4 →
            Get maxpool2d_example_state ⟨some 1, 4, 4, 1⟩ (out_w * 2 + k_w) (out_h * 2 + k_h) c
              ≤ v) ∧
          ∃ k_w k_h, k_w < 2 ∧ k_h < 2 ∧ out_w * 2 + k_w < 4 ∧ out_h * 2 + k_h < 4 ∧
            v = Get maxpool2d_example_state ⟨some 1, 4, 4, 1⟩ (out_w * 2 + k_w)
              (out_h * 2 + k_h) c) ∧
    ((maxpool2d maxpool2d_example_state (some ⟨some 0, 2, 2, 1⟩) (some ⟨some 1, 4, 4, 1⟩) 2).bind
      fun s1 => s1.buf (some 0)) =
      some [F32.ofInt 6, F32.ofInt 8, F32.ofInt 14, F32.ofInt 16] :=
  ⟨maxpool2d_window_maximum maxpool2d_example_state ⟨some 0, 2, 2, 1⟩ ⟨some 1, 4, 4, 1⟩
    [0, 0, 0, 0] ((List.range 16).map (fun i => F32.ofInt ((i + 1 : Nat) : Int))) 2
    (by decide) (by decide) (by decide) (by decide) (by decide), by decide⟩

/-- C6 as stated fails for windows of special values.  With the input `[-inf]` and `p = 1`
the window of cell `(0, 0, 0)` has the in-bounds value `-inf`, but the stored value is the
initial `-FLT_MAX`, which is none of the window values.  With the 2 x 1 x 1 input `[NaN, 1]`
and `p = 2` the stored value is 1, which is not `≥` the window value NaN. -/
theorem maxpool2d_special_values_counterexample :
    (Tensor.Holds ⟨some 0, 1, 1, 1⟩ maxpool2d_special_state [0] ∧
      Tensor.Holds ⟨some 1, 1, 1, 1⟩ maxpool2d_special_state [F32.ninf] ∧
      Get maxpool2d_special_state ⟨some 1, 1, 1, 1⟩ 0 0 0 = F32.ninf ∧
      ((maxpool2d maxpool2d_special_state (some ⟨some 0, 1, 1, 1⟩) (some ⟨some 1, 1, 1, 1⟩) 1).bind
        fun s1 => get_tensor_element s1 (some ⟨some 0, 1, 1, 1⟩) 0 0 0) = some (-F32.FLT_MAX) ∧
      -F32.FLT_MAX ≠ F32.ninf) ∧
    (Tensor.Holds ⟨some 3, 2, 1, 1⟩ maxpool2d_special_state [F32.nan, 1] ∧
      Get maxpool2d_special_state ⟨some 3, 2, 1, 1⟩ 0 0 0 = F32.nan ∧
      ((maxpool2d maxpool2d_special_state (some ⟨some 0, 1, 1, 1⟩) (some ⟨some 3, 2, 1, 1⟩) 2).bind
        fun s1 => get_tensor_element s1 (some ⟨some 0, 1, 1, 1⟩) 0 0 0) = some 1 ∧
      ¬ (F32.nan ≤ (1 : F32))) := by
  decide

/-- C7 (amended): for an input tensor and an output tensor with the same width, height and
channels (and separate buffers), `maxpool2d` with pool size 1 returns and
`Get (output, w, h, c) = Get (input, w, h, c)` at every in-range coordinate whose input value
is not NaN and not below `-FLT_MAX` (every finite value and `+inf`). -/
theorem maxpool2d_one_identity (s : State) (out inp : Tensor) (bo bi : List F32)
    (ho : out.Holds s bo) (hi : inp.Holds s bi) (hoi : inp.data ≠ out.data)
    (hd : out.width = inp.width ∧ out.height = inp.height ∧ out.channels = inp.channels) :
    ∃ s1, maxpool2d s (some out) (some inp) 1 = some s1 ∧
      ∀ w h c, w < inp.width → h < inp.height → c < inp.channels →
        -F32.FLT_MAX ≤ Get s inp w h c →
        get_tensor_element s1 (some out) w h c = get_tensor_element s (some inp) w h c := by
  obtain ⟨hd1, hd2, hd3⟩ := hd
  obtain ⟨s1, h1, h2⟩ := maxpool2d_correct s out inp bo bi 1 (Nat.le_refl 1) ho hi hoi
  refine ⟨s1, h1, ?_⟩
  intro w h c hw hh hc hle
  have hnn : Get s inp w h c ≠ F32.nan := by
    intro e; rw [e] at hle; exact absurd hle (by decide)
  have e1 : w * 1 + 0 = w := by omega
  have e2 : h * 1 + 0 = h := by omega
  obtain ⟨-, k_w, k_h, hkw, hkh, -, -, hv⟩ := @maxpool2d_fold_spec s inp bi hi 1 w h c
    (by decide) hc (by omega) (by omega)
    (fun k_w k_h hkw hkh _ _ => by
      have a : k_w = 0 := by omega
      have b : k_h = 0 := by omega
      rw [a, b, e1, e2]; exact hnn)
    ⟨0, 0, by decide, by decide, by omega, by omega, by rw [e1, e2]; exact hle⟩
  have a : k_w = 0 := by omega
  have b : k_h = 0 := by omega
  rw [a, b, e1, e2] at hv
  rw [h2.get (by omega) (by omega) (by omega), get_eq_some_Get hi]
  exact congrArg some hv

/-- Witness of C7: the theorem applied to a 4 x 4 x 1 input of ones and a 4 x 4 x 1
output. -/
theorem maxpool2d_one_identity_witness :
    ∃ s1, maxpool2d conv2d_ones_state (some ⟨some 0, 4, 4, 1⟩) (some ⟨some 1, 4, 4, 1⟩) 1
        = some s1 ∧
      ∀ w h c, w < 4 → h < 4 → c < 1 →
        -F32.FLT_MAX ≤ Get conv2d_ones_state ⟨some 1, 4, 4, 1⟩ w h c →
        get_tensor_element s1 (some ⟨some 0, 4, 4, 1⟩) w h c =
          get_tensor_element conv2d_ones_state (some ⟨some 1, 4, 4, 1⟩) w h c :=
  maxpool2d_one_identity conv2d_ones_state ⟨some 0, 4, 4, 1⟩ ⟨some 1, 4, 4, 1⟩
    (List.replicate 16 0) (List.replicate 16 1) (by decide) (by decide) (by decide)
    ⟨rfl, rfl, rfl⟩

/-- C7 as stated fails for the element values `-inf` and NaN: with pool size 1 and
1 x 1 x 1 tensors, the input `[-inf]` gives the output `[-FLT_MAX]`, and so does the input
`[NaN]`, because neither value compares greater than the initial `-FLT_MAX`. -/
theorem maxpool2d_one_counterexample :
    (Tensor.Holds ⟨some 0, 1, 1, 1⟩ maxpool2d_special_state [0] ∧
      Tensor.Holds ⟨some 1, 1, 1, 1⟩ maxpool2d_special_state [F32.ninf] ∧
      get_tensor_element maxpool2d_special_state (some ⟨some 1, 1, 1, 1⟩) 0 0 0 =
        some F32.ninf ∧
      ((maxpool2d maxpool2d_special_state (some ⟨some 0, 1, 1, 1⟩) (some ⟨some 1, 1, 1, 1⟩) 1).bind
        fun s1 => get_tensor_element s1 (some ⟨some 0, 1, 1, 1⟩) 0 0 0) = some (-F32.FLT_MAX) ∧
      -F32.FLT_MAX ≠ F32.ninf) ∧
    (Tensor.Holds ⟨some 2, 1, 1, 1⟩ maxpool2d_special_state [F32.nan] ∧
      get_tensor_element maxpool2d_special_state (some ⟨some 2, 1, 1, 1⟩) 0 0 0 =
        some F32.nan ∧
      ((maxpool2d maxpool2d_special_state (some ⟨some 0, 1, 1, 1⟩) (some ⟨some 2, 1, 1, 1⟩) 1).bind
        fun s1 => get_tensor_element s1 (some ⟨some 0, 1, 1, 1⟩) 0 0 0) = some (-F32.FLT_MAX) ∧
      -F32.FLT_MAX ≠ F32.nan) := by
  decide

/-! ## `relu` -/

theorem F32.fmaxf_zero (sy : Bool) (x : F32) (h : x = F32.nan → sy = false) :
    F32.fmaxf false sy 0 x = if (0 : F32) < x then x else 0 := by
  cases x with
  | nan => rw [h rfl]; rfl
  | ninf => rfl
  | pinf => rfl
  | fin m => rfl

theorem F32.fmaxf_zero_snan : F32.fmaxf false true 0 F32.nan = F32.nan := rfl

theorem F32.max_zero_nonneg (x : F32) : (0 : F32) ≤ (if (0 : F32) < x then x else 0) := by
  split_ifs with h
  · exact F32.le_of_lt h
  · decide

theorem F32.max_zero_ne_nan (x : F32) : (if (0 : F32) < x then x else 0) ≠ F32.nan := by
  split_ifs with h
  · intro e; rw [e] at h; exact absurd h (by decide)
  · decide

theorem F32.fmaxf_zero_idem (sy : Bool) (x : F32) :
    F32.fmaxf false sy 0 (if (0 : F32) < x then x else 0) =
      (if (0 : F32) < x then x else 0) := by
  rw [F32.fmaxf_zero sy _ (fun e => absurd e (F32.max_zero_ne_nan x))]
  by_cases h : (0 : F32) < x
  · rw [if_pos h, if_pos h]
  · rw [if_neg h]
    decide

/-- The function `relu` on two tensors of equal dimensions with live buffers, which may be
one and the same buffer: it terminates without fault, the output buffer holds
`fmaxf (0, x)` for each element `x` of the input buffer, and nothing else changes. -/
theorem relu_correct (s : State) (snan : Nat → Bool) (out inp : Tensor) (bo bi : List F32)
    (ho : out.Holds s bo) (hi : inp.Holds s bi)
    (hd : out.width = inp.width ∧ out.height = inp.height ∧ out.channels = inp.channels) :
    ∃ s1, relu s snan (some out) (some inp) = some s1 ∧
      s1.buf out.data = some ((List.range bi.length).map
        (fun i => F32.fmaxf false (snan i) 0 (bi[i]?.getD 0))) ∧
      (∀ d, d ≠ out.data → s1.buf d = s.buf d) ∧ s1.stderr = s.stderr := by
  obtain ⟨hd1, hd2, hd3⟩ := hd
  have hlen : bo.length = bi.length := by rw [ho.2.1, hi.2.1, hd1, hd2, hd3]
  have e : relu s snan (some out) (some inp) =
      forLoop 0 ((inp.width * inp.height * inp.channels) % SIZE_MOD) (fun i st =>
        (st.rd inp.data i).bind fun x => st.wr out.data i (F32.fmaxf false (snan i) 0 x)) s := by
    simp only [relu]
    rw [if_neg (by simp [hd1, hd2, hd3])]
  rw [e, hi.size_eq]
  obtain ⟨s1, h1, h2, h3, h4⟩ := vec_loop s out.data bo ho.1 bi.length (by omega)
    (fun i st => (st.rd inp.data i).bind fun x =>
      st.wr out.data i (F32.fmaxf false (snan i) 0 x))
    (fun i => F32.fmaxf false (snan i) 0 (bi[i]?.getD 0)) (by
      intro st i hil hinv
      have hr : st.rd inp.data i = some bi[i] := by
        by_cases ha : inp.data = out.data
        · have hb : bo = bi := by
            have h5 := ho.1
            rw [← ha, hi.1] at h5
            exact (Option.some.inj h5).symm
          rw [ha, hinv.rd_ge (Nat.le_refl i), hb, List.getElem?_eq_getElem hil]
        · rw [State.rd, hinv.1 inp.data ha, ← State.rd, State.rd_of_buf hi.1,
            List.getElem?_eq_getElem hil]
      show ((st.rd inp.data i).bind fun x =>
        st.wr out.data i (F32.fmaxf false (snan i) 0 x)) = _
      rw [hr, Option.some_bind]
      show _ = st.wr out.data i (F32.fmaxf false (snan i) 0 (bi[i]?.getD 0))
      rw [List.getElem?_eq_getElem hil]
      rfl)
  refine ⟨s1, h1, ?_, h2, h3⟩
  rw [h4, List.drop_of_length_le (by omega), List.append_nil]

/-- C9 (amended): for tensors `output` and `input` of identical width, height and channels
with live buffers, `relu` returns and, for every `i < width * height * channels` whose input
element is not a signalling NaN, `output.data[i] = max (0, input.data[i])` (which is 0 for a
quiet NaN) and this element is `≥ 0`; for a signalling NaN the output element is a NaN.
Nothing is assumed about the two tensors being distinct, so this holds when `output` and
`input` are the same tensor (in-place use). -/
theorem relu_elementwise (s : State) (snan : Nat → Bool) (out inp : Tensor) (bo bi : List F32)
    (ho : out.Holds s bo) (hi : inp.Holds s bi)
    (hd : out.width = inp.width ∧ out.height = inp.height ∧ out.channels = inp.channels) :
    ∃ s1, relu s snan (some out) (some inp) = some s1 ∧
      ∀ i, i < inp.width * inp.height * inp.channels →
        ∃ x y, s.rd inp.data i = some x ∧ s1.rd out.data i = some y ∧
          ((x = F32.nan → snan i = false) →
            y = (if (0 : F32) < x then x else 0) ∧ (0 : F32) ≤ y) ∧
          (x = F32.nan → snan i = true → y = F32.nan) := by
  obtain ⟨s1, h1, h2, -, -⟩ := relu_correct s snan out inp bo bi ho hi hd
  refine ⟨s1, h1, ?_⟩
  intro i hil
  rw [← hi.2.1] at hil
  refine ⟨bi[i], F32.fmaxf false (snan i) 0 bi[i], ?_, ?_, ?_, ?_⟩
  · rw [State.rd_of_buf hi.1, List.getElem?_eq_getElem hil]
  · rw [State.rd_of_buf h2, List.getElem?_map, List.getElem?_range hil, Option.map_some',
      List.getElem?_eq_getElem hil]
    rfl
  · intro hq
    rw [F32.fmaxf_zero _ _ hq]
    exact ⟨rfl, F32.max_zero_nonneg _⟩
  · intro hx hs
    rw [hx, hs]
    rfl

/-- Witness of C9, in place: `relu (t, t)` on the buffer `[-1, 2, NaN, -inf]` with a quiet
NaN, which then holds `[0, 2, 0, 0]`. -/
theorem relu_elementwise_witness :
    (∃ s1, relu relu_example_state (fun _ => false) (some ⟨some 0, 4, 1, 1⟩)
        (some ⟨some 0, 4, 1, 1⟩) = some s1 ∧
      ∀ i, i < 4 * 1 * 1 →
        ∃ x y, relu_example_state.rd (some 0) i = some x ∧ s1.rd (some 0) i = some y ∧
          ((x = F32.nan → (fun _ => false) i = false) →
            y = (if (0 : F32) < x then x else 0) ∧ (0 : F32) ≤ y) ∧
          (x = F32.nan → (fun _ => false) i = true → y = F32.nan)) ∧
    ((relu relu_example_state (fun _ => false) (some ⟨some 0, 4, 1, 1⟩)
      (some ⟨some 0, 4, 1, 1⟩)).bind fun s1 => s1.buf (some 0)) =
        some [0, F32.ofInt 2, 0, 0] :=
  ⟨relu_elementwise relu_example_state (fun _ => false) ⟨some 0, 4, 1, 1⟩ ⟨some 0, 4, 1, 1⟩
    [F32.ofInt (-1), F32.ofInt 2, F32.nan, F32.ninf]
    [F32.ofInt (-1), F32.ofInt 2, F32.nan, F32.ninf] (by decide) (by decide) ⟨rfl, rfl, rfl⟩,
    by decide⟩

/-- C9, counterexample.  On the input buffer `[-1, 2, NaN, -inf]` whose NaN is signalling,
`relu` into a separate output of the same dimensions stores `[0, 2, NaN, 0]`: the element
for the NaN is `fmaxf (0, NaN) = NaN`, which is not `≥ 0` and is not `max (0, x)` read as
0 for a NaN. -/
theorem relu_signalling_nan_counterexample :
    Tensor.Holds ⟨some 0, 4, 1, 1⟩ relu_example_state
      [F32.ofInt (-1), F32.ofInt 2, F32.nan, F32.ninf] ∧
    Tensor.Holds ⟨some 1, 4, 1, 1⟩ relu_example_state [0, 0, 0, 0] ∧
    ((relu relu_example_state (fun _ => true) (some ⟨some 1, 4, 1, 1⟩)
      (some ⟨some 0, 4, 1, 1⟩)).bind fun s1 => s1.buf (some 1)) =
        some [0, F32.ofInt 2, F32.nan, 0] ∧
    ¬ ((0 : F32) ≤ F32.nan) ∧
    F32.nan ≠ (if (0 : F32) < F32.nan then F32.nan else 0) := by
  decide

theorem Tensor.Holds.after {t out : Tensor} {s s1 : State} {b bn : List F32} (h : t.Holds s b)
    (h1 : s1.buf out.data = some bn) (h2 : ∀ d, d ≠ out.data → s1.buf d = s.buf d)
    (hlen : bn.length = b.length) :
    t.Holds s1 (if t.data = out.data then bn else b) := by
  by_cases e : t.data = out.data
  · rw [if_pos e]
    exact ⟨by rw [e]; exact h1, by rw [hlen]; exact h.2.1, by rw [hlen]; exact h.2.2⟩
  · rw [if_neg e]
    exact h.congr (h2 _ e)

/-- C8 (amended): `relu` is idempotent on inputs that hold no signalling NaN.  For tensors
`a`, `b`, `c` of identical dimensions with live buffers (any of which may coincide), when no
element of `a` is a signalling NaN, `relu (b, a)` followed by `relu (c, b)` both return and
leave the buffer of `c` equal to the buffer of `b`, which is the result of the first call. -/
theorem relu_idempotent (s : State) (snan1 snan2 : Nat → Bool) (a b c : Tensor)
    (ba bb bc : List F32) (ha : a.Holds s ba) (hb : b.Holds s bb) (hc : c.Holds s bc)
    (hab : b.width = a.width ∧ b.height = a.height ∧ b.channels = a.channels)
    (hcb : c.width = b.width ∧ c.height = b.height ∧ c.channels = b.channels)
    (hq : ∀ i, ba[i]? = some F32.nan → snan1 i = false) :
    ∃ s1 s2, relu s snan1 (some b) (some a) = some s1 ∧
      relu s1 snan2 (some c) (some b) = some s2 ∧
      s2.buf c.data = s2.buf b.data ∧ s2.buf c.data = s1.buf b.data := by
  obtain ⟨s1, h1, h2, h3, -⟩ := relu_correct s snan1 b a bb ba hb ha hab
  have e1 : (List.range ba.length).map (fun i => F32.fmaxf false (snan1 i) 0 (ba[i]?.getD 0)) =
      ba.map (fun x => if (0 : F32) < x then x else 0) := by
    apply List.ext_getElem
    · simp
    · intro i h5 h6
      have hil : i < ba.length := by simpa using h6
      simp only [List.getElem_map, List.getElem_range]
      rw [List.getElem?_eq_getElem hil]
      exact F32.fmaxf_zero _ _ (fun e => hq i (by rw [List.getElem?_eq_getElem hil, ← e]; rfl))
  rw [e1] at h2
  have hlab : (ba.map (fun x => if (0 : F32) < x then x else 0)).length = bb.length := by
    rw [List.length_map, ha.2.1, hb.2.1, hab.1, hab.2.1, hab.2.2]
  have hlcb : (ba.map (fun x => if (0 : F32) < x then x else 0)).length = bc.length := by
    rw [hlab, hb.2.1, hc.2.1, hcb.1, hcb.2.1, hcb.2.2]
  have hb1 : b.Holds s1 (ba.map (fun x => if (0 : F32) < x then x else 0)) := by
    have := hb.after h2 h3 hlab
    rw [if_pos rfl] at this
    exact this
  have hc1 := hc.after h2 h3 hlcb
  obtain ⟨s2, k1, k2, k3, -⟩ := relu_correct s1 snan2 c b _ _ hc1 hb1 hcb
  have e2 : (List.range (ba.map (fun x => if (0 : F32) < x then x else 0)).length).map
      (fun i => F32.fmaxf false (snan2 i) 0
        ((ba.map (fun x => if (0 : F32) < x then x else 0))[i]?.getD 0)) =
      ba.map (fun x => if (0 : F32) < x then x else 0) := by
    apply List.ext_getElem
    · simp
    · intro i h5 h6
      have hil : i < ba.length := by simpa using h6
      simp only [List.getElem_map, List.getElem_range]
      rw [List.getElem?_map, List.getElem?_eq_getElem hil]
      exact F32.fmaxf_zero_idem _ _
  rw [e2] at k2
  have hfin : s2.buf c.data = s1.buf b.data := by rw [k2, h2]
  refine ⟨s1, s2, h1, k1, ?_, hfin⟩
  by_cases e : b.data = c.data
  · rw [e]
  · rw [k3 b.data e, hfin]

/-- Witness of C8: `relu (b, a)` then `relu (c, b)` on three separate 4 x 1 x 1 tensors,
`a` holding `[-1, 2, NaN, -inf]` with a quiet NaN. -/
theorem relu_idempotent_witness :
    ∃ s1 s2, relu relu_example_state (fun _ => false) (some ⟨some 1, 4, 1, 1⟩)
        (some ⟨some 0, 4, 1, 1⟩) = some s1 ∧
      relu s1 (fun _ => false) (some ⟨some 2, 4, 1, 1⟩) (some ⟨some 1, 4, 1, 1⟩) = some s2 ∧
      s2.buf (some 2) = s2.buf (some 1) ∧ s2.buf (some 2) = s1.buf (some 1) :=
  relu_idempotent relu_example_state (fun _ => false) (fun _ => false) ⟨some 0, 4, 1, 1⟩
    ⟨some 1, 4, 1, 1⟩ ⟨some 2, 4, 1, 1⟩
    [F32.ofInt (-1), F32.ofInt 2, F32.nan, F32.ninf] [0, 0, 0, 0] [0, 0, 0, 0]
    (by decide) (by decide) (by decide) ⟨rfl, rfl, rfl⟩ ⟨rfl, rfl, rfl⟩ (fun _ _ => rfl)

/-- C8, counterexample.  Take three separate 4 x 1 x 1 tensors, `a` holding
`[-1, 2, NaN, -inf]` with a signalling NaN.  `relu (b, a)` stores `[0, 2, NaN, 0]` in `b`,
the NaN returned by `fmaxf` being quiet; `relu (c, b)` then stores `[0, 2, 0, 0]` in `c`,
so the buffer of `c` differs from the buffer of `b`. -/
theorem relu_twice_signalling_nan_counterexample :
    Tensor.Holds ⟨some 0, 4, 1, 1⟩ relu_example_state
      [F32.ofInt (-1), F32.ofInt 2, F32.nan, F32.ninf] ∧
    Tensor.Holds ⟨some 1, 4, 1, 1⟩ relu_example_state [0, 0, 0, 0] ∧
    Tensor.Holds ⟨some 2, 4, 1, 1⟩ relu_example_state [0, 0, 0, 0] ∧
    ((relu relu_example_state (fun _ => true) (some ⟨some 1, 4, 1, 1⟩)
      (some ⟨some 0, 4, 1, 1⟩)).bind fun s1 =>
        (relu s1 (fun _ => false) (some ⟨some 2, 4, 1, 1⟩) (some ⟨some 1, 4, 1, 1⟩)).bind
          fun s2 => some (s2.buf (some 1), s2.buf (some 2))) =
      some (some [0, F32.ofInt 2, F32.nan, 0], some [0, F32.ofInt 2, 0, 0]) ∧
    ([0, F32.ofInt 2, F32.nan, 0] : List F32) ≠ [0, F32.ofInt 2, 0, 0] := by
  decide

/-! ## `flatten` -/

theorem Tensor.Holds.size_eq_rev {t : Tensor} {s : State} {b : List F32} (h : t.Holds s b) :
    (t.channels * t.height * t.width) % SIZE_MOD = b.length := by
  rw [← h.size_eq]; congr 1; ring

/-- The function `flatten` on two tensors with live buffers of the same length (which may be
one and the same buffer): it terminates without fault, the output buffer becomes equal to
the input buffer, and nothing else changes. -/
theorem flatten_correct (s : State) (out inp : Tensor) (bo bi : List F32) (ho : out.Holds s bo)
    (hi : inp.Holds s bi) (hlen : bo.length = bi.length) :
    ∃ s1, flatten s (some out) (some inp) = some s1 ∧ s1.buf out.data = some bi ∧
      (∀ d, d ≠ out.data → s1.buf d = s.buf d) ∧ s1.stderr = s.stderr := by
  have hdo : out.data ≠ none := by
    intro e; have := ho.1; simp [e, State.buf] at this
  have hdi : inp.data ≠ none := by
    intro e; have := hi.1; simp [e, State.buf] at this
  have e : flatten s (some out) (some inp) =
      forLoop 0 ((inp.channels * inp.height * inp.width) % SIZE_MOD) (fun i st =>
        (st.rd inp.data i).bind fun x => st.wr out.data i x) s := by
    simp only [flatten]
    rw [if_neg (by simp [hdo, hdi]), if_neg (by rw [hi.size_eq_rev, ho.size_eq_rev, hlen]; simp)]
  rw [e, hi.size_eq_rev]
  obtain ⟨s1, h1, h2, h3, h4⟩ := vec_loop s out.data bo ho.1 bi.length (by omega)
    (fun i st => (st.rd inp.data i).bind fun x => st.wr out.data i x)
    (fun i => bi[i]?.getD 0) (by
      intro st i hil hinv
      have hr : st.rd inp.data i = some bi[i] := by
        by_cases ha : inp.data = out.data
        · have hb : bo = bi := by
            have h5 := ho.1
            rw [← ha, hi.1] at h5
            exact (Option.some.inj h5).symm
          rw [ha, hinv.rd_ge (Nat.le_refl i), hb, List.getElem?_eq_getElem hil]
        · rw [State.rd, hinv.1 inp.data ha, ← State.rd, State.rd_of_buf hi.1,
            List.getElem?_eq_getElem hil]
      show ((st.rd inp.data i).bind fun x => st.wr out.data i x) = _
      rw [hr, Option.some_bind]
      show _ = st.wr out.data i (bi[i]?.getD 0)
      rw [List.getElem?_eq_getElem hil]
      rfl)
  refine ⟨s1, h1, ?_, h2, h3⟩
  rw [h4, List.drop_of_length_le (by omega), List.append_nil]
  congr 1
  apply List.ext_getElem
  · simp
  · intro i h5 h6
    simp only [List.getElem_map, List.getElem_range]
    rw [List.getElem?_eq_getElem h6]
    rfl

/-- C10: for an input tensor of shape `W x H x C` and an output tensor with the same total
element count `N = W * H * C`, both with live buffers, `flatten` returns and makes the output
buffer equal to the input buffer position by position; for the output shape `N x 1 x 1`,
`Get (output, c * W * H + h * W + w, 0, 0) = Get (input, w, h, c)` at every in-range
`(w, h, c)`; and flattening that output back into a tensor of shape `W x H x C` reproduces
the original buffer exactly. -/
theorem flatten_copy_roundtrip (s : State) (out inp : Tensor) (bo bi : List F32)
    (ho : out.Holds s bo) (hi : inp.Holds s bi) (hlen : bo.length = bi.length) :
    ∃ s1, flatten s (some out) (some inp) = some s1 ∧ s1.buf out.data = some bi ∧
      (out.width = inp.width * inp.height * inp.channels ∧ out.height = 1 ∧ out.channels = 1 →
        ∀ w h c, w < inp.width → h < inp.height → c < inp.channels →
          get_tensor_element s1 (some out) (c * inp.width * inp.height + h * inp.width + w) 0 0 =
            get_tensor_element s (some inp) w h c) ∧
      ∀ (back : Tensor) (bk : List F32), back.Holds s1 bk →
        back.width = inp.width ∧ back.height = inp.height ∧ back.channels = inp.channels →
        ∃ s2, flatten s1 (some back) (some out) = some s2 ∧ s2.buf back.data = some bi := by
  obtain ⟨s1, h1, h2, h3, -⟩ := flatten_correct s out inp bo bi ho hi hlen
  have ho1 : out.Holds s1 bi := ⟨h2, by rw [← hlen]; exact ho.2.1, by rw [← hlen]; exact ho.2.2⟩
  refine ⟨s1, h1, h2, ?_, ?_⟩
  · rintro ⟨hw, hh, hc⟩ w h c hwl hhl hcl
    have hoff := offset_lt hwl hhl hcl
    have e : 0 * out.width * out.height + 0 * out.width +
        (c * inp.width * inp.height + h * inp.width + w) =
        c * inp.width * inp.height + h * inp.width + w := by
      simp
    rw [get_of_holds ho1 (by rw [hw]; exact hoff) (by omega) (by omega), e,
      get_of_holds hi hwl hhl hcl]
  · intro back bk hbk hd
    have hl : bk.length = bi.length := by
      rw [hbk.2.1, hi.2.1, hd.1, hd.2.1, hd.2.2]
    obtain ⟨s2, k1, k2, -, -⟩ := flatten_correct s1 back out bk bi hbk ho1 hl
    exact ⟨s2, k1, k2⟩

/-- Witness of C10: a 2 x 2 x 2 tensor holding 1, ..., 8 flattened into an 8 x 1 x 1 tensor,
and that one flattened back into a second 2 x 2 x 2 tensor. -/
theorem flatten_copy_roundtrip_witness :
    ∃ s1, flatten flatten_example_state (some ⟨some 1, 8, 1, 1⟩) (some ⟨some 0, 2, 2, 2⟩)
        = some s1 ∧
      s1.buf (some 1) = some ((List.range 8).map (fun i => F32.ofInt ((i + 1 : Nat) : Int))) ∧
      ((8 : Nat) = 2 * 2 * 2 ∧ (1 : Nat) = 1 ∧ (1 : Nat) = 1 →
        ∀ w h c, w < 2 → h < 2 → c < 2 →
          get_tensor_element s1 (some ⟨some 1, 8, 1, 1⟩) (c * 2 * 2 + h * 2 + w) 0 0 =
            get_tensor_element flatten_example_state (some ⟨some 0, 2, 2, 2⟩) w h c) ∧
      ∀ (back : Tensor) (bk : List F32), back.Holds s1 bk →
        back.width = 2 ∧ back.height = 2 ∧ back.channels = 2 →
        ∃ s2, flatten s1 (some back) (some ⟨some 1, 8, 1, 1⟩) = some s2 ∧
          s2.buf back.data =
            some ((List.range 8).map (fun i => F32.ofInt ((i + 1 : Nat) : Int))) :=
  flatten_copy_roundtrip flatten_example_state ⟨some 1, 8, 1, 1⟩ ⟨some 0, 2, 2, 2⟩
    (List.replicate 8 0) ((List.range 8).map (fun i => F32.ofInt ((i + 1 : Nat) : Int)))
    (by decide) (by decide) (by decide)

/-! ## Element access (`tensor.c`) -/

theorem offset_le (t : Tensor) (w h c : Nat) :
    offset t w h c ≤ c * t.width * t.height + h * t.width + w := by
  unfold offset
  exact Nat.mod_le _ _

/-- Claim C11.  For every tensor with a buffer of `width * height * channels` elements, every
in-range coordinate and every value `v`: `set_tensor_element` returns, and afterwards
`get_tensor_element` at the same coordinate returns `v`. -/
theorem set_get_roundtrip (s : State) (t : Tensor) (buf : List F32) (w h c : Nat) (v : F32)
    (hb : s.buf t.data = some buf) (hl : buf.length = t.width * t.height * t.channels)
    (hw : w < t.width) (hh : h < t.height) (hc : c < t.channels) :
    ∃ s1, set_tensor_element s (some t) w h c v = some s1 ∧
      get_tensor_element s1 (some t) w h c = some v := by
  have hd : t.data ≠ none := by
    intro e; simp [e, State.buf] at hb
  have hlt : offset t w h c < buf.length := by
    have h1 := offset_lt hw hh hc
    have h2 := offset_le t w h c
    omega
  obtain ⟨s1, h1, h2, -, -⟩ := State.wr_of_buf hb hlt v
  refine ⟨s1, ?_, ?_⟩
  · simp only [set_tensor_element, hd, false_or, ge_iff_le]
    rw [if_neg (by omega)]
    exact h1
  · simp only [get_tensor_element, hd, false_or, ge_iff_le]
    rw [if_neg (by omega), State.rd_of_buf h2]
    simp [hlt]

theorem set_get_roundtrip_witness :
    ∃ s1, set_tensor_element access_example_state (some ⟨some 0, 2, 2, 2⟩) 1 0 1 F32.nan = some s1 ∧
      get_tensor_element s1 (some ⟨some 0, 2, 2, 2⟩) 1 0 1 = some F32.nan :=
  set_get_roundtrip access_example_state ⟨some 0, 2, 2, 2⟩
    ((List.range 8).map (fun i => F32.ofInt ((i + 1 : Nat) : Int))) 1 0 1 F32.nan rfl
    (by decide) (by decide) (by decide) (by decide)

/-- Claim C12.  Out-of-range access is silent: for every tensor, every state of the memory and
every coordinate with `w >= width` or `h >= height` or `c >= channels`, `get_tensor_element`
returns `0.0f` and `set_tensor_element` returns with the state unchanged (no buffer element
is written; the dimension fields are never assigned). -/
theorem out_of_range_access_silent (s : State) (t : Tensor) (w h c : Nat) (v : F32)
    (hr : t.width ≤ w ∨ t.height ≤ h ∨ t.channels ≤ c) :
    get_tensor_element s (some t) w h c = some 0 ∧
      set_tensor_element s (some t) w h c v = some s := by
  have hcond : t.data = none ∨ w ≥ t.width ∨ h ≥ t.height ∨ c ≥ t.channels := Or.inr hr
  simp only [get_tensor_element, set_tensor_element]
  rw [if_pos hcond, if_pos hcond]
  exact ⟨rfl, rfl⟩

theorem out_of_range_access_silent_witness :
    get_tensor_element access_example_state (some ⟨some 0, 2, 2, 2⟩) 0 2 1 = some 0 ∧
      set_tensor_element access_example_state (some ⟨some 0, 2, 2, 2⟩) 0 2 1 1 =
        some access_example_state :=
  out_of_range_access_silent access_example_state ⟨some 0, 2, 2, 2⟩ 0 2 1 1
    (Or.inr (Or.inl (by decide)))

theorem offset_decode {W H C n : Nat} (hn : n < W * H * C) :
    n % W < W ∧ n / W % H < H ∧ n / W / H < C ∧
      n / W / H * W * H + n / W % H * W + n % W = n := by
  have hW : 0 < W := by
    rcases Nat.eq_zero_or_pos W with e | e
    · subst e; simp at hn
    · exact e
  have hH : 0 < H := by
    rcases Nat.eq_zero_or_pos H with e | e
    · subst e; simp at hn
    · exact e
  refine ⟨Nat.mod_lt _ hW, Nat.mod_lt _ hH, ?_, ?_⟩
  · rw [Nat.div_div_eq_div_mul, Nat.div_lt_iff_lt_mul (Nat.mul_pos hW hH)]
    calc n < W * H * C := hn
      _ = C * (W * H) := by ring
  · have e1 := Nat.div_add_mod n W
    have e2 := Nat.div_add_mod (n / W) H
    calc n / W / H * W * H + n / W % H * W + n % W
        = W * (H * (n / W / H) + n / W % H) + n % W := by ring
      _ = n := by rw [e2, e1]

/-- Claim C18.  For every tensor with a buffer of `W * H * C` elements, the offset
`c * W * H + h * W + w` that `get_tensor_element` and `set_tensor_element` compute for an
in-range coordinate is less than `W * H * C`, so both functions return without a fault at
every coordinate; distinct in-range coordinates have distinct offsets and every offset
below `W * H * C` is the offset of an in-range coordinate. -/
theorem layout_offset_bijection (s : State) (t : Tensor) (buf : List F32) (ht : t.Holds s buf) :
    (∀ w h c, w < t.width → h < t.height → c < t.channels →
      offset t w h c = c * t.width * t.height + h * t.width + w ∧
      offset t w h c < t.width * t.height * t.channels) ∧
    (∀ w h c, ∃ x, get_tensor_element s (some t) w h c = some x) ∧
    (∀ w h c v, ∃ s1, set_tensor_element s (some t) w h c v = some s1) ∧
    (∀ w h c w1 h1 c1, w < t.width → h < t.height → c < t.channels →
      w1 < t.width → h1 < t.height → c1 < t.channels →
      offset t w h c = offset t w1 h1 c1 → w = w1 ∧ h = h1 ∧ c = c1) ∧
    (∀ n, n < t.width * t.height * t.channels →
      ∃ w h c, w < t.width ∧ h < t.height ∧ c < t.channels ∧ offset t w h c = n) := by
  refine ⟨?_, ?_, ?_, ?_, ?_⟩
  · intro w h c hw hh hc
    obtain ⟨e1, -⟩ := offset_eq ht hw hh hc
    exact ⟨e1, by rw [e1]; exact offset_lt hw hh hc⟩
  · intro w h c
    exact ⟨_, get_eq_some_Get ht w h c⟩
  · intro w h c v
    by_cases hr : w < t.width ∧ h < t.height ∧ c < t.channels
    · obtain ⟨hw, hh, hc⟩ := hr
      obtain ⟨s1, h1, -⟩ := set_of_holds ht hw hh hc v
      exact ⟨s1, h1⟩
    · refine ⟨s, ?_⟩
      simp only [set_tensor_element]
      rw [if_pos]
      omega
  · intro w h c w1 h1 c1 hw hh hc hw1 hh1 hc1 e
    rw [(offset_eq ht hw hh hc).1, (offset_eq ht hw1 hh1 hc1).1] at e
    exact offset_inj hw hh hw1 hh1 e
  · intro n hn
    obtain ⟨a1, a2, a3, a4⟩ := offset_decode hn
    exact ⟨n % t.width, n / t.width % t.height, n / t.width / t.height, a1, a2, a3,
      by rw [(offset_eq ht a1 a2 a3).1]; exact a4⟩

theorem layout_offset_bijection_witness :
    (∀ w h c, w < 2 → h < 2 → c < 2 →
      offset ⟨some 0, 2, 2, 2⟩ w h c = c * 2 * 2 + h * 2 + w ∧
      offset ⟨some 0, 2, 2, 2⟩ w h c < 2 * 2 * 2) ∧
    (∀ w h c, ∃ x, get_tensor_element access_example_state (some ⟨some 0, 2, 2, 2⟩) w h c =
      some x) ∧
    (∀ w h c v, ∃ s1, set_tensor_element access_example_state (some ⟨some 0, 2, 2, 2⟩) w h c v =
      some s1) ∧
    (∀ w h c w1 h1 c1, w < 2 → h < 2 → c < 2 → w1 < 2 → h1 < 2 → c1 < 2 →
      offset ⟨some 0, 2, 2, 2⟩ w h c = offset ⟨some 0, 2, 2, 2⟩ w1 h1 c1 →
      w = w1 ∧ h = h1 ∧ c = c1) ∧
    (∀ n, n < 2 * 2 * 2 →
      ∃ w h c, w < 2 ∧ h < 2 ∧ c < 2 ∧ offset ⟨some 0, 2, 2, 2⟩ w h c = n) :=
  layout_offset_bijection access_example_state ⟨some 0, 2, 2, 2⟩
    ((List.range 8).map (fun i => F32.ofInt ((i + 1 : Nat) : Int))) (by decide)

/-- Claim C20.  An in-range `set_tensor_element` changes exactly one element: it returns, every
other in-range coordinate of the tensor reads as before, the buffers of the other addresses
and `stderr` are as before, and the tensor still has a buffer of the same length (the
dimension fields are never assigned). -/
theorem set_changes_one_element (s : State) (t : Tensor) (buf : List F32) (w h c : Nat)
    (v : F32) (ht : t.Holds s buf) (hw : w < t.width) (hh : h < t.height)
    (hc : c < t.channels) :
    ∃ s1 buf1, set_tensor_element s (some t) w h c v = some s1 ∧
      t.Holds s1 buf1 ∧ buf1.length = buf.length ∧
      (∀ d, d ≠ t.data → s1.buf d = s.buf d) ∧ s1.stderr = s.stderr ∧
      ∀ w1 h1 c1, w1 < t.width → h1 < t.height → c1 < t.channels →
        (w1, h1, c1) ≠ (w, h, c) →
        get_tensor_element s1 (some t) w1 h1 c1 = get_tensor_element s (some t) w1 h1 c1 := by
  obtain ⟨s1, h1, h2, h3, h4⟩ := set_of_holds ht hw hh hc v
  have ht1 : t.Holds s1 (buf.set (c * t.width * t.height + h * t.width + w) v) :=
    ⟨h2, by rw [List.length_set]; exact ht.2.1, by rw [List.length_set]; exact ht.2.2⟩
  refine ⟨s1, _, h1, ht1, List.length_set _ _ _, h3, h4, ?_⟩
  intro w1 hh1 c1 hw1 hhh1 hc1 hne
  rw [get_of_holds ht1 hw1 hhh1 hc1, get_of_holds ht hw1 hhh1 hc1, List.getElem?_set]
  rw [if_neg]
  intro e
  obtain ⟨e1, e2, e3⟩ := offset_inj hw hh hw1 hhh1 e
  exact hne (by rw [e1, e2, e3])

theorem set_changes_one_element_witness :
    ∃ s1 buf1, set_tensor_element access_example_state (some ⟨some 0, 2, 2, 2⟩) 1 0 1 0 =
        some s1 ∧
      Tensor.Holds ⟨some 0, 2, 2, 2⟩ s1 buf1 ∧ buf1.length =
        ((List.range 8).map (fun i => F32.ofInt ((i + 1 : Nat) : Int))).length ∧
      (∀ d, d ≠ some 0 → s1.buf d = access_example_state.buf d) ∧
      s1.stderr = access_example_state.stderr ∧
      ∀ w1 h1 c1, w1 < 2 → h1 < 2 → c1 < 2 → (w1, h1, c1) ≠ (1, 0, 1) →
        get_tensor_element s1 (some ⟨some 0, 2, 2, 2⟩) w1 h1 c1 =
          get_tensor_element access_example_state (some ⟨some 0, 2, 2, 2⟩) w1 h1 c1 :=
  set_changes_one_element access_example_state ⟨some 0, 2, 2, 2⟩
    ((List.range 8).map (fun i => F32.ofInt ((i + 1 : Nat) : Int))) 1 0 1 0 (by decide)
    (by decide) (by decide) (by decide)

/-! ## Operator precondition errors -/

/-- Claim C15.  Operator precondition errors write nothing: `relu` on an output and an input
whose width, height or channels differ, `flatten` on an output and an input whose total
element counts (values of `size_t`) differ, and `maxpool2d` with `pool_size = 0` each return
with the whole memory, hence every element of the output buffer, as it was before the call,
whatever the memory held. -/
theorem precondition_errors_write_nothing (s : State) (snan : Nat → Bool)
    (out inp : Tensor) :
    ((out.width ≠ inp.width ∨ out.height ≠ inp.height ∨ out.channels ≠ inp.channels) →
      ∃ s1, relu s snan (some out) (some inp) = some s1 ∧ s1.mem = s.mem) ∧
    (out.width * out.height * out.channels < 2 ^ 64 →
      inp.width * inp.height * inp.channels < 2 ^ 64 →
      out.width * out.height * out.channels ≠ inp.width * inp.height * inp.channels →
      ∃ s1, flatten s (some out) (some inp) = some s1 ∧ s1.mem = s.mem) ∧
    (∃ s1, maxpool2d s (some out) (some inp) 0 = some s1 ∧ s1.mem = s.mem) := by
  refine ⟨?_, ?_, ?_⟩
  · intro h
    simp only [relu]
    rw [if_pos h]
    exact ⟨_, rfl, rfl⟩
  · intro ho hi hne
    have e1 : (inp.channels * inp.height * inp.width) % SIZE_MOD =
        inp.width * inp.height * inp.channels := by
      have : inp.channels * inp.height * inp.width = inp.width * inp.height * inp.channels := by
        ring
      rw [this]; exact Nat.mod_eq_of_lt hi
    have e2 : (out.channels * out.height * out.width) % SIZE_MOD =
        out.width * out.height * out.channels := by
      have : out.channels * out.height * out.width = out.width * out.height * out.channels := by
        ring
      rw [this]; exact Nat.mod_eq_of_lt ho
    simp only [flatten, e1, e2]
    split_ifs with h1 h2
    · exact ⟨_, rfl, rfl⟩
    · exact ⟨_, rfl, rfl⟩
    · exact absurd (not_not.mp h2).symm hne
  · simp only [maxpool2d]
    exact ⟨_, rfl, rfl⟩

theorem precondition_errors_write_nothing_witness :
    (∃ s1, relu flatten_example_state (fun _ => false) (some ⟨some 1, 8, 1, 1⟩)
        (some ⟨some 0, 2, 2, 2⟩) =
      some s1 ∧ s1.mem = flatten_example_state.mem) ∧
    (∃ s1, flatten flatten_example_state (some ⟨some 1, 4, 1, 1⟩) (some ⟨some 0, 2, 2, 2⟩) =
      some s1 ∧ s1.mem = flatten_example_state.mem) ∧
    (∃ s1, maxpool2d flatten_example_state (some ⟨some 1, 4, 1, 1⟩) (some ⟨some 0, 2, 2, 2⟩) 0 =
      some s1 ∧ s1.mem = flatten_example_state.mem) :=
  ⟨(precondition_errors_write_nothing flatten_example_state (fun _ => false) ⟨some 1, 8, 1, 1⟩
      ⟨some 0, 2, 2, 2⟩).1 (by decide),
    (precondition_errors_write_nothing flatten_example_state (fun _ => false) ⟨some 1, 4, 1, 1⟩
      ⟨some 0, 2, 2, 2⟩).2.1 (by decide) (by decide) (by decide),
    (precondition_errors_write_nothing flatten_example_state (fun _ => false) ⟨some 1, 4, 1, 1⟩
      ⟨some 0, 2, 2, 2⟩).2.2⟩

/-! ## Index safety of `linear` -/

theorem forLoop_some_inv {σ : Type} (P : σ → Prop) (lo hi : Nat) (body : Nat → σ → Option σ)
    (s : σ) (hle : lo ≤ hi) (h0 : P s)
    (hstep : ∀ j t t1, lo ≤ j → j < hi → P t → body j t = some t1 → P t1) :
    ∀ t, forLoop lo hi body s = some t → P t := by
  induction hi, hle using Nat.le_induction with
  | base =>
    intro t ht
    rw [forLoop_of_le lo lo body s le_rfl] at ht
    cases ht; exact h0
  | succ n hn ih =>
    intro t ht
    rw [forLoop_succ lo n body s hn] at ht
    cases e : forLoop lo n body s with
    | none => rw [e] at ht; cases ht
    | some u =>
      rw [e] at ht
      exact hstep n u t hn (by omega) (ih (fun j a b c d => hstep j a b c (by omega)) u e) ht

theorem forLoop_eq_none_inv {σ : Type} (P : σ → Prop) (lo hi i : Nat)
    (body : Nat → σ → Option σ) (s : σ) (h1 : lo ≤ i) (h2 : i < hi) (h0 : P s)
    (hstep : ∀ j t t1, lo ≤ j → j < i → P t → body j t = some t1 → P t1)
    (h : ∀ t, P t → body i t = none) : forLoop lo hi body s = none := by
  have h3 : i + 1 ≤ hi := h2
  induction hi, h3 using Nat.le_induction with
  | base =>
    rw [forLoop_succ lo i body s h1]
    cases e : forLoop lo i body s with
    | none => rfl
    | some t => exact h t (forLoop_some_inv P lo i body s h1 h0 hstep t e)
  | succ n hn ih =>
    rw [forLoop_succ lo n body s (by omega), ih (by omega)]
    rfl

theorem SameShape.self (s : State) : SameShape s s := fun _ => rfl

theorem SameShape.buf_some {s t : State} (h : SameShape s t) {d : Option Nat} {b : List F32}
    (hb : s.buf d = some b) : ∃ b1, t.buf d = some b1 ∧ b1.length = b.length := by
  have := h d
  rw [hb] at this
  cases e : t.buf d with
  | none => rw [e] at this; cases this
  | some b1 =>
    rw [e] at this
    exact ⟨b1, rfl, by simpa using this⟩

theorem SameShape.rd_some {s t : State} (h : SameShape s t) {d : Option Nat} {b : List F32}
    (hb : s.buf d = some b) {i : Nat} (hi : i < b.length) : ∃ x, t.rd d i = some x := by
  obtain ⟨b1, e1, e2⟩ := h.buf_some hb
  rw [State.rd_of_buf e1]
  exact ⟨b1[i], List.getElem?_eq_getElem (by omega)⟩

theorem SameShape.rd_none {s t : State} (h : SameShape s t) {d : Option Nat} {b : List F32}
    (hb : s.buf d = some b) {i : Nat} (hi : b.length ≤ i) : t.rd d i = none := by
  obtain ⟨b1, e1, e2⟩ := h.buf_some hb
  rw [State.rd_of_buf e1]
  exact List.getElem?_eq_none (by omega)

theorem SameShape.wr_some {s t : State} (h : SameShape s t) {d : Option Nat} {b : List F32}
    (hb : s.buf d = some b) {i : Nat} (hi : i < b.length) (v : F32) :
    ∃ t1, t.wr d i v = some t1 ∧ SameShape s t1 ∧ t1.stderr = t.stderr := by
  obtain ⟨b1, e1, e2⟩ := h.buf_some hb
  obtain ⟨t1, a1, a2, a3, a4⟩ := State.wr_of_buf e1 (by omega : i < b1.length) v
  refine ⟨t1, a1, ?_, a4⟩
  intro d1
  by_cases hd : d1 = d
  · subst hd
    rw [a2, hb]
    simp [e2]
  · rw [a3 d1 hd]; exact h d1

theorem SameShape.of_wr {s t t1 : State} (h : SameShape s t) {d : Option Nat} {i : Nat}
    {v : F32} (hw : t.wr d i v = some t1) : SameShape s t1 := by
  cases d with
  | none => simp [State.wr] at hw
  | some p =>
    cases e : t.buf (some p) with
    | none => simp [State.wr, e] at hw
    | some b =>
      by_cases hi : i < b.length
      · obtain ⟨t2, a1, a2, a3, -⟩ := State.wr_of_buf e hi v
        rw [hw] at a1
        cases a1
        intro d1
        by_cases hd : d1 = some p
        · subst hd
          rw [a2, ← h (some p), e]
          simp
        · rw [a3 d1 hd]; exact h d1
      · simp [State.wr, e, hi] at hw

theorem SameShape.add_bias_some {s t : State} (h : SameShape s t) {bias : Option Tensor} {n i : Nat}
    (hb : BiasOK s bias n) (hi : i < n) (x : F32) : ∃ y, add_bias t bias i x = some y := by
  cases bias with
  | none => exact ⟨x, rfl⟩
  | some b =>
    show ∃ y, (if b.data = none then some x
      else (t.rd b.data i).bind (fun v => some (x + v))) = some y
    by_cases hd : b.data = none
    · rw [if_pos hd]; exact ⟨x, rfl⟩
    · rw [if_neg hd]
      rcases hb with hb | ⟨bb, h1, h2⟩
      · exact absurd hb hd
      · obtain ⟨v, hv⟩ := h.rd_some h1 (by omega : i < bb.length)
        rw [hv]; exact ⟨x + v, rfl⟩

theorem linear_sum_some {s t : State} (h : SameShape s t) {inp wts : Tensor} {bi bw : List F32}
    (hi : s.buf inp.data = some bi) (hw : s.buf wts.data = some bw) {o m : Nat}
    (hwl : m * bi.length ≤ bw.length) (ho : o < m) :
    ∃ x, linear_sum t inp wts bi.length o = some x := by
  unfold linear_sum
  obtain ⟨x, hx, -⟩ := forLoop_inv (fun _ (_ : F32) => True) 0 bi.length
    (fun in_idx sum => (t.rd inp.data in_idx).bind fun x =>
      (t.rd wts.data ((o * bi.length + in_idx) % SIZE_MOD)).bind fun w =>
      some (sum + x * w)) 0 (Nat.zero_le _) trivial (by
    intro i acc _ hil _
    have e2 : o * bi.length + i < bw.length := by
      have : (o + 1) * bi.length ≤ m * bi.length := Nat.mul_le_mul_right _ ho
      have e : (o + 1) * bi.length = o * bi.length + bi.length := by ring
      omega
    have e3 : (o * bi.length + i) % SIZE_MOD < bw.length :=
      lt_of_le_of_lt (Nat.mod_le _ _) e2
    obtain ⟨x, hx⟩ := h.rd_some hi hil
    obtain ⟨w, hw1⟩ := h.rd_some hw e3
    exact ⟨acc + x * w, by simp only [hx, hw1]; rfl, trivial⟩)
  exact ⟨x, hx⟩

theorem linear_sum_none {s t : State} (h : SameShape s t) {inp wts : Tensor} {bi bw : List F32}
    (hi : s.buf inp.data = some bi) (hw : s.buf wts.data = some bw)
    (hw4 : 4 * bw.length < 2 ^ 64) (hn : 0 < bi.length) :
    linear_sum t inp wts bi.length (bw.length / bi.length) = none := by
  unfold linear_sum
  apply forLoop_eq_none 0 bi.length (bw.length % bi.length) _ _ (Nat.zero_le _)
    (Nat.mod_lt _ hn)
  intro acc
  have e1 : bw.length / bi.length * bi.length + bw.length % bi.length = bw.length := by
    rw [Nat.mul_comm]; exact Nat.div_add_mod _ _
  have e2 : bw.length % SIZE_MOD = bw.length := by
    unfold SIZE_MOD
    exact Nat.mod_eq_of_lt (by omega)
  obtain ⟨x, hx⟩ := h.rd_some hi (Nat.mod_lt bw.length hn)
  simp only [hx, e1, e2, h.rd_none hw le_rfl]
  rfl

/-- Claim C17.  `linear` validates nothing beyond null operands.  For non-null operands whose
input and output have buffers of `input_size` and `output_size` elements and a bias that
(if provided) holds at least `output_size` elements: when the weights buffer holds at least
`output_size * input_size` elements every access is in range, the call returning with nothing
written to `stderr`; when it holds fewer (which needs `input_size >= 1` and
`output_size >= 1`), the call reports nothing and faults, on the read of the weights buffer
at the index equal to its length, every other access being in range. -/
theorem linear_index_safety (s : State) (out inp wts : Tensor) (bias : Option Tensor)
    (bo bi bw : List F32) (ho : out.Holds s bo) (hi : inp.Holds s bi)
    (hw : s.buf wts.data = some bw) (hw4 : 4 * bw.length < 2 ^ 64)
    (hb : BiasOK s bias (out.width * out.height * out.channels)) :
    (out.width * out.height * out.channels * (inp.width * inp.height * inp.channels) ≤
        bw.length →
      ∃ s1, linear s (some out) (some inp) (some wts) bias = some s1 ∧
        s1.stderr = s.stderr) ∧
    (bw.length <
        out.width * out.height * out.channels * (inp.width * inp.height * inp.channels) →
      linear s (some out) (some inp) (some wts) bias = none) := by
  have eo := ho.size_eq
  have ei := hi.size_eq
  have lo := ho.2.1
  have li := hi.2.1
  rw [← lo] at hb
  rw [← lo, ← li]
  simp only [linear, eo, ei]
  constructor
  · intro hwl
    obtain ⟨s1, h1, -, h3⟩ := forLoop_inv (fun _ t => SameShape s t ∧ t.stderr = s.stderr)
      0 bo.length (fun out_idx t =>
        (linear_sum t inp wts bi.length out_idx).bind fun sum =>
        (add_bias t bias out_idx sum).bind fun sum =>
        t.wr out.data out_idx sum) s (Nat.zero_le _) ⟨SameShape.self s, rfl⟩ (by
      intro o t _ hol ⟨hs, he⟩
      obtain ⟨x, hx⟩ := linear_sum_some hs hi.1 hw hwl hol
      obtain ⟨y, hy⟩ := hs.add_bias_some hb hol x
      obtain ⟨t1, a1, a2, a3⟩ := hs.wr_some ho.1 hol y
      exact ⟨t1, by simp only [hx, Option.some_bind, hy, a1], a2, a3.trans he⟩)
    exact ⟨s1, h1, h3⟩
  · intro hlt
    have hn : 0 < bi.length := by
      rcases Nat.eq_zero_or_pos bi.length with e | e
      · rw [e] at hlt; simp at hlt
      · exact e
    have hdiv : bw.length / bi.length < bo.length :=
      Nat.div_lt_of_lt_mul (by rw [Nat.mul_comm]; exact hlt)
    apply forLoop_eq_none_inv (SameShape s) 0 bo.length (bw.length / bi.length) _ s
      (Nat.zero_le _) hdiv (SameShape.self s)
    · intro j t t1 _ _ hs hbody
      simp only at hbody
      cases e1 : linear_sum t inp wts bi.length j with
      | none => rw [e1] at hbody; cases hbody
      | some x =>
        rw [e1, Option.some_bind] at hbody
        cases e2 : add_bias t bias j x with
        | none => rw [e2] at hbody; cases hbody
        | some y =>
          rw [e2, Option.some_bind] at hbody
          exact hs.of_wr hbody
    · intro t hs
      simp only [linear_sum_none hs hi.1 hw hw4 hn]
      rfl

theorem linear_index_safety_witness :
    (∃ s1, linear linear_short_state (some ⟨some 0, 2, 1, 1⟩) (some ⟨some 1, 2, 1, 1⟩)
        (some ⟨some 2, 2, 2, 1⟩) (some ⟨some 3, 2, 1, 1⟩) = some s1 ∧
      s1.stderr = linear_short_state.stderr) ∧
    linear linear_short_state (some ⟨some 0, 2, 1, 1⟩) (some ⟨some 1, 2, 1, 1⟩)
      (some ⟨some 4, 2, 2, 1⟩) (some ⟨some 3, 2, 1, 1⟩) = none :=
  ⟨(linear_index_safety linear_short_state ⟨some 0, 2, 1, 1⟩ ⟨some 1, 2, 1, 1⟩
      ⟨some 2, 2, 2, 1⟩ (some ⟨some 3, 2, 1, 1⟩) [0, 0] [F32.ofInt 1, F32.ofInt 2]
      [1, 0, 0, 1] (by decide) (by decide) rfl (by decide)
      (Or.inr ⟨[0, 0], rfl, by decide⟩)).1 (by decide),
    (linear_index_safety linear_short_state ⟨some 0, 2, 1, 1⟩ ⟨some 1, 2, 1, 1⟩
      ⟨some 4, 2, 2, 1⟩ (some ⟨some 3, 2, 1, 1⟩) [0, 0] [F32.ofInt 1, F32.ofInt 2]
      [1, 0, 0] (by decide) (by decide) rfl (by decide)
      (Or.inr ⟨[0, 0], rfl, by decide⟩)).2 (by decide)⟩

/-! ## `create_tensor` -/

theorem calloc_some {s s1 : State} {q : Option Nat} {n p : Nat}
    (h : calloc s q n = (s1, some p)) :
    4 * n < 2 ^ 64 ∧ s.mem p = none ∧ s1.buf (some p) = some (List.replicate n 0) ∧
      (∀ d, d ≠ some p → s1.buf d = s.buf d) ∧ s1.stderr = s.stderr := by
  cases q with
  | none => simp [calloc] at h
  | some a =>
    simp only [calloc] at h
    split_ifs at h with hc
    · simp only [Prod.mk.injEq, Option.some.injEq] at h
      obtain ⟨h1, h2⟩ := h
      subst h2
      subst h1
      refine ⟨hc.1, hc.2, by simp [State.buf], ?_, rfl⟩
      intro d hd
      cases d with
      | none => rfl
      | some b =>
        have hb : b ≠ a := fun e => hd (by rw [e])
        simp [State.buf, Function.update_noteq hb]
    · simp at h

theorem calloc_none {s s1 : State} {q : Option Nat} {n : Nat}
    (h : calloc s q n = (s1, none)) : s1 = s := by
  cases q with
  | none => simp only [calloc, Prod.mk.injEq] at h; exact h.1.symm
  | some a =>
    simp only [calloc] at h
    split_ifs at h with hc
    · simp at h
    · simp only [Prod.mk.injEq] at h
      exact h.1.symm

theorem calloc_snd_eq {s : State} {q : Option Nat} {n p : Nat}
    (h : (calloc s q n).2 = some p) : ∃ s1, calloc s q n = (s1, some p) :=
  ⟨(calloc s q n).1, by rw [← h]⟩

theorem random_init_tensor_some (s : State) (g : Rng) (lc : Libc) (t : Tensor) (b0 : List F32)
    (hb : s.buf t.data = some b0)
    (hl : (t.width * t.height * t.channels) % SIZE_MOD ≤ b0.length) :
    ∃ s1 g1 b, random_init_tensor s g lc (some t) = some (s1, g1) ∧
      s1.buf t.data = some b ∧ b.length = b0.length ∧
      (∀ d, d ≠ t.data → s1.buf d = s.buf d) ∧ s1.stderr = s.stderr := by
  have hd : t.data ≠ none := by
    intro e; simp [e, State.buf] at hb
  have aux : ∀ (v : Nat → F32) (g1 : Rng), ∃ s1 g2 b,
      (forLoop 0 ((t.width * t.height * t.channels) % SIZE_MOD)
        (fun i s => s.wr t.data i (v i)) s).bind (fun s1 => some (s1, g1)) = some (s1, g2) ∧
      s1.buf t.data = some b ∧ b.length = b0.length ∧
      (∀ d, d ≠ t.data → s1.buf d = s.buf d) ∧ s1.stderr = s.stderr := by
    intro v g1
    obtain ⟨s1, h1, h2, h3, h4⟩ := vec_loop s t.data b0 hb _ hl
      (fun i s => s.wr t.data i (v i)) v (fun _ _ _ _ => rfl)
    refine ⟨s1, g1, _, by rw [h1]; rfl, h4, ?_, h2, h3⟩
    simp
    omega
  simp only [random_init_tensor]
  rw [if_neg hd]
  exact aux _ _

theorem create_tensor_some (s : State) (g : Rng) (lc : Libc) (width height channels : Nat)
    (random_init : Bool) (hw : 0 < width) (hh : 0 < height) (hc : 0 < channels)
    (hm : lc.malloc_ok = true) {s1 : State} {p : Nat}
    (hcal : calloc s lc.calloc_ptr ((width * height * channels) % SIZE_MOD) = (s1, some p)) :
    ∃ s2 g2 b, create_tensor s g lc width height channels random_init =
        some (s2, g2, some ⟨some p, width, height, channels⟩) ∧
      s2.buf (some p) = some b ∧ b.length = (width * height * channels) % SIZE_MOD ∧
      4 * b.length < 2 ^ 64 ∧
      (random_init = false → s2 = s1 ∧ g2 = g ∧
        b = List.replicate ((width * height * channels) % SIZE_MOD) 0) := by
  obtain ⟨c1, -, c2, -, -⟩ := calloc_some hcal
  simp only [create_tensor]
  rw [if_neg (by omega), if_neg (by simp [hm]), hcal]
  cases random_init with
  | false =>
    exact ⟨s1, g, _, rfl, c2, by simp, by simpa using c1, fun _ => ⟨rfl, rfl, rfl⟩⟩
  | true =>
    obtain ⟨s2, g2, b, r1, r2, r3, -, -⟩ := random_init_tensor_some s1 g lc
      ⟨some p, width, height, channels⟩ _ c2 (by simp)
    refine ⟨s2, g2, b, ?_, r2, by simpa using r3, by rw [r3]; simpa using c1, by simp⟩
    simp only [if_true, r1, Option.some_bind]

theorem create_tensor_cases (s : State) (g : Rng) (lc : Libc) (width height channels : Nat)
    (random_init : Bool) :
    (∃ s1, create_tensor s g lc width height channels random_init = some (s1, g, none)) ∨
    (0 < width ∧ 0 < height ∧ 0 < channels ∧ ∃ s2 g2 p,
      create_tensor s g lc width height channels random_init =
        some (s2, g2, some ⟨some p, width, height, channels⟩)) := by
  by_cases hz : width = 0 ∨ height = 0 ∨ channels = 0
  · left
    simp only [create_tensor]
    rw [if_pos hz]
    exact ⟨_, rfl⟩
  · by_cases hm : lc.malloc_ok = false
    · left
      simp only [create_tensor]
      rw [if_neg hz, if_pos hm]
      exact ⟨_, rfl⟩
    · cases hcal : calloc s lc.calloc_ptr ((width * height * channels) % SIZE_MOD) with
      | mk s1 q =>
        cases q with
        | none =>
          left
          simp only [create_tensor]
          rw [if_neg hz, if_neg hm, hcal]
          exact ⟨_, rfl⟩
        | some p =>
          right
          obtain ⟨s2, g2, b, h1, -⟩ := create_tensor_some s g lc width height channels
            random_init (by omega) (by omega) (by omega) (by simpa using hm) hcal
          exact ⟨by omega, by omega, by omega, s2, g2, p, h1⟩

/-- Claim C13 (amended).  `create_tensor` returns `NULL`, with the memory unchanged, whenever
width, height or channels is zero.  For positive dimensions whose product
`width * height * channels` is a `size_t` (below `2 ^ 64`), when `malloc` and `calloc` both
return a block, it returns a tensor with the requested width, height and channels whose
data buffer holds exactly `width * height * channels` elements, with or without random
initialisation.  Every tensor it returns has the requested, positive dimensions; and the
call always returns. -/
theorem create_tensor_shape (s : State) (g : Rng) (lc : Libc) (width height channels : Nat)
    (random_init : Bool) :
    (width = 0 ∨ height = 0 ∨ channels = 0 →
      ∃ s1, create_tensor s g lc width height channels random_init = some (s1, g, none) ∧
        s1.mem = s.mem) ∧
    (∀ p, 0 < width → 0 < height → 0 < channels → width * height * channels < 2 ^ 64 →
      lc.malloc_ok = true → (calloc s lc.calloc_ptr (width * height * channels)).2 = some p →
      ∃ s1 g1 buf, create_tensor s g lc width height channels random_init =
          some (s1, g1, some ⟨some p, width, height, channels⟩) ∧
        Tensor.Holds ⟨some p, width, height, channels⟩ s1 buf) ∧
    (∀ s1 g1 t, create_tensor s g lc width height channels random_init = some (s1, g1, some t) →
      t.width = width ∧ t.height = height ∧ t.channels = channels ∧
        0 < t.width ∧ 0 < t.height ∧ 0 < t.channels) ∧
    (∃ r, create_tensor s g lc width height channels random_init = some r) := by
  refine ⟨?_, ?_, ?_, ?_⟩
  · intro hz
    simp only [create_tensor]
    rw [if_pos hz]
    exact ⟨_, rfl, rfl⟩
  · intro p hw hh hc hfit hm hcal
    have e : (width * height * channels) % SIZE_MOD = width * height * channels :=
      Nat.mod_eq_of_lt hfit
    obtain ⟨s1, hcal1⟩ := calloc_snd_eq hcal
    rw [← e] at hcal1
    obtain ⟨s2, g2, b, h1, h2, h3, h4, -⟩ := create_tensor_some s g lc width height channels
      random_init hw hh hc hm hcal1
    exact ⟨s2, g2, b, h1, h2, by rw [h3, e], h4⟩
  · intro s1 g1 t h
    rcases create_tensor_cases s g lc width height channels random_init with
      ⟨s2, h2⟩ | ⟨hw, hh, hc, s2, g2, p, h2⟩
    · rw [h2] at h; simp at h
    · rw [h2] at h
      simp only [Option.some.injEq, Prod.mk.injEq] at h
      obtain ⟨-, -, h3⟩ := h
      subst h3
      exact ⟨rfl, rfl, rfl, hw, hh, hc⟩
  · rcases create_tensor_cases s g lc width height channels random_init with
      ⟨s2, h2⟩ | ⟨-, -, -, s2, g2, p, h2⟩
    · exact ⟨_, h2⟩
    · exact ⟨_, h2⟩

theorem create_tensor_shape_witness :
    (∃ s1, create_tensor (State.ofBufs []) rng_example libc_example 2 0 1 true =
        some (s1, rng_example, none) ∧ s1.mem = (State.ofBufs []).mem) ∧
    (∃ s1 g1 buf, create_tensor (State.ofBufs []) rng_example libc_example 2 2 1 true =
        some (s1, g1, some ⟨some 0, 2, 2, 1⟩) ∧ Tensor.Holds ⟨some 0, 2, 2, 1⟩ s1 buf) :=
  ⟨(create_tensor_shape (State.ofBufs []) rng_example libc_example 2 0 1 true).1
      (Or.inr (Or.inl rfl)),
    (create_tensor_shape (State.ofBufs []) rng_example libc_example 2 2 1 true).2.1 0
      (by decide) (by decide) (by decide) (by decide) rfl (by decide)⟩

/-- Claim C13, counterexample.  For the positive dimensions `(2 ^ 62 + 1, 4, 1)` the product
wraps to 4 in `size_t`: with `malloc` and `calloc` succeeding, `create_tensor` returns a
tensor of width `2 ^ 62 + 1` and height 4 whose buffer holds 4 elements, not
`(2 ^ 62 + 1) * 4 * 1`. -/
theorem create_tensor_wrap_counterexample :
    libc_example.malloc_ok = true ∧
    (calloc (State.ofBufs []) libc_example.calloc_ptr (((2 ^ 62 + 1) * 4 * 1) % SIZE_MOD)).2 =
      some 0 ∧
    (create_tensor (State.ofBufs []) rng_example libc_example (2 ^ 62 + 1) 4 1 false).map
      (fun r => (r.2.2, (r.1.buf (some 0)).map List.length)) =
      some (some ⟨some 0, 2 ^ 62 + 1, 4, 1⟩, some 4) ∧
    4 ≠ (2 ^ 62 + 1) * 4 * 1 := by
  decide

/-- Claim C14 (amended).  For positive dimensions `(w, h, c)` whose product is a `size_t`
(below `2 ^ 64`), when `malloc` and `calloc` both return a block, `create_tensor (w, h, c,
false)` returns a tensor at which `get_tensor_element` returns `0.0f` for every coordinate
`x < w`, `y < h`, `z < c`. -/
theorem create_tensor_zero_initialized (s : State) (g : Rng) (lc : Libc) (w h c p : Nat)
    (hw : 0 < w) (hh : 0 < h) (hc : 0 < c) (hfit : w * h * c < 2 ^ 64)
    (hm : lc.malloc_ok = true) (hcal : (calloc s lc.calloc_ptr (w * h * c)).2 = some p) :
    ∃ s1, create_tensor s g lc w h c false = some (s1, g, some ⟨some p, w, h, c⟩) ∧
      ∀ x y z, x < w → y < h → z < c →
        get_tensor_element s1 (some ⟨some p, w, h, c⟩) x y z = some 0 := by
  have e : (w * h * c) % SIZE_MOD = w * h * c := Nat.mod_eq_of_lt hfit
  obtain ⟨s1, hcal1⟩ := calloc_snd_eq hcal
  rw [← e] at hcal1
  obtain ⟨s2, g2, b, h1, h2, h3, h4, h5⟩ := create_tensor_some s g lc w h c false hw hh hc hm
    hcal1
  obtain ⟨e1, e2, e3⟩ := h5 rfl
  subst e1 e2
  refine ⟨s2, h1, ?_⟩
  intro x y z hx hy hz
  have ht : Tensor.Holds ⟨some p, w, h, c⟩ s2 b := ⟨h2, by rw [h3, e], h4⟩
  have hlt := (offset_eq ht hx hy hz).2
  rw [get_of_holds ht hx hy hz, e3, List.getElem?_replicate]
  rw [e3, List.length_replicate] at hlt
  rw [if_pos hlt]

theorem create_tensor_zero_initialized_witness :
    ∃ s1, create_tensor (State.ofBufs []) rng_example libc_example 2 2 1 false =
        some (s1, rng_example, some ⟨some 0, 2, 2, 1⟩) ∧
      ∀ x y z, x < 2 → y < 2 → z < 1 →
        get_tensor_element s1 (some ⟨some 0, 2, 2, 1⟩) x y z = some 0 :=
  create_tensor_zero_initialized (State.ofBufs []) rng_example libc_example 2 2 1 0
    (by decide) (by decide) (by decide) (by decide) rfl (by decide)

/-- Claim C14, counterexample.  For the positive dimensions `(2 ^ 62 + 1, 4, 1)`, with
`malloc` and `calloc` succeeding, `create_tensor` returns a tensor whose buffer holds 4
elements; at the in-range coordinate `(4, 0, 0)` the read of `get_tensor_element` is past
the end of the buffer, so it does not return `0.0f`. -/
theorem create_tensor_wrap_read_counterexample :
    (create_tensor (State.ofBufs []) rng_example libc_example (2 ^ 62 + 1) 4 1 false).map
      (fun r => r.2.2) = some (some ⟨some 0, 2 ^ 62 + 1, 4, 1⟩) ∧
    4 < 2 ^ 62 + 1 ∧ 0 < 4 ∧ 0 < 1 ∧
    (create_tensor (State.ofBufs []) rng_example libc_example (2 ^ 62 + 1) 4 1 false).bind
      (fun r => get_tensor_element r.1 r.2.2 4 0 0) = none := by
  decide

/-! ## `print_tensor` -/

/-- Claim C16, evaluated at a failing input.  For the tensor of width 2, height 1 and
channels 1 whose buffer is `[1, 2]`, `print_tensor` passes to `printf` the values `1` and
`0`, not the buffer `[1, 2]`: it calls `get_tensor_element (tensor, c, h, w)`, the channel
index in the place of the column, so the element of column 1 is looked up at channel 1, out
of range, and reads as `0.0f`. -/
theorem print_tensor_swapped_arguments :
    print_example_state.buf (some 0) = some [F32.ofInt 1, F32.ofInt 2] ∧
    (print_tensor print_example_state (some ⟨some 0, 2, 1, 1⟩)).map
      (fun r => printedFloats r.2) = some [F32.ofInt 1, 0] ∧
    (print_tensor print_example_state (some ⟨some 0, 2, 1, 1⟩)).map (fun r => r.2) =
      some [⟨"Tensor[%zu, %zu, %zu] \x7b\n", [.zu 1, .zu 1, .zu 2]⟩, ⟨"    ", []⟩,
        ⟨"%8.4f ", [.f (F32.ofInt 1)]⟩, ⟨"%8.4f ", [.f 0]⟩, ⟨"\n", []⟩, ⟨"\x7d\n", []⟩] := by
  decide

/-! ## Results of binary32 additions are fixed points of rounding -/

theorem F32.roundShift_spec (n : Nat) : ∀ (fuel s : Nat), n / 2 ^ (s + fuel) < 2 ^ 24 →
    s ≤ F32.roundShift fuel n s ∧ n / 2 ^ F32.roundShift fuel n s < 2 ^ 24 ∧
      ∀ j, s ≤ j → j < F32.roundShift fuel n s → 2 ^ 24 ≤ n / 2 ^ j := by
  intro fuel
  induction fuel with
  | zero =>
    intro s h
    refine ⟨le_rfl, by simpa [F32.roundShift] using h, ?_⟩
    intro j h1 h2
    simp only [F32.roundShift] at h2
    omega
  | succ fuel ih =>
    intro s h
    simp only [F32.roundShift]
    split_ifs with hc
    · exact ⟨le_rfl, hc, fun j h1 h2 => by omega⟩
    · obtain ⟨a1, a2, a3⟩ := ih (s + 1)
        (by rw [show s + 1 + fuel = s + (fuel + 1) by omega]; exact h)
      refine ⟨by omega, a2, ?_⟩
      intro j h1 h2
      rcases Nat.eq_or_lt_of_le h1 with e | e
      · subst e; omega
      · exact a3 j e h2

theorem F32.roundShift_self_spec (n : Nat) :
    n / 2 ^ F32.roundShift n n 0 < 2 ^ 24 ∧
      ∀ j, j < F32.roundShift n n 0 → 2 ^ 24 ≤ n / 2 ^ j := by
  have h : n / 2 ^ (0 + n) < 2 ^ 24 := by
    rw [Nat.zero_add, Nat.div_eq_of_lt (Nat.lt_two_pow n)]
    positivity
  obtain ⟨-, a2, a3⟩ := F32.roundShift_spec n n 0 h
  exact ⟨a2, fun j hj => a3 j (Nat.zero_le _) hj⟩

theorem conv2d_int_ok_of_le {K o : Nat} (h : o + K ≤ 2 ^ 31) : conv2d_int_ok K o := by
  intro k hk
  have hpad : K / 2 < 2 ^ 31 := by omega
  rw [toInt_of_lt (by omega : o < 2 ^ 31), toInt_of_lt (by omega : k < 2 ^ 31),
    toInt_of_lt hpad, intResult_of_range (by omega) (by omega), Option.some_bind,
    intResult_of_range (by omega) (by omega)]
  exact ⟨_, rfl⟩

theorem Tensor.Holds.of_shape {tt : Tensor} {s t : State} {b : List F32} (ht : tt.Holds s b)
    (h : SameShape s t) : ∃ b1, tt.Holds t b1 ∧ b1.length = b.length := by
  obtain ⟨b1, e1, e2⟩ := h.buf_some ht.1
  exact ⟨b1, ⟨e1, by rw [e2]; exact ht.2.1, by rw [e2]; exact ht.2.2⟩, e2⟩

theorem get_some_of_shape {tt : Tensor} {s t : State} {b : List F32} (ht : tt.Holds s b)
    (h : SameShape s t) (w hh c : Nat) : ∃ x, get_tensor_element t (some tt) w hh c = some x := by
  obtain ⟨b1, h1, -⟩ := ht.of_shape h
  exact ⟨_, get_eq_some_Get h1 w hh c⟩

theorem set_some_of_shape {tt : Tensor} {s t : State} {b : List F32} (ht : tt.Holds s b)
    (h : SameShape s t) (w hh c : Nat) (v : F32) :
    ∃ t1, set_tensor_element t (some tt) w hh c v = some t1 ∧ SameShape s t1 ∧
      t1.stderr = t.stderr := by
  by_cases hr : w < tt.width ∧ hh < tt.height ∧ c < tt.channels
  · obtain ⟨hw, hh1, hc⟩ := hr
    have hd : tt.data ≠ none := by
      intro e; have := ht.1; simp [e, State.buf] at this
    obtain ⟨e1, e2⟩ := offset_eq ht hw hh1 hc
    obtain ⟨t1, a1, a2, a3⟩ := h.wr_some ht.1 e2 v
    refine ⟨t1, ?_, a2, a3⟩
    simp only [set_tensor_element, hd, false_or, ge_iff_le]
    rw [if_neg (by omega), e1]
    exact a1
  · refine ⟨t, ?_, h, rfl⟩
    simp only [set_tensor_element]
    rw [if_pos]
    omega

theorem set_shape_of_some {tt : Tensor} {s t t1 : State} (h : SameShape s t) {w hh c : Nat}
    {v : F32} (e : set_tensor_element t (some tt) w hh c v = some t1) : SameShape s t1 := by
  simp only [set_tensor_element] at e
  split_ifs at e
  · cases e; exact h
  · exact h.of_wr e

theorem forLoop_some {σ : Type} (lo hi : Nat) (body : Nat → σ → Option σ) (s : σ)
    (h : ∀ i t, lo ≤ i → i < hi → ∃ t1, body i t = some t1) :
    ∃ t, forLoop lo hi body s = some t := by
  rcases Nat.lt_or_ge hi lo with hlt | hle
  · exact ⟨s, forLoop_of_le lo hi body s (by omega)⟩
  · obtain ⟨t, ht, -⟩ := forLoop_inv (fun _ _ => True) lo hi body s hle trivial
      (fun i t h1 h2 _ => by obtain ⟨t1, e⟩ := h i t h1 h2; exact ⟨t1, e, trivial⟩)
    exact ⟨t, ht⟩

theorem conv2d_sum_some {s t : State} (h : SameShape s t) {inp wts : Tensor} {bi bw : List F32}
    (hi : inp.Holds s bi) (hw : wts.Holds s bw) {ow oh : Nat} (oc : Nat)
    (hoh : conv2d_int_ok wts.height oh) (how : conv2d_int_ok wts.height ow) :
    ∃ x, conv2d_sum t inp wts wts.height (wts.height / 2) ow oh oc = some x := by
  unfold conv2d_sum
  apply forLoop_some
  intro in_c acc _ _
  apply forLoop_some
  intro k_h acc _ hkh
  apply forLoop_some
  intro k_w acc _ hkw
  obtain ⟨zh, ezh⟩ := hoh k_h hkh
  obtain ⟨zw, ezw⟩ := how k_w hkw
  cases e1 : intResult (toInt oh + toInt k_h) with
  | none => rw [e1] at ezh; cases ezh
  | some t_h =>
    rw [e1, Option.some_bind] at ezh
    cases e2 : intResult (toInt ow + toInt k_w) with
    | none => rw [e2] at ezw; cases ezw
    | some t_w =>
      rw [e2, Option.some_bind] at ezw
      simp only [e1, e2, ezh, ezw, Option.some_bind]
      split_ifs with hc
      · obtain ⟨a, ha⟩ := get_some_of_shape hi h (toSize zw) (toSize zh) in_c
        obtain ⟨b, hb⟩ := get_some_of_shape hw h k_w k_h oc
        rw [ha, hb]
        exact ⟨_, rfl⟩
      · exact ⟨_, rfl⟩

theorem conv2d_cell_some {s t : State} (h : SameShape s t) {out inp wts : Tensor}
    {bias : Option Tensor} {bo bi bw : List F32} (ho : out.Holds s bo) (hi : inp.Holds s bi)
    (hw : wts.Holds s bw) (hb : BiasOK s bias out.channels) {ow oh oc : Nat}
    (hoc : oc < out.channels) (hoh : conv2d_int_ok wts.height oh)
    (how : conv2d_int_ok wts.height ow) :
    ∃ t1, ((conv2d_sum t inp wts wts.height (wts.height / 2) ow oh oc).bind fun sum =>
        (add_bias t bias oc sum).bind fun sum =>
        set_tensor_element t (some out) ow oh oc sum) = some t1 ∧
      SameShape s t1 ∧ t1.stderr = t.stderr := by
  obtain ⟨x, hx⟩ := conv2d_sum_some h hi hw oc hoh how
  obtain ⟨y, hy⟩ := h.add_bias_some hb hoc x
  obtain ⟨t1, a1, a2, a3⟩ := set_some_of_shape ho h ow oh oc y
  exact ⟨t1, by rw [hx, Option.some_bind, hy, Option.some_bind, a1], a2, a3⟩

theorem conv2d_cell_shape {s t t1 : State} (h : SameShape s t) {out inp wts : Tensor}
    {bias : Option Tensor} {ow oh oc : Nat}
    (e : ((conv2d_sum t inp wts wts.height (wts.height / 2) ow oh oc).bind fun sum =>
        (add_bias t bias oc sum).bind fun sum =>
        set_tensor_element t (some out) ow oh oc sum) = some t1) : SameShape s t1 := by
  cases e1 : conv2d_sum t inp wts wts.height (wts.height / 2) ow oh oc with
  | none => rw [e1] at e; cases e
  | some x =>
    rw [e1, Option.some_bind] at e
    cases e2 : add_bias t bias oc x with
    | none => rw [e2] at e; cases e
    | some y =>
      rw [e2, Option.some_bind] at e
      exact set_shape_of_some h e

theorem conv2d_returns {s : State} {out inp wts : Tensor} {bias : Option Tensor}
    {bo bi bw : List F32} (ho : out.Holds s bo) (hi : inp.Holds s bi) (hw : wts.Holds s bw)
    (hb : BiasOK s bias out.channels) (hno : conv2d_no_overflow out wts) :
    ∃ s1, conv2d s (some out) (some inp) (some wts) bias = some s1 ∧
      SameShape s s1 ∧ s1.stderr = s.stderr := by
  simp only [conv2d]
  refine forLoop_inv (fun _ t => SameShape s t ∧ t.stderr = s.stderr) 0 out.channels _ s
    (Nat.zero_le _) ⟨SameShape.self s, rfl⟩ ?_
  intro oc t _ hoc hP
  refine forLoop_inv (fun _ t => SameShape s t ∧ t.stderr = s.stderr) 0 out.height _ t
    (Nat.zero_le _) hP ?_
  intro oh t _ hoh hP
  refine forLoop_inv (fun _ t => SameShape s t ∧ t.stderr = s.stderr) 0 out.width _ t
    (Nat.zero_le _) hP ?_
  intro ow t _ how hP
  obtain ⟨t1, a1, a2, a3⟩ := conv2d_cell_some hP.1 ho hi hw hb hoc (hno.1 oh hoh)
    (hno.2 ow how)
  exact ⟨t1, a1, a2, a3.trans hP.2⟩

theorem conv2d_short_bias {s : State} {out inp wts b : Tensor} {bi bw bb : List F32}
    (hi : inp.Holds s bi) (hw : wts.Holds s bw)
    (hbb : s.buf b.data = some bb) (hlen : bb.length < out.channels) (hW : 0 < out.width)
    (hH : 0 < out.height) (hno : conv2d_no_overflow out wts) :
    conv2d s (some out) (some inp) (some wts) (some b) = none := by
  have hd : b.data ≠ none := by
    intro e; simp [e, State.buf] at hbb
  simp only [conv2d]
  apply forLoop_eq_none_inv (SameShape s) 0 out.channels bb.length _ s (Nat.zero_le _) hlen
    (SameShape.self s)
  · intro oc t t1 _ _ hs e
    refine forLoop_some_inv (SameShape s) 0 out.height _ t (Nat.zero_le _) hs ?_ t1 e
    intro oh t t1 _ _ hs e
    refine forLoop_some_inv (SameShape s) 0 out.width _ t (Nat.zero_le _) hs ?_ t1 e
    intro ow t t1 _ _ hs e
    exact conv2d_cell_shape hs e
  · intro t hs
    apply forLoop_eq_none_inv (SameShape s) 0 out.height 0 _ t (Nat.le_refl _) hH hs
    · intro j _ _ _ hj; omega
    · intro t hs
      apply forLoop_eq_none_inv (SameShape s) 0 out.width 0 _ t (Nat.le_refl _) hW hs
      · intro j _ _ _ hj; omega
      · intro t hs
        obtain ⟨x, hx⟩ := conv2d_sum_some hs hi hw bb.length (hno.1 0 hH) (hno.2 0 hW)
        have e : add_bias t (some b) bb.length x = none := by
          show (if b.data = none then some x
            else (t.rd b.data bb.length).bind (fun v => some (x + v))) = none
          rw [if_neg hd, hs.rd_none hbb le_rfl]
          rfl
        simp only [hx, Option.some_bind, e]
        rfl

/-- Claim C21.  For non-null output, input and weights tensors whose buffers hold
`width * height * channels` elements, whatever the shape of the weights: when the bias is
absent or holds at least `output.channels` elements, every access that `conv2d` makes (the
reads of input and weights through `get_tensor_element` at any coordinate, the write through
`set_tensor_element`, the read of `bias[out_c]`) is in range in every state that the call
goes through, and the call returns unless an `int` expression overflows, which it cannot
for `output.height + K` and `output.width + K` up to `2 ^ 31 + 1`; with a bias of fewer than
`output.channels` elements (and an output of positive width and height) the call faults,
on the read of `bias[out_c]` at the index equal to the length of the bias buffer. -/
theorem conv2d_index_safety (s : State) (out inp wts : Tensor) (bias : Option Tensor)
    (bo bi bw : List F32) (ho : out.Holds s bo) (hi : inp.Holds s bi) (hw : wts.Holds s bw) :
    (BiasOK s bias out.channels →
      (∀ t, SameShape s t →
        (∀ w h c, ∃ x, get_tensor_element t (some inp) w h c = some x) ∧
        (∀ w h c, ∃ x, get_tensor_element t (some wts) w h c = some x) ∧
        (∀ w h c v, ∃ t1, set_tensor_element t (some out) w h c v = some t1 ∧
          SameShape s t1) ∧
        (∀ c x, c < out.channels → ∃ y, add_bias t bias c x = some y)) ∧
      (conv2d_no_overflow out wts →
        ∃ s1, conv2d s (some out) (some inp) (some wts) bias = some s1 ∧
          SameShape s s1 ∧ s1.stderr = s.stderr)) ∧
    (out.height + wts.height ≤ 2 ^ 31 + 1 → out.width + wts.height ≤ 2 ^ 31 + 1 →
      conv2d_no_overflow out wts) ∧
    (∀ b bb, bias = some b → s.buf b.data = some bb → bb.length < out.channels →
      0 < out.width → 0 < out.height → conv2d_no_overflow out wts →
      conv2d s (some out) (some inp) (some wts) bias = none) := by
  refine ⟨fun hb => ⟨fun t ht => ⟨?_, ?_, ?_, ?_⟩, conv2d_returns ho hi hw hb⟩, ?_, ?_⟩
  · exact get_some_of_shape hi ht
  · exact get_some_of_shape hw ht
  · intro w h c v
    obtain ⟨t1, a1, a2, -⟩ := set_some_of_shape ho ht w h c v
    exact ⟨t1, a1, a2⟩
  · intro c x hc
    exact ht.add_bias_some hb hc x
  · intro h1 h2
    exact ⟨fun o ho1 => conv2d_int_ok_of_le (by omega),
      fun o ho1 => conv2d_int_ok_of_le (by omega)⟩
  · intro b bb e hbb hlen hW hH hno
    subst e
    exact conv2d_short_bias hi hw hbb hlen hW hH hno

theorem conv2d_index_safety_witness :
    (∃ s1, conv2d conv2d_bias_state (some ⟨some 0, 2, 2, 2⟩) (some ⟨some 1, 2, 2, 1⟩)
        (some ⟨some 2, 1, 3, 1⟩) (some ⟨some 3, 2, 1, 1⟩) = some s1 ∧
      SameShape conv2d_bias_state s1 ∧ s1.stderr = conv2d_bias_state.stderr) ∧
    conv2d conv2d_bias_state (some ⟨some 0, 2, 2, 2⟩) (some ⟨some 1, 2, 2, 1⟩)
      (some ⟨some 2, 1, 3, 1⟩) (some ⟨some 4, 1, 1, 1⟩) = none :=
  ⟨((conv2d_index_safety conv2d_bias_state ⟨some 0, 2, 2, 2⟩ ⟨some 1, 2, 2, 1⟩
      ⟨some 2, 1, 3, 1⟩ (some ⟨some 3, 2, 1, 1⟩) (List.replicate 8 0)
      [F32.ofInt 1, F32.ofInt 2, F32.ofInt 3, F32.ofInt 4] [1, 1, 1]
      (by decide) (by decide) (by decide)).1
        (Or.inr ⟨[F32.ofInt 5, F32.ofInt 6], rfl, by decide⟩)).2
      ((conv2d_index_safety conv2d_bias_state ⟨some 0, 2, 2, 2⟩ ⟨some 1, 2, 2, 1⟩
        ⟨some 2, 1, 3, 1⟩ (some ⟨some 3, 2, 1, 1⟩) (List.replicate 8 0)
        [F32.ofInt 1, F32.ofInt 2, F32.ofInt 3, F32.ofInt 4] [1, 1, 1]
        (by decide) (by decide) (by decide)).2.1 (by decide) (by decide)),
    (conv2d_index_safety conv2d_bias_state ⟨some 0, 2, 2, 2⟩ ⟨some 1, 2, 2, 1⟩
      ⟨some 2, 1, 3, 1⟩ (some ⟨some 4, 1, 1, 1⟩) (List.replicate 8 0)
      [F32.ofInt 1, F32.ofInt 2, F32.ofInt 3, F32.ofInt 4] [1, 1, 1]
      (by decide) (by decide) (by decide)).2.2 ⟨some 4, 1, 1, 1⟩ [F32.ofInt 5] rfl rfl
      (by decide) (by decide) (by decide)
      ((conv2d_index_safety conv2d_bias_state ⟨some 0, 2, 2, 2⟩ ⟨some 1, 2, 2, 1⟩
        ⟨some 2, 1, 3, 1⟩ (some ⟨some 4, 1, 1, 1⟩) (List.replicate 8 0)
        [F32.ofInt 1, F32.ofInt 2, F32.ofInt 3, F32.ofInt 4] [1, 1, 1]
        (by decide) (by decide) (by decide)).2.1 (by decide) (by decide))⟩

/-! ## Output cells of `maxpool2d` with an empty window -/

theorem foldl_fixed {α β : Type} (f : β → α → β) (l : List α) (acc : β)
    (h : ∀ a, a ∈ l → f acc a = acc) : l.foldl f acc = acc := by
  induction l with
  | nil => rfl
  | cons a l ih =>
    rw [List.foldl_cons, h a (List.mem_cons_self _ _)]
    exact ih (fun b hb => h b (List.mem_cons_of_mem _ hb))

theorem maxpool2d_fold_empty (s : State) (inp : Tensor) (p ow oh c : Nat)
    (h : ∀ k_w k_h, k_w < p → k_h < p →
      ¬ ((oh * p + k_h) % SIZE_MOD < inp.height ∧ (ow * p + k_w) % SIZE_MOD < inp.width)) :
    maxpool2d_fold s inp p ow oh c = -F32.FLT_MAX := by
  unfold maxpool2d_fold
  apply foldl_fixed
  intro k_h hkh
  apply foldl_fixed
  intro k_w hkw
  rw [List.mem_range] at hkh hkw
  rw [if_neg (h k_w k_h hkw hkh)]

theorem pool_window_outside {n o p : Nat} (h1 : n ≤ o * p) (h2 : (o + 1) * p ≤ 2 ^ 64)
    {k : Nat} (hk : k < p) : ¬ (o * p + k) % SIZE_MOD < n := by
  have e : (o + 1) * p = o * p + p := by ring
  have : (o * p + k) % SIZE_MOD = o * p + k := by
    unfold SIZE_MOD
    exact Nat.mod_eq_of_lt (by omega)
  omega

theorem F32.neg_FLT_MAX_le {x : F32} (h : x.IsFinite) : -F32.FLT_MAX ≤ x := by
  obtain ⟨m, rfl, hm⟩ := h
  show F32.le (F32.neg F32.FLT_MAX) (F32.fin m) = true
  have hr : m.natAbs ≤ (2 ^ 24 - 1) * 2 ^ 253 := by
    unfold F32.ofExact at hm
    simp only at hm
    have hfix : F32.roundNat m.natAbs 0 = m.natAbs ∧ m.natAbs < 2 ^ 128 * 2 ^ 149 := by
      split_ifs at hm with h1 h2 h2
      · simp only [F32.fin.injEq] at hm
        exact ⟨by omega, by omega⟩
      · simp only [F32.fin.injEq] at hm
        exact ⟨by omega, by omega⟩
    obtain ⟨hfix, hlt⟩ := hfix
    obtain ⟨hq, hmin⟩ := F32.roundShift_self_spec m.natAbs
    have hdvd : 2 ^ F32.roundShift m.natAbs m.natAbs 0 ∣ m.natAbs := by
      have hR : ∃ q1, F32.roundNat m.natAbs 0 = q1 * 2 ^ F32.roundShift m.natAbs m.natAbs 0 := by
        unfold F32.roundNat
        simp only [Nat.sub_zero]
        exact ⟨_, rfl⟩
      obtain ⟨q1, hq1⟩ := hR
      rw [hfix] at hq1
      exact Dvd.intro_left q1 hq1.symm
    generalize F32.roundShift m.natAbs m.natAbs 0 = sh at hq hmin hdvd
    generalize m.natAbs = r at hq hmin hdvd hlt
    rcases Nat.lt_or_ge 253 sh with hs | hs
    · have h1 := hmin 253 hs
      have h2 : 2 ^ 24 * 2 ^ 253 ≤ r := by
        calc 2 ^ 24 * 2 ^ 253 ≤ r / 2 ^ 253 * 2 ^ 253 := Nat.mul_le_mul_right _ h1
          _ ≤ r := Nat.div_mul_le_self r _
      omega
    · obtain ⟨q, rfl⟩ := hdvd
      have hpos : 0 < 2 ^ sh := by positivity
      rw [Nat.mul_div_cancel_left _ hpos] at hq
      calc 2 ^ sh * q ≤ 2 ^ sh * (2 ^ 24 - 1) := Nat.mul_le_mul_left _ (by omega)
        _ = (2 ^ 24 - 1) * 2 ^ sh := Nat.mul_comm _ _
        _ ≤ (2 ^ 24 - 1) * 2 ^ 253 := Nat.mul_le_mul_left _ (Nat.pow_le_pow_right (by omega) hs)
  show decide (-(((2 ^ 24 - 1) * 2 ^ 253 : Nat) : Int) ≤ m) = true
  rw [decide_eq_true_eq]
  omega

theorem maxpool2d_fold_wrap {s : State} {inp : Tensor} (hW : inp.width = 1)
    (hH : inp.height = 1) {p oh : Nat} (hp : 1 ≤ p) (hp64 : p < 2 ^ 64)
    (hwrap : oh * p = 2 ^ 64) (hv : -F32.FLT_MAX < Get s inp 0 0 0) :
    maxpool2d_fold s inp p 0 oh 0 = Get s inp 0 0 0 := by
  obtain ⟨n, rfl⟩ : ∃ n, p = n + 1 := ⟨p - 1, by omega⟩
  have hmem : ∀ b, b ∈ List.map Nat.succ (List.range n) → b ≠ 0 ∧ b < n + 1 := by
    intro b hb
    simp only [List.mem_map, List.mem_range] at hb
    obtain ⟨k, hk, rfl⟩ := hb
    exact ⟨Nat.succ_ne_zero k, by omega⟩
  have mh : ∀ k, k < n + 1 → (oh * (n + 1) + k) % SIZE_MOD = k := by
    intro k hk
    unfold SIZE_MOD
    rw [hwrap, Nat.add_mod_left]
    exact Nat.mod_eq_of_lt (by omega)
  have mw : ∀ k, k < n + 1 → (0 * (n + 1) + k) % SIZE_MOD = k := by
    intro k hk
    unfold SIZE_MOD
    rw [Nat.zero_mul, Nat.zero_add]
    exact Nat.mod_eq_of_lt (by omega)
  have hA : ∀ (acc : F32) (k_h k_w : Nat), k_h < n + 1 → k_w < n + 1 → (k_h ≠ 0 ∨ k_w ≠ 0) →
      (if (oh * (n + 1) + k_h) % SIZE_MOD < inp.height ∧
          (0 * (n + 1) + k_w) % SIZE_MOD < inp.width then
        if acc < Get s inp ((0 * (n + 1) + k_w) % SIZE_MOD)
            ((oh * (n + 1) + k_h) % SIZE_MOD) 0 then
          Get s inp ((0 * (n + 1) + k_w) % SIZE_MOD) ((oh * (n + 1) + k_h) % SIZE_MOD) 0
        else acc
      else acc) = acc := by
    intro acc k_h k_w h1 h2 h3
    rw [mh k_h h1, mw k_w h2, hW, hH, if_neg (by omega)]
  have hB : (if (oh * (n + 1) + 0) % SIZE_MOD < inp.height ∧
          (0 * (n + 1) + 0) % SIZE_MOD < inp.width then
        if -F32.FLT_MAX < Get s inp ((0 * (n + 1) + 0) % SIZE_MOD)
            ((oh * (n + 1) + 0) % SIZE_MOD) 0 then
          Get s inp ((0 * (n + 1) + 0) % SIZE_MOD) ((oh * (n + 1) + 0) % SIZE_MOD) 0
        else -F32.FLT_MAX
      else -F32.FLT_MAX) = Get s inp 0 0 0 := by
    rw [mh 0 (by omega), mw 0 (by omega), hW, hH, if_pos (by omega), if_pos hv]
  have hrow : ∀ (acc : F32) (k_h : Nat), k_h < n + 1 → k_h ≠ 0 →
      (List.range (n + 1)).foldl (fun (acc : F32) (pool_w : Nat) =>
        if (oh * (n + 1) + k_h) % SIZE_MOD < inp.height ∧
            (0 * (n + 1) + pool_w) % SIZE_MOD < inp.width then
          if acc < Get s inp ((0 * (n + 1) + pool_w) % SIZE_MOD)
              ((oh * (n + 1) + k_h) % SIZE_MOD) 0 then
            Get s inp ((0 * (n + 1) + pool_w) % SIZE_MOD) ((oh * (n + 1) + k_h) % SIZE_MOD) 0
          else acc
        else acc) acc = acc := by
    intro acc k_h h1 h2
    apply foldl_fixed
    intro b hb
    rw [List.mem_range] at hb
    exact hA acc k_h b h1 hb (Or.inl h2)
  have hrow0 : (List.range (n + 1)).foldl (fun (acc : F32) (pool_w : Nat) =>
        if (oh * (n + 1) + 0) % SIZE_MOD < inp.height ∧
            (0 * (n + 1) + pool_w) % SIZE_MOD < inp.width then
          if acc < Get s inp ((0 * (n + 1) + pool_w) % SIZE_MOD)
              ((oh * (n + 1) + 0) % SIZE_MOD) 0 then
            Get s inp ((0 * (n + 1) + pool_w) % SIZE_MOD) ((oh * (n + 1) + 0) % SIZE_MOD) 0
          else acc
        else acc) (-F32.FLT_MAX) = Get s inp 0 0 0 := by
    rw [List.range_succ_eq_map, List.foldl_cons, hB]
    apply foldl_fixed
    intro b hb
    exact hA _ 0 b (by omega) (hmem b hb).2 (Or.inr (hmem b hb).1)
  unfold maxpool2d_fold
  have e : List.range (n + 1) = 0 :: List.map Nat.succ (List.range n) :=
    List.range_succ_eq_map n
  conv_lhs => arg 3; rw [e]
  rw [List.foldl_cons, hrow0]
  apply foldl_fixed
  intro a ha
  exact hrow _ a (hmem a ha).2 (hmem a ha).1

/-- Claim C22 (amended).  For every pool size `p >= 1`, `maxpool2d` returns and stores the
sentinel `-FLT_MAX` at every in-range output coordinate `(out_w, out_h, c)` whose window has
no position that passes the bounds test; this is the case when `out_w * p >= input.width`
and the window indices of that axis do not wrap in `size_t` (`(out_w + 1) * p <= 2 ^ 64`), or
when `out_h * p >= input.height` and `(out_h + 1) * p <= 2 ^ 64`.  The value stored does not
depend on the previous content of the output, is not 0, and is the most negative finite
value. -/
theorem maxpool2d_empty_window (s : State) (out inp : Tensor) (bo bi : List F32) (p : Nat)
    (hp : 1 ≤ p) (ho : out.Holds s bo) (hi : inp.Holds s bi) (hoi : inp.data ≠ out.data) :
    ∃ s1, maxpool2d s (some out) (some inp) p = some s1 ∧
      (∀ out_w out_h c, out_w < out.width → out_h < out.height → c < out.channels →
        (∀ k_w k_h, k_w < p → k_h < p →
          ¬ ((out_h * p + k_h) % SIZE_MOD < inp.height ∧
            (out_w * p + k_w) % SIZE_MOD < inp.width)) →
        get_tensor_element s1 (some out) out_w out_h c = some (-F32.FLT_MAX)) ∧
      (∀ out_w out_h c, out_w < out.width → out_h < out.height → c < out.channels →
        (inp.width ≤ out_w * p ∧ (out_w + 1) * p ≤ 2 ^ 64) ∨
          (inp.height ≤ out_h * p ∧ (out_h + 1) * p ≤ 2 ^ 64) →
        get_tensor_element s1 (some out) out_w out_h c = some (-F32.FLT_MAX)) ∧
      -F32.FLT_MAX ≠ 0 ∧ ∀ x : F32, x.IsFinite → -F32.FLT_MAX ≤ x := by
  obtain ⟨s1, h1, h2⟩ := maxpool2d_correct s out inp bo bi p hp ho hi hoi
  have key : ∀ out_w out_h c, out_w < out.width → out_h < out.height → c < out.channels →
      (∀ k_w k_h, k_w < p → k_h < p →
        ¬ ((out_h * p + k_h) % SIZE_MOD < inp.height ∧
          (out_w * p + k_w) % SIZE_MOD < inp.width)) →
      get_tensor_element s1 (some out) out_w out_h c = some (-F32.FLT_MAX) := by
    intro ow oh c hw hh hc hempty
    rw [h2.get hw hh hc, maxpool2d_fold_empty s inp p ow oh c hempty]
  refine ⟨s1, h1, key, ?_, by decide, fun x hx => F32.neg_FLT_MAX_le hx⟩
  intro ow oh c hw hh hc hout
  apply key ow oh c hw hh hc
  intro k_w k_h hkw hkh hin
  rcases hout with ⟨a1, a2⟩ | ⟨a1, a2⟩
  · exact pool_window_outside a1 a2 hkw hin.2
  · exact pool_window_outside a1 a2 hkh hin.1

theorem maxpool2d_empty_window_witness :
    ∃ s1, maxpool2d maxpool2d_wide_state (some ⟨some 0, 2, 2, 1⟩) (some ⟨some 1, 2, 2, 1⟩) 2 =
        some s1 ∧
      (∀ out_w out_h c, out_w < 2 → out_h < 2 → c < 1 →
        (∀ k_w k_h, k_w < 2 → k_h < 2 →
          ¬ ((out_h * 2 + k_h) % SIZE_MOD < 2 ∧ (out_w * 2 + k_w) % SIZE_MOD < 2)) →
        get_tensor_element s1 (some ⟨some 0, 2, 2, 1⟩) out_w out_h c =
          some (-F32.FLT_MAX)) ∧
      (∀ out_w out_h c, out_w < 2 → out_h < 2 → c < 1 →
        (2 ≤ out_w * 2 ∧ (out_w + 1) * 2 ≤ 2 ^ 64) ∨
          (2 ≤ out_h * 2 ∧ (out_h + 1) * 2 ≤ 2 ^ 64) →
        get_tensor_element s1 (some ⟨some 0, 2, 2, 1⟩) out_w out_h c =
          some (-F32.FLT_MAX)) ∧
      -F32.FLT_MAX ≠ 0 ∧ ∀ x : F32, x.IsFinite → -F32.FLT_MAX ≤ x :=
  maxpool2d_empty_window maxpool2d_wide_state ⟨some 0, 2, 2, 1⟩ ⟨some 1, 2, 2, 1⟩
    [1, 1, 1, 1] [F32.ofInt 1, F32.ofInt 2, F32.ofInt 3, F32.ofInt 4] 2 (by decide)
    (by decide) (by decide) (by decide)

/-- Claim C22, counterexample.  Take `pool_size = 2 ^ 63`, a 1 x 1 x 1 input holding one and
an output of width 1 and height 3.  For the output cell `(0, 2, 0)` the claim's condition
holds, `out_h * p = 2 ^ 64 >= input.height`; but in `size_t` the index `out_h * pool_size`
wraps to 0, the window position `(0, 0)` passes the bounds test and the value stored is the
input element 1, not `-FLT_MAX`. -/
theorem maxpool2d_wrap_counterexample :
    Tensor.Holds ⟨some 0, 1, 3, 1⟩ maxpool2d_wrap_state [0, 0, 0] ∧
    Tensor.Holds ⟨some 1, 1, 1, 1⟩ maxpool2d_wrap_state [1] ∧
    1 ≤ 2 ^ 63 ∧ 1 ≤ 2 * 2 ^ 63 ∧
    ((maxpool2d maxpool2d_wrap_state (some ⟨some 0, 1, 3, 1⟩) (some ⟨some 1, 1, 1, 1⟩)
      (2 ^ 63)).bind fun s1 => get_tensor_element s1 (some ⟨some 0, 1, 3, 1⟩) 0 2 0) =
      some 1 ∧
    (1 : F32) ≠ -F32.FLT_MAX := by
  have ho : Tensor.Holds ⟨some 0, 1, 3, 1⟩ maxpool2d_wrap_state [0, 0, 0] := by decide
  have hi : Tensor.Holds ⟨some 1, 1, 1, 1⟩ maxpool2d_wrap_state [1] := by decide
  refine ⟨ho, hi, by norm_num, by norm_num, ?_, by decide⟩
  obtain ⟨s1, h1, h2⟩ := maxpool2d_correct maxpool2d_wrap_state ⟨some 0, 1, 3, 1⟩
    ⟨some 1, 1, 1, 1⟩ [0, 0, 0] [1] (2 ^ 63) (by norm_num) ho hi (by decide)
  have hg : Get maxpool2d_wrap_state ⟨some 1, 1, 1, 1⟩ 0 0 0 = 1 := by decide
  rw [h1, Option.some_bind, h2.get (by decide) (by decide) (by decide),
    maxpool2d_fold_wrap rfl rfl (by norm_num) (by norm_num) (by norm_num)
      (by rw [hg]; decide), hg]

end NN
